import Mathlib

/-!
# Model selection and fallback (`server/utils/modelSelector.js`)

A shallow embedding of the provider registry `MODELS`, the policy table
`TASK_PREFERENCES`, `selectBestModel`, `callAI` and `callGoogleGemini`, followed by the
properties of the selector and of the fallback chain.

Conventions of the embedding:
* the environment variables read when the module is loaded are a record `Env`;
* a JavaScript value that crosses the HTTP boundary is a `JsVal`;
* `axios.post` is a function from the request to either the rejection (an `AxiosError`)
  or the `data` of the response (one execution sends at most one request to a provider, and
  providers differ in their endpoints); every execution also records the calls it issued;
* an exception (a rejected promise of an `async` function) is the `error` side of `Except`.
-/

set_option autoImplicit false

namespace ModelSelector

/-! ## JavaScript values -/

/-- JavaScript values as they appear in request bodies, in response data and in options. -/
inductive JsVal where
  | undefined
  | null
  | bool (b : Bool)
  | num (q : ℚ)
  | nan
  | str (s : String)
  | arr (xs : List JsVal)
  | obj (fields : List (String × JsVal))

/-- Truthiness (`ToBoolean`): `undefined`, `null`, `false`, `0`, `NaN` and the empty string
are falsy, every other value is truthy. -/
def JsVal.truthy : JsVal → Bool
  | .undefined => false
  | .null => false
  | .bool b => b
  | .num q => decide (q ≠ 0)
  | .nan => false
  | .str s => decide (s ≠ "")
  | .arr _ => true
  | .obj _ => true

/-- The expression `a || b`. -/
def jsOr (a b : JsVal) : JsVal := if a.truthy then a else b

/-- The error object with which `axios.post` rejects: its message, its `code`
(`ECONNABORTED` on a timeout) and the status of the response when there is one. -/
structure AxiosError where
  message : String
  code : Option String
  status : Option Nat
  deriving DecidableEq, Repr

/-- What an execution can throw: an `Error` made by the module with `new Error(message)`
(it has a message and no other own data), a `TypeError` raised by the engine, or the
rejection of `axios.post`, rethrown as it is. -/
inductive Thrown where
  | error (message : String)
  | typeError (message : String)
  | rejected (e : AxiosError)
  deriving DecidableEq, Repr

/-- Reading the property `attempts` of a thrown value: none of the three kinds of thrown
value has such a property, so the read gives `undefined`. -/
def Thrown.attempts : Thrown → JsVal
  | .error _ => .undefined
  | .typeError _ => .undefined
  | .rejected _ => .undefined

/-! ## The registry `MODELS` -/

/-- The keys of `MODELS`. -/
inductive ModelKey where
  | GROQ
  | OPENAI
  | OPENROUTER
  | GOOGLE
  | PERPLEXITY
  deriving DecidableEq, Repr

/-- The environment variables the module reads at load time; `none` is an unset variable
(`undefined`). -/
structure Env where
  GROQ_API_KEY : Option String
  OPENAI_API_KEY : Option String
  OPENROUTER_API_KEY : Option String
  GOOGLE_API_KEY : Option String
  PERPLEXITY_API_KEY : Option String
  OPENROUTER_MODEL : Option String
  PERPLEXITY_MODEL : Option String
  deriving DecidableEq, Repr

/-- An entry of `MODELS`. -/
structure Model where
  name : String
  endpoint : String
  model : String
  apiKey : Option String
  strengths : List String
  priority : Nat
  deriving DecidableEq, Repr

/-- Truthiness of a value that is a string or `undefined`. -/
def strTruthy : Option String → Bool
  | none => false
  | some s => decide (s ≠ "")

/-- The expression `v || d` for a value `v` that is a string or `undefined`. -/
def strOr (v : Option String) (d : String) : String :=
  if strTruthy v then v.getD d else d

/-- The object `MODELS`, entry by entry. -/
def MODELS (env : Env) : ModelKey → Model
  | .GROQ =>
    { name := "Groq (Fast & Free)"
      endpoint := "https://api.groq.com/openai/v1/chat/completions"
      model := "llama-3.3-70b-versatile"
      apiKey := env.GROQ_API_KEY
      strengths := ["code-generation", "explanation", "debugging", "optimization", "general"]
      priority := 0 }
  | .OPENAI =>
    { name := "OpenAI GPT-3.5-Turbo"
      endpoint := "https://api.openai.com/v1/chat/completions"
      model := "gpt-3.5-turbo"
      apiKey := env.OPENAI_API_KEY
      strengths := ["code-generation", "explanation", "debugging"]
      priority := 1 }
  | .OPENROUTER =>
    { name := "OpenRouter"
      endpoint := "https://openrouter.ai/api/v1/chat/completions"
      model := strOr env.OPENROUTER_MODEL "openai/gpt-3.5-turbo"
      apiKey := env.OPENROUTER_API_KEY
      strengths := ["code-generation", "optimization", "general"]
      priority := 2 }
  | .GOOGLE =>
    { name := "Google Gemini"
      endpoint :=
        "https://generativelanguage.googleapis.com/v1beta/models/gemini-pro:generateContent"
      model := "gemini-pro"
      apiKey := env.GOOGLE_API_KEY
      strengths := ["explanation", "analysis"]
      priority := 3 }
  | .PERPLEXITY =>
    { name := "Perplexity"
      endpoint := "https://api.perplexity.ai/chat/completions"
      model := strOr env.PERPLEXITY_MODEL "sonar"
      apiKey := env.PERPLEXITY_API_KEY
      strengths := ["search", "research"]
      priority := 4 }

/-- The keys of `MODELS` in the order in which `for ... in MODELS` and
`Object.values(MODELS)` go through them: the order of the object literal. -/
def modelKeys : List ModelKey :=
  [.GROQ, .OPENAI, .OPENROUTER, .GOOGLE, .PERPLEXITY]

/-- The test `model.apiKey` used as a condition: the key is a non-empty string. -/
def configured (env : Env) (k : ModelKey) : Bool :=
  strTruthy (MODELS env k).apiKey

/-! ## The policy table `TASK_PREFERENCES` -/

/-- The result of the property read `TASK_PREFERENCES[taskType]`: an own property of the
table (a list of model keys), a property inherited from `Object.prototype` (a function or
an object, truthy and not iterable), or `undefined`. -/
inductive PrefLookup where
  | own (prefs : List ModelKey)
  | inherited
  | undefined
  deriving DecidableEq, Repr

/-- The property names every object literal inherits from `Object.prototype`. -/
def objectPrototypeKeys : List String :=
  ["constructor", "__defineGetter__", "__defineSetter__", "hasOwnProperty",
   "__lookupGetter__", "__lookupSetter__", "isPrototypeOf", "propertyIsEnumerable",
   "toString", "valueOf", "__proto__", "toLocaleString"]

/-- The own entries of `TASK_PREFERENCES`, in the order of the object literal. -/
def TASK_PREFERENCES : List (String × List ModelKey) :=
  [("code-generation", [.GROQ, .OPENAI, .OPENROUTER, .GOOGLE]),
   ("explanation", [.GROQ, .OPENAI, .GOOGLE, .OPENROUTER]),
   ("debugging", [.GROQ, .OPENAI, .OPENROUTER, .GOOGLE]),
   ("optimization", [.GROQ, .OPENAI, .OPENROUTER, .GOOGLE]),
   ("search", [.PERPLEXITY, .GROQ, .GOOGLE]),
   ("general", [.GROQ, .OPENAI, .OPENROUTER, .GOOGLE])]

/-- The list `TASK_PREFERENCES.general`. -/
def generalPreferences : List ModelKey :=
  [.GROQ, .OPENAI, .OPENROUTER, .GOOGLE]

/-- The property read `TASK_PREFERENCES[taskType]`: own properties first, then the
prototype chain. -/
def taskPreferencesGet (taskType : String) : PrefLookup :=
  match TASK_PREFERENCES.lookup taskType with
  | some prefs => .own prefs
  | none => if taskType ∈ objectPrototypeKeys then .inherited else .undefined

/-- The exported `TASK_TYPES`: `Object.keys(TASK_PREFERENCES)`. -/
def TASK_TYPES : List String := TASK_PREFERENCES.map Prod.fst

/-! ## `selectBestModel` -/

/-- The message of the error thrown when no key is set. -/
def noModelsMessage : String :=
  "No AI models available. Please configure at least one API key."

/-- The function `selectBestModel(taskType = "general")`. `none` is an omitted (or
`undefined`) argument. The returned key `k` stands for the object `MODELS[k]`: the callers
compare the result by identity with the entries of `MODELS`.

`preferences` is `TASK_PREFERENCES[taskType] || TASK_PREFERENCES.general`; an inherited
property is truthy, so it is kept, and `for (... of preferences)` then throws because the
value is not iterable. Every key in a preference list names an entry of `MODELS`, so the
test `model && model.apiKey` is the test `model.apiKey`. -/
def selectBestModel (env : Env) (taskType : Option String) : Except Thrown ModelKey :=
  let preferences :=
    match taskPreferencesGet (taskType.getD "general") with
    | .undefined => PrefLookup.own generalPreferences
    | found => found
  match preferences with
  | .own prefs =>
    match prefs.find? (fun modelKey => configured env modelKey) with
    | some modelKey => .ok modelKey
    | none =>
      match modelKeys.find? (fun modelKey => configured env modelKey) with
      | some modelKey => .ok modelKey
      | none => .error (.error noModelsMessage)
  | _ => .error (.typeError "preferences is not iterable")

/-! ## Requests and responses -/

/-- A chat message. -/
structure Message where
  role : String
  content : String
  deriving DecidableEq, Repr

/-- The fields of `options` the module reads; a field that is absent is `undefined`. -/
structure Options where
  temperature : JsVal
  maxTokens : JsVal

/-- The arguments of one `axios.post(url, body, config)`: `config.headers` in the order
of the object literal, and `config.timeout` in milliseconds. -/
structure Request where
  url : String
  body : JsVal
  headers : List (String × String)
  timeout : Nat

/-- The HTTP transport: `axios.post` either rejects or resolves with a response whose
`data` is returned. -/
abbrev Transport := Request → Except AxiosError JsVal

/-- One invocation of a provider: which provider, and with what request. -/
structure Call where
  provider : ModelKey
  request : Request

/-- A string or `undefined` inside a template literal. -/
def template : Option String → String
  | none => "undefined"
  | some s => s

/-- The array `messages` as a JavaScript value. -/
def messagesJson (messages : List Message) : JsVal :=
  .arr (messages.map fun m => .obj [("role", .str m.role), ("content", .str m.content)])

/-- The message of the `TypeError` for a property read on `undefined` or `null`. -/
def cannotRead (base key : String) : String :=
  "Cannot read properties of " ++ base ++ " (reading \x27" ++ key ++ "\x27)"

/-- The property read `v.key`, for the names this module reads from response data
(`choices`, `message`, `content`, `candidates`, `parts`, `text`), none of which is defined
on a built-in prototype: an object gives its own property or `undefined`, every other
value but `undefined` and `null` gives `undefined`, and those two throw. -/
def getProp (v : JsVal) (key : String) : Except Thrown JsVal :=
  match v with
  | .undefined => .error (.typeError (cannotRead "undefined" key))
  | .null => .error (.typeError (cannotRead "null" key))
  | .obj fields => .ok ((fields.lookup key).getD .undefined)
  | _ => .ok .undefined

/-- The element read `v[0]`: the first element of an array, the first character of a
string (only whether it exists is ever observed), the property `0` of an object. -/
def getIndex0 (v : JsVal) : Except Thrown JsVal :=
  match v with
  | .undefined => .error (.typeError (cannotRead "undefined" "0"))
  | .null => .error (.typeError (cannotRead "null" "0"))
  | .arr xs => .ok (xs.head?.getD .undefined)
  | .str s =>
    match s.data with
    | [] => .ok .undefined
    | c :: _ => .ok (.str (String.mk [c]))
  | .obj fields => .ok ((fields.lookup "0").getD .undefined)
  | _ => .ok .undefined

/-- The expression `response.data.choices[0].message.content`. -/
def extractChat (data : JsVal) : Except Thrown JsVal := do
  let choices ← getProp data "choices"
  let first ← getIndex0 choices
  let message ← getProp first "message"
  getProp message "content"

/-- The expression `response.data.candidates[0].content.parts[0].text`. -/
def extractGemini (data : JsVal) : Except Thrown JsVal := do
  let candidates ← getProp data "candidates"
  let first ← getIndex0 candidates
  let content ← getProp first "content"
  let parts ← getProp content "parts"
  let part ← getIndex0 parts
  getProp part "text"

/-- The body of the OpenAI-compatible call, the same object literal in both places where
`callAI` writes it. -/
def chatBody (m : Model) (messages : List Message) (options : Options) : JsVal :=
  .obj [("model", .str m.model),
        ("messages", messagesJson messages),
        ("temperature", jsOr options.temperature (.num (7 / 10))),
        ("max_tokens", jsOr options.maxTokens (.num 2000))]

/-- The request `callAI` sends to the selected model (not Gemini). -/
def primaryRequest (env : Env) (model : ModelKey) (messages : List Message)
    (options : Options) : Request :=
  { url := (MODELS env model).endpoint
    body := chatBody (MODELS env model) messages options
    headers :=
      [("Authorization", "Bearer " ++ template (MODELS env model).apiKey),
       ("Content-Type", "application/json")] ++
      (if model = .OPENROUTER then [("HTTP-Referer", "http://localhost:5173")] else [])
    timeout := 30000 }

/-- The request `callAI` sends to a fallback model (not Gemini). -/
def fallbackRequest (env : Env) (fallback : ModelKey) (messages : List Message)
    (options : Options) : Request :=
  { url := (MODELS env fallback).endpoint
    body := chatBody (MODELS env fallback) messages options
    headers :=
      [("Authorization", "Bearer " ++ template (MODELS env fallback).apiKey),
       ("Content-Type", "application/json")]
    timeout := 30000 }

/-- The request built by `callGoogleGemini`. -/
def geminiRequest (env : Env) (messages : List Message) (options : Options) : Request :=
  let prompt := "\n\n".intercalate (messages.map fun m => m.content)
  { url := (MODELS env .GOOGLE).endpoint ++ "?key=" ++ template (MODELS env .GOOGLE).apiKey
    body :=
      .obj [("contents", .arr [.obj [("parts", .arr [.obj [("text", .str prompt)]])]]),
            ("generationConfig",
              .obj [("temperature", jsOr options.temperature (.num (7 / 10))),
                    ("maxOutputTokens", jsOr options.maxTokens (.num 2000))])]
    headers := [("Content-Type", "application/json")]
    timeout := 30000 }

/-- The function `callGoogleGemini(messages, options)`: one call, then the extraction. The
first component is the call issued. -/
def callGoogleGemini (env : Env) (post : Transport) (messages : List Message)
    (options : Options) : List Call × Except Thrown JsVal :=
  let request := geminiRequest env messages options
  ([⟨.GOOGLE, request⟩],
    match post request with
    | .error e => .error (.rejected e)
    | .ok data => extractGemini data)

/-! ## `callAI` -/

/-- The body of the outer `try` of `callAI`: the call to the selected model. -/
def attemptPrimary (env : Env) (post : Transport) (model : ModelKey)
    (messages : List Message) (options : Options) : List Call × Except Thrown JsVal :=
  if model = .GOOGLE then callGoogleGemini env post messages options
  else
    let request := primaryRequest env model messages options
    ([⟨model, request⟩],
      match post request with
      | .error e => .error (.rejected e)
      | .ok data => extractChat data)

/-- The body of the inner `try` of `callAI`: the call to one fallback model. -/
def attemptFallback (env : Env) (post : Transport) (fallback : ModelKey)
    (messages : List Message) (options : Options) : List Call × Except Thrown JsVal :=
  if fallback = .GOOGLE then callGoogleGemini env post messages options
  else
    let request := fallbackRequest env fallback messages options
    ([⟨fallback, request⟩],
      match post request with
      | .error e => .error (.rejected e)
      | .ok data => extractChat data)

/-- The array `fallbackModels`:
`Object.values(MODELS).filter(m => m !== model && m.apiKey)`. -/
def fallbackModels (env : Env) (model : ModelKey) : List ModelKey :=
  modelKeys.filter fun m => decide (m ≠ model) && configured env m

/-- The loop `for (const fallback of fallbackModels)`: the first fallback whose attempt
does not throw ends the loop with its value; an attempt that throws is logged and the loop
goes on. `none` is the loop running to its end. -/
def tryFallbacks (env : Env) (post : Transport) (messages : List Message)
    (options : Options) : List ModelKey → List Call × Option JsVal
  | [] => ([], none)
  | fallback :: rest =>
    match attemptFallback env post fallback messages options with
    | (calls, .ok value) => (calls, some value)
    | (calls, .error _) =>
      let (later, outcome) := tryFallbacks env post messages options rest
      (calls ++ later, outcome)

/-- The message of the error thrown when the fallback loop runs to its end. -/
def allFailedMessage : String :=
  "All AI models failed. No fallback succeeded."

/-- What one execution of `callAI` does: the calls it issued, in order, and what it
returned or threw. -/
structure CallResult where
  calls : List Call
  result : Except Thrown JsVal

/-- The function `callAI(taskType, messages, options = {})`. -/
def callAI (env : Env) (post : Transport) (taskType : Option String)
    (messages : List Message) (options : Options) : CallResult :=
  match selectBestModel env taskType with
  | .error e => ⟨[], .error e⟩
  | .ok model =>
    match attemptPrimary env post model messages options with
    | (calls, .ok value) => ⟨calls, .ok value⟩
    | (calls, .error error) =>
      let fallbacks := fallbackModels env model
      if fallbacks.length > 0 then
        match tryFallbacks env post messages options fallbacks with
        | (later, some value) => ⟨calls ++ later, .ok value⟩
        | (later, none) => ⟨calls ++ later, .error (.error allFailedMessage)⟩
      else ⟨calls, .error error⟩

/-! ## The selection policy in the words of the specification -/

/-- The policy of the specification, `policyFor(taskType)`: the preference list of a listed
task type, and the list of `general` for every other task type. -/
def policyFor (taskType : String) : List ModelKey :=
  (TASK_PREFERENCES.lookup taskType).getD generalPreferences

/-- The priority of a provider in the registry. -/
def priorityOf (env : Env) (k : ModelKey) : Nat := (MODELS env k).priority

/-! ## Environments used in the examples -/

/-- No variable is set. -/
def envNone : Env :=
  { GROQ_API_KEY := none, OPENAI_API_KEY := none, OPENROUTER_API_KEY := none,
    GOOGLE_API_KEY := none, PERPLEXITY_API_KEY := none,
    OPENROUTER_MODEL := none, PERPLEXITY_MODEL := none }

/-- Only the Groq key is set. -/
def envGroq : Env := { envNone with GROQ_API_KEY := some "gsk-test" }

/-- Only the Perplexity key is set. -/
def envPerplexity : Env := { envNone with PERPLEXITY_API_KEY := some "pplx-test" }

/-- The Groq and the OpenAI keys are set. -/
def envGroqOpenAI : Env :=
  { envNone with GROQ_API_KEY := some "gsk-test", OPENAI_API_KEY := some "sk-test" }

/-! ## Names for the parts of an execution -/

/-- The call `callAI` issues to the selected model: `callGoogleGemini` for Gemini, the
OpenAI-compatible request of the outer `try` for the others. -/
def primaryCall (env : Env) (model : ModelKey) (messages : List Message)
    (options : Options) : Call :=
  ⟨model, if model = .GOOGLE then geminiRequest env messages options
    else primaryRequest env model messages options⟩

/-- The call `callAI` issues to a fallback model. -/
def fallbackCall (env : Env) (fallback : ModelKey) (messages : List Message)
    (options : Options) : Call :=
  ⟨fallback, if fallback = .GOOGLE then geminiRequest env messages options
    else fallbackRequest env fallback messages options⟩

/-- The extraction applied to the response data of a provider. -/
def extractFor (k : ModelKey) (data : JsVal) : Except Thrown JsVal :=
  if k = .GOOGLE then extractGemini data else extractChat data

/-- An attempt failed: it threw. -/
def failed (r : Except Thrown JsVal) : Bool :=
  match r with
  | .ok _ => false
  | .error _ => true

/-- The outcome of the call to the selected model. -/
def primaryOutcome (env : Env) (post : Transport) (model : ModelKey)
    (messages : List Message) (options : Options) : Except Thrown JsVal :=
  (attemptPrimary env post model messages options).2

/-- The outcome of the call to a fallback model. -/
def fallbackOutcome (env : Env) (post : Transport) (fallback : ModelKey)
    (messages : List Message) (options : Options) : Except Thrown JsVal :=
  (attemptFallback env post fallback messages options).2

/-- The providers invoked by an execution, in order. -/
def CallResult.providers (r : CallResult) : List ModelKey := r.calls.map Call.provider

/-! ## Transports, messages and options used in the examples -/

/-- One user message. -/
def sampleMessages : List Message := [⟨"user", "hi"⟩]

/-- The object `{}`: no option is given. -/
def noOptions : Options := ⟨.undefined, .undefined⟩

/-- Response data of an OpenAI-compatible endpoint carrying one completion. -/
def chatResponse (text : String) : JsVal :=
  .obj [("choices",
    .arr [.obj [("message", .obj [("role", .str "assistant"), ("content", .str text)])]])]

/-- The rejection of a request answered with status 429. -/
def rateLimited : AxiosError :=
  ⟨"Request failed with status code 429", some "ERR_BAD_REQUEST", some 429⟩

/-- Every request is answered with a completion. -/
def postAllUp : Transport := fun _ => .ok (chatResponse "hello")

/-- Every request is rejected with status 429. -/
def postAllDown : Transport := fun _ => .error rateLimited

/-- Requests to Groq are rejected with status 429, every other request is answered. -/
def postGroqDown : Transport := fun request =>
  if request.url = "https://api.groq.com/openai/v1/chat/completions" then .error rateLimited
  else .ok (chatResponse "hello from the fallback")

/-! ## The Gemini prompt in the words of the specification -/

/-- The flattening of the specification: the contents of the messages in their order, the
roles dropped, two consecutive contents separated by a blank line. -/
def flattenMessages : List Message → String
  | [] => ""
  | [m] => m.content
  | m :: rest => m.content ++ "\n\n" ++ flattenMessages rest

/-- The expression `body.contents[0].parts[0].text` on a request body. -/
def geminiPromptText (body : JsVal) : Except Thrown JsVal := do
  let contents ← getProp body "contents"
  let first ← getIndex0 contents
  let parts ← getProp first "parts"
  let part ← getIndex0 parts
  getProp part "text"

/-! ## A Gemini response used in the examples -/

/-- Only the Google key is set. -/
def envGoogle : Env := { envNone with GOOGLE_API_KEY := some "AIza-test" }

/-- Response data of the Gemini endpoint carrying one candidate with one text part. -/
def geminiResponse (text : String) : JsVal :=
  .obj [("candidates",
    .arr [.obj [("content", .obj [("parts", .arr [.obj [("text", .str text)]])])]])]

/-- Every request is answered with the Gemini response carrying `hello`. -/
def postGemini : Transport := fun _ => .ok (geminiResponse "hello")

/-! ## `getModelStatus` -/

/-- The property name of a key of `MODELS`. -/
def ModelKey.propertyName : ModelKey → String
  | .GROQ => "GROQ"
  | .OPENAI => "OPENAI"
  | .OPENROUTER => "OPENROUTER"
  | .GOOGLE => "GOOGLE"
  | .PERPLEXITY => "PERPLEXITY"

/-- An entry of the object returned by `getModelStatus`. -/
structure ModelStatus where
  name : String
  configured : Bool
  strengths : List String
  deriving DecidableEq, Repr

/-- The function `getModelStatus()`: the object `status`, as the list of its properties in
the order in which the loop over `Object.entries(MODELS)` adds them. -/
def getModelStatus (env : Env) : List (String × ModelStatus) :=
  modelKeys.map fun key =>
    (key.propertyName,
      { name := (MODELS env key).name
        configured := strTruthy (MODELS env key).apiKey
        strengths := (MODELS env key).strengths })

/-- The Groq key is set, to another value than in `envGroq`. -/
def envGroqOther : Env := { envNone with GROQ_API_KEY := some "gsk-another-secret" }

/-! ## The transport of the other adapters (`openai.js`, `gemini.js`, `perplexity.js`) -/

/-- The process environment read by the adapters and the routes at call time: the
variables of `Env` and the OpenAI organization and project. -/
structure ProcessEnv extends Env where
  OPENAI_ORG_ID : Option String
  OPENAI_PROJECT_ID : Option String

/-- The arguments of one `axios.post(url, body, config)` where the configuration may lack
a timeout: `timeout` is `config.timeout` in milliseconds (`none` when the configuration has
no such property, in which case axios applies no timeout), `responseType` is
`config.responseType`. The body is the data as it is serialized to JSON: a property whose
value is a function is left out. -/
structure AxiosRequest where
  url : String
  body : JsVal
  headers : List (String × String)
  timeout : Option Nat
  responseType : Option String

/-- The rejection of `axios.post` with the body of the response: `status` is
`error.response.status` (`none` when there is no response) and `data` is
`error.response.data`. -/
structure HttpError extends AxiosError where
  data : JsVal

/-- The HTTP transport of the adapters: `axios.post` rejects or resolves with a response
whose `data` is returned. -/
abbrev AxiosTransport := AxiosRequest → Except HttpError JsVal

/-- The expression `a || b` for two values that are strings, `null` or `undefined`. -/
def optOr (a b : Option String) : Option String := if strTruthy a then a else b

/-- A default parameter of a destructured argument: the default is taken exactly when the
property is `undefined`. -/
def orDefault (v d : JsVal) : JsVal :=
  match v with
  | .undefined => d
  | _ => v

/-- The message of an error: the property `message` of a thrown value. -/
def Thrown.message : Thrown → String
  | .error m => m
  | .typeError m => m
  | .rejected e => e.message

/-! ## `callOpenAIChat` (`openai.js`) -/

/-- The argument of `callOpenAIChat`; a property that is absent is `undefined` (`none` for
the ones that are strings or `null`). -/
structure OpenAIChatParams where
  messages : List Message
  model : JsVal
  max_tokens : JsVal
  temperature : JsVal
  apiKeyOverride : Option String
  stream : JsVal
  organization : Option String
  project : Option String

/-- The headers `callOpenAIChat` builds for the key `apiKey`. -/
def openAIHeaders (env : ProcessEnv) (p : OpenAIChatParams) (apiKey : String) :
    List (String × String) :=
  let orgId := optOr (optOr p.organization env.OPENAI_ORG_ID) none
  let projectId := optOr (optOr p.project env.OPENAI_PROJECT_ID) none
  [("Content-Type", "application/json"), ("Authorization", "Bearer " ++ apiKey)] ++
  (if strTruthy orgId then [("OpenAI-Organization", template orgId)] else []) ++
  (if strTruthy projectId then [("OpenAI-Project", template projectId)] else [])

/-- The request of `callOpenAIChat` for the key `apiKey`: the configuration holds the
headers, and `responseType` when streaming; it holds no timeout. -/
def openAIRequest (env : ProcessEnv) (p : OpenAIChatParams) (apiKey : String) :
    AxiosRequest :=
  let stream := orDefault p.stream (.bool false)
  { url := "https://api.openai.com/v1/chat/completions"
    body :=
      .obj [("model", orDefault p.model (.str "gpt-4o-mini")),
            ("messages", messagesJson p.messages),
            ("max_tokens", orDefault p.max_tokens (.num 1024)),
            ("temperature", orDefault p.temperature (.num (7 / 10))),
            ("stream", stream)]
    headers := openAIHeaders env p apiKey
    timeout := none
    responseType := if stream.truthy then some "stream" else none }

/-- The function `callOpenAIChat`: the requests it issues and what it returns or throws.
When streaming it returns the response of `axios.post` itself, an object holding `data`. -/
def callOpenAIChat (env : ProcessEnv) (post : AxiosTransport) (p : OpenAIChatParams) :
    List AxiosRequest × Except Thrown JsVal :=
  let apiKey := optOr p.apiKeyOverride env.OPENAI_API_KEY
  if strTruthy apiKey then
    let request := openAIRequest env p (template apiKey)
    ([request],
      match post request with
      | .error e => .error (.rejected e.toAxiosError)
      | .ok data =>
        if (orDefault p.stream (.bool false)).truthy then .ok (.obj [("data", data)])
        else extractChat data)
  else ([], .error (.error "OpenAI API key not configured"))

/-! ## `callGeminiGenerate` (`gemini.js`) -/

/-- The argument of `callGeminiGenerate`. -/
structure GeminiParams where
  prompt : String
  model : Option String
  apiKeyOverride : Option String

/-- The request of `callGeminiGenerate` for the key `apiKey`; `encodeURIComponent` is the
built-in function of that name. -/
def geminiGenerateRequest (encodeURIComponent : String → String) (p : GeminiParams)
    (apiKey : String) : AxiosRequest :=
  { url := "https://generativelanguage.googleapis.com/v1/models/" ++
      p.model.getD "gemini-1.5-flash" ++ ":generateContent?key=" ++ encodeURIComponent apiKey
    body := .obj [("contents",
      .arr [.obj [("role", .str "user"), ("parts", .arr [.obj [("text", .str p.prompt)]])]])]
    headers := [("Content-Type", "application/json")]
    timeout := some 30000
    responseType := none }

/-- The expression `a && b`, where `b` is evaluated only when `a` is truthy. -/
def jsAnd (a : JsVal) (b : Except Thrown JsVal) : Except Thrown JsVal :=
  if a.truthy then b else .ok a

/-- The lines of `callGeminiGenerate` after the call: the guarded reads of
`candidates[0].content.parts[0]`, the text or else the generated text of that part, and
the test `if (!text)`. -/
def geminiGenerateText (data : JsVal) : Except Thrown JsVal := do
  let candidates ← jsAnd data (getProp data "candidates")
  let first ← jsAnd candidates (getIndex0 candidates)
  let content ← jsAnd first (getProp first "content")
  let parts ← jsAnd content (getProp content "parts")
  let part ← jsAnd parts (getIndex0 parts)
  let text ← jsAnd part (do
    let text ← getProp part "text"
    let generated ← getProp part "generatedText"
    pure (jsOr text generated))
  if text.truthy then .ok text else .error (.error "Invalid Gemini response")

/-- The function `callGeminiGenerate`. -/
def callGeminiGenerate (env : ProcessEnv) (encodeURIComponent : String → String)
    (post : AxiosTransport) (p : GeminiParams) : List AxiosRequest × Except Thrown JsVal :=
  let apiKey := optOr p.apiKeyOverride env.GOOGLE_API_KEY
  if strTruthy apiKey then
    let request := geminiGenerateRequest encodeURIComponent p (template apiKey)
    ([request],
      match post request with
      | .error e => .error (.rejected e.toAxiosError)
      | .ok data => geminiGenerateText data)
  else ([], .error (.error "Google API key not configured"))

/-! ## `callPerplexity` (`perplexity.js`) -/

/-- The argument of `callPerplexity`; `mode` is `none` when the property is `undefined`. -/
structure PerplexityParams where
  query : String
  apiKeyOverride : Option String
  mode : Option String
  modelOverride : Option String

/-- The own entries of the object `systemPrompts`. -/
def systemPrompts : List (String × String) :=
  [("search", "You are a knowledgeable assistant that provides accurate, well-structured information. Format your responses clearly with headings, bullet points, and examples where appropriate. Be comprehensive but concise."),
   ("code", "You are an expert programmer. When explaining code or generating solutions, provide clear explanations, use proper formatting, include comments, and follow best practices. Structure your response with clear sections."),
   ("research", "You are a research assistant. Provide detailed, accurate information with proper structure. Use headings, subheadings, and organize information logically. Include practical examples and actionable insights."),
   ("explanation", "You are a technical educator. Break down complex topics into understandable parts. Use analogies, examples, and clear explanations. Structure your response with clear sections and bullet points.")]

/-- The system message of the request body, `{ role: "system", content: systemPrompt }`
with `systemPrompt = systemPrompts[mode] || systemPrompts.search`, as it is serialized. An
own entry of `systemPrompts` is a non-empty string; a name inherited from
`Object.prototype` gives a truthy value that is kept: the object `Object.prototype` for
`__proto__`, serialized as an empty object, and a function for the other names, for which
the property `content` is left out of the JSON. -/
def systemMessage (mode : String) : JsVal :=
  match systemPrompts.lookup mode with
  | some prompt => .obj [("role", .str "system"), ("content", .str prompt)]
  | none =>
    if mode = "__proto__" then .obj [("role", .str "system"), ("content", .obj [])]
    else if mode ∈ objectPrototypeKeys then .obj [("role", .str "system")]
    else .obj [("role", .str "system"),
      ("content", .str ((systemPrompts.lookup "search").getD ""))]

/-- The function `formatQueryForMode(query, mode)`. -/
def formatQueryForMode (query : String) (mode : String) : String :=
  if mode = "code" then
    "As a programming expert, " ++ query ++
      ". Please provide a comprehensive answer with code examples, explanations, and best practices."
  else if mode = "research" then
    "Provide detailed research on: " ++ query ++
      ". Include key concepts, current trends, practical applications, and relevant examples."
  else if mode = "explanation" then
    "Explain in detail: " ++ query ++
      ". Break it down into clear sections with examples and make it easy to understand."
  else query ++ ". Please provide a well-structured, comprehensive answer."

/-- The request of `callPerplexity` for the key `apiKey`. -/
def perplexityRequest (env : ProcessEnv) (p : PerplexityParams) (apiKey : String) :
    AxiosRequest :=
  let mode := p.mode.getD "search"
  { url := "https://api.perplexity.ai/chat/completions"
    body :=
      .obj [("model", .str (strOr (optOr p.modelOverride env.PERPLEXITY_MODEL) "sonar")),
            ("messages",
              .arr [systemMessage mode,
                    .obj [("role", .str "user"),
                          ("content", .str (formatQueryForMode p.query mode))]]),
            ("max_tokens", .num 2048),
            ("temperature", .num (1 / 10)),
            ("top_p", .num (9 / 10))]
    headers := [("Content-Type", "application/json"), ("Authorization", "Bearer " ++ apiKey)]
    timeout := some 30000
    responseType := none }

/-- The optional read `v?.key`: `undefined` when `v` is `undefined` or `null`. -/
def optProp (v : JsVal) (key : String) : JsVal :=
  match getProp v key with
  | .ok x => x
  | .error _ => .undefined

/-- What the `catch` block of `callPerplexity` sees of the caught value: its message, its
`code`, and its `response` (status and data) when it has one. -/
structure Caught where
  message : String
  code : Option String
  response : Option (Nat × JsVal)

/-- A rejection of `axios.post` as the `catch` block sees it. -/
def HttpError.caught (e : HttpError) : Caught :=
  { message := e.message
    code := e.code
    response := e.status.map fun status => (status, e.data) }

/-- An error thrown inside the `try` block as the `catch` block sees it: an `Error` or a
`TypeError` has a message and neither `response` nor `code`. -/
def Thrown.caught (t : Thrown) : Caught :=
  { message := t.message, code := none, response := none }

/-- The `catch` block of `callPerplexity`; `toStr` is the conversion of a value to a string
inside a template literal. -/
def perplexityCatch (toStr : JsVal → String) (error : Caught) : Thrown :=
  match error.response with
  | some (status, errorData) =>
    if status = 401 then
      .error "Invalid Perplexity API key. Please check your API key at https://www.perplexity.ai/settings/api"
    else if status = 429 then
      .error "Perplexity API rate limit exceeded. Please wait a moment and try again."
    else if status = 400 then
      let errorMsg :=
        jsOr (optProp (optProp errorData "error") "message") (.str "Bad request to Perplexity API")
      .error ("Perplexity API error: " ++ toStr errorMsg)
    else
      .error ("Perplexity API error (" ++ toString status ++ "): " ++
        toStr (jsOr (optProp (optProp errorData "error") "message") (.str "Unknown error")))
  | none =>
    if error.code = some "ECONNABORTED" then
      .error "Perplexity API request timeout. Please try again."
    else .error ("Network error connecting to Perplexity: " ++ error.message)

/-- The `try` block of `callPerplexity` after the call has resolved with `data`;
`enhanceResponseFormatting` is the post-processing pass applied to the content. -/
def perplexityContent (enhanceResponseFormatting : JsVal → Except Thrown JsVal)
    (data : JsVal) : Except Thrown JsVal := do
  let choices ← jsAnd data (getProp data "choices")
  let first ← jsAnd choices (getIndex0 choices)
  if first.truthy then
    let message ← getProp first "message"
    let content ← getProp message "content"
    enhanceResponseFormatting content
  else .error (.error "Invalid response format from Perplexity API")

/-- The function `callPerplexity`, for a given post-processing pass: every error raised
inside the `try` block, by the call or after it, goes through the `catch` block. -/
def callPerplexityWith (enhanceResponseFormatting : JsVal → Except Thrown JsVal)
    (toStr : JsVal → String) (env : ProcessEnv) (post : AxiosTransport)
    (p : PerplexityParams) : List AxiosRequest × Except Thrown JsVal :=
  let apiKey := optOr p.apiKeyOverride env.PERPLEXITY_API_KEY
  if strTruthy apiKey then
    let request := perplexityRequest env p (template apiKey)
    ([request],
      match post request with
      | .error e => .error (perplexityCatch toStr e.caught)
      | .ok data =>
        match perplexityContent enhanceResponseFormatting data with
        | .ok content => .ok content
        | .error t => .error (perplexityCatch toStr t.caught))
  else ([], .error (.error "Perplexity API key not configured"))

/-- The function `callPerplexityForResearch`. -/
def callPerplexityForResearch (enhanceResponseFormatting : JsVal → Except Thrown JsVal)
    (toStr : JsVal → String) (env : ProcessEnv) (post : AxiosTransport)
    (query : String) (perplexityKey model : Option String) :
    List AxiosRequest × Except Thrown JsVal :=
  callPerplexityWith enhanceResponseFormatting toStr env post
    { query := query, apiKeyOverride := perplexityKey, mode := some "research",
      modelOverride := model }

/-! ## The classes of the errors of `callPerplexity`, in the words of the specification -/

/-- The classes of failure of the Perplexity call. -/
inductive PerplexityErrorClass where
  | unauthorized
  | rateLimited
  | badRequest
  | unknown
  | timeout
  | network
  deriving DecidableEq, Repr

/-- The class of a failure according to the transport signal alone: the status of the
response when there is one, otherwise the timeout code. -/
def classifyTransport (status : Option Nat) (code : Option String) : PerplexityErrorClass :=
  match status with
  | some s =>
    if s = 401 then .unauthorized
    else if s = 429 then .rateLimited
    else if s = 400 then .badRequest
    else .unknown
  | none => if code = some "ECONNABORTED" then .timeout else .network

/-- The string `s` starts with `pre`. -/
def startsWith (pre s : String) : Bool := pre.data.isPrefixOf s.data

/-- The class of an error raised by `callPerplexity`, read from the only thing the error
carries, its message. -/
def classOfMessage (m : String) : Option PerplexityErrorClass :=
  if startsWith "Perplexity API error: " m then some .badRequest
  else if startsWith "Perplexity API error (" m then some .unknown
  else if startsWith "Network error connecting to Perplexity: " m then some .network
  else if m = "Invalid Perplexity API key. Please check your API key at https://www.perplexity.ai/settings/api" then
    some .unauthorized
  else if m = "Perplexity API rate limit exceeded. Please wait a moment and try again." then
    some .rateLimited
  else if m = "Perplexity API request timeout. Please try again." then some .timeout
  else none

/-- The expression `data.candidates[0].content.parts[0].generatedText`. -/
def extractGeminiGenerated (data : JsVal) : Except Thrown JsVal := do
  let candidates ← getProp data "candidates"
  let first ← getIndex0 candidates
  let content ← getProp first "content"
  let parts ← getProp content "parts"
  let part ← getIndex0 parts
  getProp part "generatedText"

/-! ## Environments, transports and arguments of the adapters used in the examples -/

/-- No variable is set. -/
def processEnvNone : ProcessEnv :=
  { toEnv := envNone, OPENAI_ORG_ID := none, OPENAI_PROJECT_ID := none }

/-- Every request is answered with a chat completion. -/
def axiosAllUp : AxiosTransport := fun _ => .ok (chatResponse "ok")

/-- The rejection of a request answered with the given status and response data. -/
def httpError (status : Nat) (data : JsVal) : HttpError :=
  { message := "Request failed with status code " ++ toString status
    code := some "ERR_BAD_REQUEST"
    status := some status
    data := data }

/-- The argument `{ messages, apiKeyOverride }` with one user message. -/
def sampleChatParams : OpenAIChatParams :=
  { messages := sampleMessages, model := .undefined, max_tokens := .undefined,
    temperature := .undefined, apiKeyOverride := some "sk-test", stream := .undefined,
    organization := none, project := none }

/-- The argument `{ prompt, apiKeyOverride }` of `callGeminiGenerate`. -/
def sampleGeminiParams : GeminiParams :=
  { prompt := "hi", model := none, apiKeyOverride := some "AIza-test" }

/-- The argument `{ query, apiKeyOverride }` of `callPerplexity`. -/
def samplePerplexityParams : PerplexityParams :=
  { query := "what is a monad", apiKeyOverride := some "pplx-test", mode := none,
    modelOverride := none }

/-- A Gemini response whose only part has a generated text and no text. -/
def geminiGeneratedOnly : JsVal :=
  .obj [("candidates",
    .arr [.obj [("content", .obj [("parts", .arr [.obj [("generatedText", .str "hi")]])])]])]

/-- A conversion to string used in the examples: a string is itself. -/
def sampleToStr : JsVal → String
  | .str s => s
  | _ => "[object Object]"

/-! ## Responses of the routes -/

/-- What a route handler sends: the HTTP status and the JSON body (`res.json` alone sends
status 200). -/
structure RouteResponse where
  status : Nat
  body : JsVal

/-- The method `toLowerCase`, on the letters `A` to `Z`. The searches made in the lowered
messages give the same answer as with the full method: the only other character lowered to
a character of one of the needles is the dotted capital `I`, lowered to `i` followed by a
combining dot, and no needle has a combining dot after an `i`. -/
def toLowerCase (s : String) : String := String.mk (s.data.map Char.toLower)

/-- The method `includes`: `needle` occurs in `s`. -/
def includes (s needle : String) : Bool :=
  s.data.tails.any fun t => needle.data.isPrefixOf t

/-- The method `substring(start, stop)` with `start ≤ stop`, on strings of the Basic
Multilingual Plane, where the code units JavaScript counts are the characters. -/
def substring (s : String) (start stop : Nat) : String :=
  String.mk ((s.data.drop start).take (stop - start))

/-! ## The `catch` block of the OpenAI attempt in `/generate-code` (`routes/ai.js`) -/

/-- The end of the `catch (openaiError)` block of `/generate-code`, reached when the OpenAI
call failed and no Perplexity fallback succeeded: the response chosen by searching the
lowered message of the error. `hasPerplexity` is the truthiness of the variable of that
name. -/
def openAIFailureResponse (openaiError : Thrown) (hasPerplexity : Bool) : RouteResponse :=
  let errorMsg := toLowerCase openaiError.message
  if includes errorMsg "quota" || includes errorMsg "429" then
    { status := 429
      body := .obj [("ok", .bool false), ("error", .str "OpenAI quota exceeded"),
        ("help", .obj [("message", .str "Your OpenAI usage limit has been reached"),
          ("solutions", .arr [
            .str "Check your billing at https://platform.openai.com/account/billing",
            .str "Add payment method if needed",
            .str "Wait for quota reset",
            .str "Try using Perplexity API as alternative"])])] }
  else if includes errorMsg "401" || includes errorMsg "unauthorized" then
    { status := 401
      body := .obj [("ok", .bool false), ("error", .str "Invalid OpenAI API key"),
        ("help", .obj [("message", .str "Your OpenAI API key is invalid or expired"),
          ("solution", .str "Get a new key from https://platform.openai.com/api-keys")])] }
  else
    { status := 500
      body := .obj [("ok", .bool false),
        ("error", .str ("OpenAI error: " ++ openaiError.message)),
        ("fallback", .str (if hasPerplexity then "Perplexity also failed"
          else "No fallback API available"))] }

/-- The whole `catch (openaiError)` block of `/generate-code`; `perplexity` is the outcome
of `callPerplexityForCode`, which is called only when `hasPerplexity`. -/
def generateCodeOpenAIFailure (openaiError : Thrown) (hasPerplexity : Bool)
    (perplexity : Except Thrown JsVal) : RouteResponse :=
  if hasPerplexity then
    match perplexity with
    | .ok resp =>
      { status := 200
        body := .obj [("ok", .bool true), ("resp", resp), ("provider", .str "perplexity"),
          ("note", .str "Generated using Perplexity AI with enhanced prompts")] }
    | .error _ => openAIFailureResponse openaiError hasPerplexity
  else openAIFailureResponse openaiError hasPerplexity

/-- A connection refused by a proxy listening on port 4291. -/
def refusedPort4291 : Thrown :=
  .rejected ⟨"connect ECONNREFUSED 10.0.0.1:4291", some "ECONNREFUSED", none⟩

/-- A connection refused by a proxy listening on port 8080. -/
def refusedPort8080 : Thrown :=
  .rejected ⟨"connect ECONNREFUSED 10.0.0.1:8080", some "ECONNREFUSED", none⟩

/-- The transport signal of a thrown value: the status of the response and the code of the
error, when it is a rejection of the transport. -/
def Thrown.signal : Thrown → Option Nat × Option String
  | .rejected e => (e.status, e.code)
  | _ => (none, none)

/-! ## The endpoint `/api/ai/status` (`server.js`) -/

/-- The property `keyPresent`: the first seven characters of a key that is set, followed by
three dots, and `false` for a key that is not set. -/
def keyPresent (key : Option String) : JsVal :=
  if strTruthy key then .str (substring (template key) 0 7 ++ "...") else .bool false

/-- An entry of `status.apis`. -/
def apiStatus (key : Option String) (help : String) : JsVal :=
  .obj [("configured", .bool (strTruthy key)),
        ("keyPresent", keyPresent key),
        ("status", .str (if strTruthy key then "configured" else "missing")),
        ("help", if strTruthy key then .null else .str help)]

/-- The array `status.recommendations` after the two `if` statements. -/
def recommendations (openaiKey perplexityKey : Option String) : List JsVal :=
  (if !strTruthy openaiKey && !strTruthy perplexityKey then
      [.str "Add at least one AI API key to enable AI features"]
    else if !strTruthy openaiKey then
      [.str "Add OpenAI key for full code generation and review features"]
    else if !strTruthy perplexityKey then
      [.str "Add Perplexity key for research and up-to-date information"]
    else []) ++
  (if strTruthy openaiKey && strTruthy perplexityKey then
      [.str "All AI features available! Try the different modes in the AI Assistant."]
    else [])

/-- The body sent by the handler of `/api/ai/status`; `timestamp` is
`new Date().toISOString()`. -/
def aiStatus (env : ProcessEnv) (timestamp : String) : JsVal :=
  let openaiKey := env.OPENAI_API_KEY
  let perplexityKey := env.PERPLEXITY_API_KEY
  let googleKey := env.GOOGLE_API_KEY
  .obj [("timestamp", .str timestamp),
        ("apis", .obj [
          ("openai", apiStatus openaiKey "Get key from https://platform.openai.com/api-keys"),
          ("perplexity",
            apiStatus perplexityKey "Get key from https://www.perplexity.ai/settings/api"),
          ("gemini", apiStatus googleKey "Get key from https://aistudio.google.com/app/apikey")]),
        ("features", .obj [
          ("codeGeneration", .bool (strTruthy openaiKey || strTruthy perplexityKey)),
          ("codeExplanation", .bool (strTruthy openaiKey || strTruthy perplexityKey)),
          ("research", .bool (strTruthy perplexityKey)),
          ("bugFix", .bool (strTruthy openaiKey)),
          ("codeOptimization", .bool (strTruthy openaiKey)),
          ("codeReview", .bool (strTruthy openaiKey))]),
        ("recommendations", .arr (recommendations openaiKey perplexityKey))]

/-- The part of a key that decides the body of `/api/ai/status`: nothing when the key is
not set, its first seven characters when it is. -/
def keyPreview (key : Option String) : Option String :=
  if strTruthy key then some (substring (template key) 0 7) else none

/-- The OpenAI key is set to a first value. -/
def processEnvOpenAI1 : ProcessEnv :=
  { processEnvNone with OPENAI_API_KEY := some "sk-aaaa-first-secret" }

/-- The OpenAI key is set to a second value. -/
def processEnvOpenAI2 : ProcessEnv :=
  { processEnvNone with OPENAI_API_KEY := some "sk-bbbb-second-secret" }

/-- The OpenAI key is set to a value with the same first seven characters as the first. -/
def processEnvOpenAI3 : ProcessEnv :=
  { processEnvNone with OPENAI_API_KEY := some "sk-aaaa-third-secret" }

/-! ## The cache (`utils/cache.js`, `app.locals.cache`) -/

/-- Modelled from the spec: the entries of the cache object of the `node-cache` library,
which is not part of the repository. An entry is `{key, value, insertedAt, ttlSeconds}`;
`insertedAt` is a time in milliseconds. -/
structure CacheEntry where
  key : String
  value : JsVal
  insertedAt : Nat
  ttlSeconds : Nat

/-- Modelled from the spec: the store of the `node-cache` library, a list of entries. -/
abbrev CacheStore := List CacheEntry

/-- Modelled from the spec: an entry of the `node-cache` store is live until `ttlSeconds`
seconds have elapsed since it was inserted. -/
def CacheEntry.live (e : CacheEntry) (now : Nat) : Bool :=
  decide (now < e.insertedAt + e.ttlSeconds * 1000)

/-- Modelled from the spec: `get(key)` of the `node-cache` library at time `now`. The value
of the entry of the key when it is live, and empty (`undefined`) otherwise; an entry found
expired is evicted (lazy expiry, checked on read). The second component is the store after
the read. -/
def NodeCache.get (store : CacheStore) (key : String) (now : Nat) : JsVal × CacheStore :=
  match store.find? (fun e => decide (e.key = key)) with
  | some e =>
    if e.live now then (e.value, store)
    else (.undefined, store.filter fun x => decide (x.key ≠ key))
  | none => (.undefined, store)

/-- Modelled from the spec: `set(key, value, ttlSeconds)` of the `node-cache` library at
time `now`; the key is unique, the new entry replaces the entry of the key. -/
def NodeCache.set (store : CacheStore) (key : String) (value : JsVal) (ttlSeconds : Nat)
    (now : Nat) : CacheStore :=
  ⟨key, value, now, ttlSeconds⟩ :: store.filter fun x => decide (x.key ≠ key)

/-- Modelled from the spec: `del(key)` of the `node-cache` library. -/
def NodeCache.del (store : CacheStore) (key : String) : CacheStore :=
  store.filter fun x => decide (x.key ≠ key)

/-- Modelled from the spec: the periodic sweep of the `node-cache` library at time `now`:
the expired entries are evicted. -/
def NodeCache.sweep (store : CacheStore) (now : Nat) : CacheStore :=
  store.filter fun x => x.live now

/-- An operation on the cache: the three functions exported by `utils/cache.js`, which
pass their arguments to the cache object, and the periodic sweep. -/
inductive CacheOp where
  | get (key : String)
  | set (key : String) (value : JsVal) (ttl : Nat)
  | del (key : String)
  | sweep

/-- The operation writes the key: it is a `set` or a `del` of that key. -/
def CacheOp.writes (op : CacheOp) (key : String) : Bool :=
  match op with
  | .set k _ _ => decide (k = key)
  | .del k => decide (k = key)
  | _ => false

/-- The store after one operation performed at time `now`. -/
def CacheOp.apply (store : CacheStore) (now : Nat) : CacheOp → CacheStore
  | .get key => (NodeCache.get store key now).2
  | .set key value ttl => NodeCache.set store key value ttl now
  | .del key => NodeCache.del store key
  | .sweep => NodeCache.sweep store now

/-- The store after a sequence of operations, each with the time at which it is
performed. -/
def runCache (store : CacheStore) : List (Nat × CacheOp) → CacheStore
  | [] => store
  | (now, op) :: rest => runCache (op.apply store now) rest

/-- The content of the cache at time `now`: what `get` returns for each key. -/
def cacheContent (store : CacheStore) (now : Nat) (key : String) : JsVal :=
  (NodeCache.get store key now).1

/-! ## The cached routes `/auth/validate-keys` and `/research` (`routes/ai.js`) -/

/-- The cache key of `/auth/validate-keys`: `validate_` followed by the first ten
characters of the key of the request, or by `undefined` when the request has no key. -/
def validateCacheKey (openaiKey : Option String) : String :=
  "validate_" ++ template (openaiKey.map fun k => substring k 0 10)

/-- The argument with which `/auth/validate-keys` calls `callOpenAIChat`. -/
def validateKeysParams (openaiKey : Option String) : OpenAIChatParams :=
  { messages := [⟨"user", "Respond with just \"ok\""⟩]
    model := .undefined
    max_tokens := .num 5
    temperature := .undefined
    apiKeyOverride := openaiKey
    stream := .undefined
    organization := none
    project := none }

/-- The handler of `/auth/validate-keys`, after the `auth` middleware. The cache is read at
time `started`; the provider call returns at time `finished`. The result is the response and
the store of the cache after the request. -/
def validateKeysRoute (env : ProcessEnv) (post : AxiosTransport) (store : CacheStore)
    (started finished : Nat) (openaiKey : Option String) : RouteResponse × CacheStore :=
  let cacheKey := validateCacheKey openaiKey
  let read := NodeCache.get store cacheKey started
  if read.1.truthy then
    ({ status := 200, body := .obj [("ok", .bool true), ("cached", .bool true)] }, read.2)
  else
    match (callOpenAIChat env post (validateKeysParams openaiKey)).2 with
    | .ok _ =>
      ({ status := 200, body := .obj [("ok", .bool true), ("provider", .str "openai")] },
        NodeCache.set read.2 cacheKey (.bool true) 300 finished)
    | .error _ =>
      ({ status := 401
         body := .obj [("ok", .bool false),
           ("error", .str "Invalid API key or service unavailable")] }, read.2)

/-- The `catch (perplexityError)` block of `/research`. Every error thrown by
`callPerplexity` is an `Error` made by that module: it has a message and no `response`, so
`responseError` is `undefined` and only the search in the message can choose the class. -/
def researchFailureResponse (perplexityError : Thrown) : RouteResponse :=
  let errorMsg := perplexityError.message
  if includes errorMsg "unauthorized" then
    { status := 401
      body := .obj [("ok", .bool false), ("error", .str "Invalid Perplexity API key"),
        ("help", .obj [("message", .str "Your Perplexity API key is invalid or expired"),
          ("getKey", .str "https://www.perplexity.ai/settings/api")])] }
  else
    { status := 500
      body := .obj [("ok", .bool false),
        ("error", .str "Perplexity API temporarily unavailable"),
        ("details", .str errorMsg),
        ("help", .obj [("message", .str "Please try again in a moment"),
          ("docs", .str "https://docs.perplexity.ai/")])] }

/-- The cache key of `/research`: `research_` followed by the first twenty characters of the
Base64 form of the sanitized query; `toBase64` is `Buffer.from(s).toString("base64")`. -/
def researchCacheKey (toBase64 : String → String) (sanitized : String) : String :=
  "research_" ++ substring (toBase64 sanitized) 0 20

/-- The handler of `/research`, after the `auth` and `validatePrompt` middlewares;
`sanitizeInput` is the function of `utils/sanitize.js`. The cache is read at time
`started`; the provider call returns at time `finished`. The result is the response and the
store of the cache after the request. -/
def researchRoute (enhanceResponseFormatting : JsVal → Except Thrown JsVal)
    (toStr : JsVal → String) (sanitizeInput toBase64 : String → String)
    (env : ProcessEnv) (post : AxiosTransport) (store : CacheStore)
    (started finished : Nat) (query : String) (perplexityKey : Option String) :
    RouteResponse × CacheStore :=
  let sanitized := sanitizeInput query
  let cacheKey := researchCacheKey toBase64 sanitized
  if strTruthy (optOr perplexityKey env.PERPLEXITY_API_KEY) then
    let read := NodeCache.get store cacheKey started
    if read.1.truthy then
      ({ status := 200
         body := .obj [("ok", .bool true), ("resp", read.1), ("cached", .bool true)] },
        read.2)
    else
      match (callPerplexityForResearch enhanceResponseFormatting toStr env post sanitized
          perplexityKey none).2 with
      | .ok resp =>
        ({ status := 200
           body := .obj [("ok", .bool true), ("resp", resp), ("provider", .str "perplexity"),
             ("note", .str "Research powered by enhanced Perplexity AI")] },
          NodeCache.set read.2 cacheKey resp 1800 finished)
      | .error perplexityError => (researchFailureResponse perplexityError, read.2)
  else
    ({ status := 400
       body := .obj [("ok", .bool false),
         ("error", .str "Perplexity API key required for research"),
         ("help", .obj [("message", .str "Research feature requires Perplexity API key"),
           ("getKey", .str "https://www.perplexity.ai/settings/api"),
           ("setup", .str "Add PERPLEXITY_API_KEY to your .env file")])] }, store)

/-- Every request is rejected with status 401. -/
def axiosAllDown : AxiosTransport := fun _ => .error (httpError 401 .null)

/-- A store holding one live research entry. -/
def sampleStore : CacheStore := [⟨"research_abc", .str "text", 0, 1800⟩]

/-! ## The policy table as the source writes it -/

/-- The entries of `TASK_PREFERENCES` with the provider ids as the strings of the source. -/
def taskPreferenceIds : List (String × List String) :=
  [("code-generation", ["GROQ", "OPENAI", "OPENROUTER", "GOOGLE"]),
   ("explanation", ["GROQ", "OPENAI", "GOOGLE", "OPENROUTER"]),
   ("debugging", ["GROQ", "OPENAI", "OPENROUTER", "GOOGLE"]),
   ("optimization", ["GROQ", "OPENAI", "OPENROUTER", "GOOGLE"]),
   ("search", ["PERPLEXITY", "GROQ", "GOOGLE"]),
   ("general", ["GROQ", "OPENAI", "OPENROUTER", "GOOGLE"])]

/-- The provider of the registry named by an id: the key of `MODELS` with that property
name, if there is one. -/
def modelKeyOfId (id : String) : Option ModelKey :=
  modelKeys.find? fun k => decide (k.propertyName = id)

/-- The six task types of the specification, under the names of the source. -/
def sixTaskTypes : List String :=
  ["code-generation", "explanation", "debugging", "optimization", "search", "general"]

/-! ## Options used in the examples -/

/-- The options `{ temperature: 0 }`. -/
def zeroTemperature : Options := ⟨.num 0, .undefined⟩

/-- All five keys are set. -/
def envAll : Env :=
  { GROQ_API_KEY := some "gsk-test", OPENAI_API_KEY := some "sk-test",
    OPENROUTER_API_KEY := some "or-test", GOOGLE_API_KEY := some "AIza-test",
    PERPLEXITY_API_KEY := some "pplx-test", OPENROUTER_MODEL := none,
    PERPLEXITY_MODEL := none }

/-! ## The route `/fallback-test` (`routes/ai-fallback.js`) -/

/-- The object returned by `getModelStatus()` as it is serialized in a response. -/
def modelStatusJson (env : Env) : JsVal :=
  .obj ((getModelStatus env).map fun entry =>
    (entry.1, .obj [("name", .str entry.2.name), ("configured", .bool entry.2.configured),
      ("strengths", .arr (entry.2.strengths.map JsVal.str))]))

/-- The messages of the call made by `/fallback-test`. -/
def fallbackTestMessages : List Message :=
  [⟨"user", "Write a hello world function in JavaScript."⟩]

/-- The handler of `/fallback-test`. `loaded` is the environment read when
`modelSelector.js` was loaded: the entries of `MODELS` hold the keys of that moment, and
the handler's assignment `process.env.OPENAI_API_KEY = ""` changes the process environment
and not those entries. `processKey` is `process.env.OPENAI_API_KEY` before the request. The
result is the response, the execution of `callAI`, and `process.env.OPENAI_API_KEY` after
the `finally` block, where the assignment of the saved value stores it as a string. -/
def fallbackTestRoute (loaded : Env) (post : Transport) (processKey : Option String) :
    RouteResponse × CallResult × Option String :=
  let execution := callAI loaded post (some "code-generation") fallbackTestMessages noOptions
  let response : RouteResponse :=
    match execution.result with
    | .ok result =>
      { status := 200
        body := .obj [("ok", .bool true), ("result", result), ("fallbackUsed", .bool true),
          ("modelStatus", modelStatusJson loaded)] }
    | .error err =>
      { status := 500
        body := .obj [("ok", .bool false), ("error", .str err.message),
          ("modelStatus", modelStatusJson loaded)] }
  (response, execution, some (template processKey))

/-! ## Regular expressions (the patterns of `perplexity.js` and `sanitize.js`) -/

/-- The regular expressions used by the formatting passes: a character of a class, a
sequence, a greedy repetition with a least and an optional greatest count, and the
assertions `^` and `$` under the flag `m`. -/
inductive Re where
  | set (p : Char → Bool)
  | seq (a b : Re)
  | rep (r : Re) (least : Nat) (most : Option Nat)
  | bol
  | eol

/-- A line terminator: line feed, carriage return, line separator, paragraph separator. -/
def isLineTerminator (c : Char) : Bool :=
  c.toNat = 10 || c.toNat = 13 || c.toNat = 0x2028 || c.toNat = 0x2029

/-- The class `\s`, which is also what `trim` removes: the white space characters and the
line terminators. -/
def isSpace (c : Char) : Bool :=
  (9 ≤ c.toNat && c.toNat ≤ 13) || c.toNat = 32 || c.toNat = 0xA0 || c.toNat = 0x1680 ||
  (0x2000 ≤ c.toNat && c.toNat ≤ 0x200A) || c.toNat = 0x2028 || c.toNat = 0x2029 ||
  c.toNat = 0x202F || c.toNat = 0x205F || c.toNat = 0x3000 || c.toNat = 0xFEFF

/-- The class `\w`: letters, digits and the underscore. -/
def isWord (c : Char) : Bool :=
  (65 ≤ c.toNat && c.toNat ≤ 90) || (97 ≤ c.toNat && c.toNat ≤ 122) ||
  (48 ≤ c.toNat && c.toNat ≤ 57) || c.toNat = 95

/-- The greedy repetition of a matcher `step`: one more iteration is tried first, as long
as the greatest count allows it and the iteration consumes input; when it fails, the
continuation is tried if the least count has been reached. `fuel` bounds the number of
iterations and is taken larger than the length of the input. -/
def repeatGreedy (step : Option Char → List Char →
      (Option Char → List Char → Option (List Char)) → Option (List Char))
    (k : Option Char → List Char → Option (List Char)) :
    Nat → Nat → Option Nat → Option Char → List Char → Option (List Char)
  | 0, _, _, _, _ => none
  | fuel + 1, least, most, prev, s =>
    let more :=
      if most = some 0 then none
      else step prev s fun prev2 s2 =>
        if s2.length < s.length then
          repeatGreedy step k fuel (least - 1) (most.map fun n => n - 1) prev2 s2
        else none
    match more with
    | some rest => some rest
    | none => if least = 0 then k prev s else none

/-- The backtracking matcher: `matchRe r prev s k` matches `r` at the start of `s`, where
`prev` is the character before `s`, and passes what follows the match to the continuation
`k`; failures of the continuation make the matcher try its next alternative. -/
def matchRe : Re → Option Char → List Char →
    (Option Char → List Char → Option (List Char)) → Option (List Char)
  | .set p, _, s, k =>
    match s with
    | c :: cs => if p c then k (some c) cs else none
    | [] => none
  | .seq a b, prev, s, k => matchRe a prev s fun prev2 s2 => matchRe b prev2 s2 k
  | .rep r least most, prev, s, k =>
    repeatGreedy (matchRe r) k (s.length + 1) least most prev s
  | .bol, prev, s, k =>
    match prev with
    | none => k prev s
    | some c => if isLineTerminator c then k prev s else none
  | .eol, prev, s, k =>
    match s with
    | [] => k prev s
    | c :: _ => if isLineTerminator c then k prev s else none

/-- What follows the match of `r` at the start of `s`, if `r` matches there. -/
def matchAt (r : Re) (prev : Option Char) (s : List Char) : Option (List Char) :=
  matchRe r prev s fun _ rest => some rest

/-- The method `replace` with a pattern under the flag `g`: the input is scanned from left
to right; where the pattern matches, `replacement` of the matched text is written and the
scan goes on after the match; elsewhere the character is copied. After an empty match the
next character is copied. `fuel` is taken larger than the length of the input. -/
def replaceAllFrom (r : Re) (replacement : List Char → List Char) :
    Nat → Option Char → List Char → List Char
  | 0, _, s => s
  | fuel + 1, prev, s =>
    match matchAt r prev s with
    | some rest =>
      if rest.length < s.length then
        let matched := s.take (s.length - rest.length)
        replacement matched ++ replaceAllFrom r replacement fuel matched.getLast? rest
      else
        match s with
        | [] => replacement []
        | c :: cs => replacement [] ++ c :: replaceAllFrom r replacement fuel (some c) cs
    | none =>
      match s with
      | [] => []
      | c :: cs => c :: replaceAllFrom r replacement fuel (some c) cs

/-- The method `replace` on a whole text. -/
def replaceAll (r : Re) (replacement : List Char → List Char) (s : List Char) : List Char :=
  replaceAllFrom r replacement (s.length + 1) none s

/-- One character. -/
def Re.char (c : Char) : Re := .set fun x => x == c

/-- The text `s`, character by character. -/
def Re.text : List Char → Re
  | [] => .rep (.set fun _ => false) 0 (some 0)
  | [c] => .char c
  | c :: cs => .seq (.char c) (Re.text cs)

/-- The method `trim`: the leading and the trailing white space and line terminators are
removed. -/
def trim (s : List Char) : List Char :=
  ((s.dropWhile isSpace).reverse.dropWhile isSpace).reverse

/-! ## `enhanceResponseFormatting` (`perplexity.js`) -/

/-- The pattern `/^(#{1,6}\s+.+)$/gm`. -/
def headingPattern : Re :=
  .seq .bol (.seq (.rep (.char '#') 1 (some 6))
    (.seq (.rep (.set isSpace) 1 none)
      (.seq (.rep (.set fun c => !isLineTerminator c) 1 none) .eol)))

/-- The pattern `/^(\s*[-*+]\s+.+)$/gm`. -/
def bulletPattern : Re :=
  .seq .bol (.seq (.rep (.set isSpace) 0 none)
    (.seq (.set fun c => c == '-' || c == '*' || c == '+')
      (.seq (.rep (.set isSpace) 1 none)
        (.seq (.rep (.set fun c => !isLineTerminator c) 1 none) .eol))))

/-- The pattern `/\n{3,}/g`. -/
def blankLinesPattern : Re := .rep (.char '\n') 3 none

/-- The pattern of a code fence followed by an optional word and a line feed, under the
flag `g`: three backquotes, `(\w+)?`, `\n`. -/
def fenceOpenPattern : Re :=
  .seq (Re.text ['`', '`', '`'])
    (.seq (.rep (.rep (.set isWord) 1 none) 0 (some 1)) (.char '\n'))

/-- The pattern of a line feed and a code fence ending a line, under the flags `g` and `m`:
`\n`, three backquotes, `$`. -/
def fenceClosePattern : Re :=
  .seq (.char '\n') (.seq (Re.text ['`', '`', '`']) .eol)

/-- The first pass: a line feed after each heading. The replacement `$1\n` is the matched
text, which the group spans, followed by a line feed. -/
def spaceHeadings (s : List Char) : List Char :=
  replaceAll headingPattern (fun m => m ++ ['\n']) s

/-- The second pass: a line feed after each bullet line (the replacement is `$1\n`). -/
def spaceBullets (s : List Char) : List Char :=
  replaceAll bulletPattern (fun m => m ++ ['\n']) s

/-- The third pass: a run of three or more line feeds becomes two. -/
def collapseBlankLines (s : List Char) : List Char :=
  replaceAll blankLinesPattern (fun _ => ['\n', '\n']) s

/-- The fourth pass: the replacement is a line feed, the fence, `$1` and a line feed, that
is a line feed followed by the matched text. -/
def spaceFenceOpen (s : List Char) : List Char :=
  replaceAll fenceOpenPattern (fun m => '\n' :: m) s

/-- The fifth pass: the replacement is the matched text followed by a line feed. -/
def spaceFenceClose (s : List Char) : List Char :=
  replaceAll fenceClosePattern (fun m => m ++ ['\n']) s

/-- The function `enhanceResponseFormatting` on a text. -/
def enhanceText (s : List Char) : List Char :=
  trim (spaceFenceClose (spaceFenceOpen (collapseBlankLines (spaceBullets (spaceHeadings s)))))

/-- The function `enhanceResponseFormatting(content)`: on a value that is not a string the
first `replace` throws a `TypeError`. -/
def enhanceResponseFormatting (content : JsVal) : Except Thrown JsVal :=
  match content with
  | .str s => .ok (.str (String.mk (enhanceText s.data)))
  | .undefined => .error (.typeError (cannotRead "undefined" "replace"))
  | .null => .error (.typeError (cannotRead "null" "replace"))
  | _ => .error (.typeError "enhanced.replace is not a function")

/-- The function `callPerplexity`. -/
def callPerplexity (toStr : JsVal → String) (env : ProcessEnv) (post : AxiosTransport)
    (p : PerplexityParams) : List AxiosRequest × Except Thrown JsVal :=
  callPerplexityWith enhanceResponseFormatting toStr env post p

/-- The text has a run of three consecutive line feeds. -/
def hasThreeLineFeeds (s : List Char) : Bool :=
  s.tails.any fun t => ['\n', '\n', '\n'].isPrefixOf t

/-! ## The messages of `callPerplexity` in the words of the specification -/

/-- The system prompt of the specification for a mode: the prompt of the mode when it is
one of `search`, `code`, `research`, `explanation`, and the prompt of `search` for any
other mode. -/
def systemPromptFor (mode : String) : String :=
  (systemPrompts.lookup mode).getD ((systemPrompts.lookup "search").getD "")

/-- The two messages a request body holds, read at `messages`. -/
def sentMessages (request : AxiosRequest) : JsVal := optProp request.body "messages"

/-- Response data with a first choice that has no message. -/
def choiceWithoutMessage : JsVal := .obj [("choices", .arr [.obj [("index", .num 0)]])]

/-- Response data with a first choice whose message has no content. -/
def messageWithoutContent : JsVal :=
  .obj [("choices", .arr [.obj [("message", .obj [("role", .str "assistant")])]])]

/-! ## `sanitizeInput` (`utils/sanitize.js`) and the Base64 form of a text -/

/-- The pattern `/\s{10,}/g`. -/
def longSpacePattern : Re := .rep (.set isSpace) 10 none

/-- The function `sanitizeInput(input)` on a string: the null characters are removed, the
text is cut to 50000 characters (on strings of the Basic Multilingual Plane, where the code
units JavaScript counts are the characters), and every run of ten or more white space
characters becomes ten spaces. -/
def sanitizeInput (input : String) : String :=
  let withoutNull := input.data.filter fun c => decide (c.toNat ≠ 0)
  let limited := withoutNull.take 50000
  String.mk (replaceAll longSpacePattern (fun _ => List.replicate 10 ' ') limited)

/-- The bytes of a character in UTF-8. -/
def utf8Bytes (c : Char) : List Nat :=
  let n := c.toNat
  if n < 0x80 then [n]
  else if n < 0x800 then [0xC0 + n / 64, 0x80 + n % 64]
  else if n < 0x10000 then [0xE0 + n / 4096, 0x80 + n / 64 % 64, 0x80 + n % 64]
  else [0xF0 + n / 262144, 0x80 + n / 4096 % 64, 0x80 + n / 64 % 64, 0x80 + n % 64]

/-- The Base64 digit of a number below 64. -/
def base64Digit (n : Nat) : Char :=
  "ABCDEFGHIJKLMNOPQRSTUVWXYZabcdefghijklmnopqrstuvwxyz0123456789+/".data.getD n '='

/-- The Base64 form of a sequence of bytes, with padding. -/
def base64Encode : List Nat → List Char
  | [] => []
  | [a] => [base64Digit (a / 4), base64Digit (a % 4 * 16), '=', '=']
  | [a, b] =>
    [base64Digit (a / 4), base64Digit (a % 4 * 16 + b / 16), base64Digit (b % 16 * 4), '=']
  | a :: b :: c :: rest =>
    base64Digit (a / 4) :: base64Digit (a % 4 * 16 + b / 16) ::
      base64Digit (b % 16 * 4 + c / 64) :: base64Digit (c % 64) :: base64Encode rest

/-- The expression `Buffer.from(s).toString("base64")`: the Base64 form of the UTF-8 bytes
of the text. -/
def toBase64 (s : String) : String :=
  String.mk (base64Encode (s.data.flatMap utf8Bytes))

/-- The handler of `/research` with the functions of the repository. -/
def research (toStr : JsVal → String) (env : ProcessEnv) (post : AxiosTransport)
    (store : CacheStore) (started finished : Nat) (query : String)
    (perplexityKey : Option String) : RouteResponse × CacheStore :=
  researchRoute enhanceResponseFormatting toStr sanitizeInput toBase64 env post store started
    finished query perplexityKey

/-! ## Transports and keys used in the examples of the cached routes -/

/-- A key that the transport accepts. -/
def validKey : String := "sk-proj-AAAA-valid"

/-- Another key, with the same first ten characters, that the transport rejects. -/
def wrongKey : String := "sk-proj-AAzz-wrong"

/-- The OpenAI endpoint accepts the valid key and rejects every other key with 401. -/
def postOnlyValidKey : AxiosTransport := fun request =>
  if request.headers.lookup "Authorization" = some ("Bearer " ++ validKey) then
    .ok (chatResponse "ok")
  else .error (httpError 401 .null)

/-- The Perplexity endpoint answers about Haskell when the user message mentions it, and
about category theory otherwise. -/
def postByQuery : AxiosTransport := fun request =>
  match sentMessages request with
  | .arr [_, .obj [_, (_, .str content)]] =>
    if includes content "haskell" then .ok (chatResponse "In Haskell a monad is a type class.")
    else .ok (chatResponse "A monad is a monoid in a category of endofunctors.")
  | _ => .error (httpError 400 .null)

/-- The store after a first validation request, made with the valid key on an empty
cache. -/
def storeAfterValidKey : CacheStore :=
  (validateKeysRoute processEnvNone postOnlyValidKey [] 1000 2000 (some validKey)).2

/-- The store after a first research request, about monads in Haskell, on an empty
cache. -/
def storeAfterHaskell : CacheStore :=
  (research sampleToStr processEnvNone postByQuery [] 1000 2000 "what is a monad in haskell"
    (some "pplx-test")).2

/-! ## Paths in response data, in the words of the specification -/

/-- A step of a path such as `choices[0].message.content`: a property name, or the index
`[0]`. -/
inductive PathStep where
  | key (name : String)
  | first

/-- The value of a document at a path, in the words of the specification: a property name
selects that property of an object, `[0]` selects the first element of an array (the
property `0` of an object), and the path is absent as soon as a step has nothing to select:
the value is not an object or an array, the property is missing, the array is empty. -/
def valueAt : JsVal → List PathStep → Option JsVal
  | v, [] => some v
  | .obj fields, .key name :: rest =>
    match fields.lookup name with
    | some w => valueAt w rest
    | none => none
  | .arr (w :: _), .first :: rest => valueAt w rest
  | .obj fields, .first :: rest =>
    match fields.lookup "0" with
    | some w => valueAt w rest
    | none => none
  | _, _ :: _ => none

/-- The path `choices[0].message.content` of an OpenAI-compatible response. -/
def chatTextPath : List PathStep :=
  [.key "choices", .first, .key "message", .key "content"]

/-- The path `candidates[0].content.parts[0].text` of a Gemini response. -/
def geminiTextPath : List PathStep :=
  [.key "candidates", .first, .key "content", .key "parts", .first, .key "text"]

/-- The path `candidates[0].content.parts[0].generatedText` of a Gemini response. -/
def geminiGeneratedPath : List PathStep :=
  [.key "candidates", .first, .key "content", .key "parts", .first, .key "generatedText"]

/-- The path at which the specification reads the completion text of a provider: the
Gemini path for Google, the OpenAI-compatible path for the others. -/
def completionPath (k : ModelKey) : List PathStep :=
  if k = .GOOGLE then geminiTextPath else chatTextPath

/-- The value found at a path, `undefined` when the path is absent. -/
def valueOrUndefined (data : JsVal) (path : List PathStep) : JsVal :=
  (valueAt data path).getD .undefined

/-! ## The matcher on the patterns of `enhanceResponseFormatting`, by recursion on the text -/

/-- The greedy repetition of a character class followed by `k`, by recursion on the text:
one more character of the class is taken first, as long as the greatest count allows it;
when what follows fails, `k` is tried here if the least count has been reached. -/
def greedySet (p : Char → Bool) (k : List Char → Option (List Char)) :
    Nat → Option Nat → List Char → Option (List Char)
  | least, _, [] => if least = 0 then k [] else none
  | least, most, c :: cs =>
    if most ≠ some 0 ∧ p c = true then
      match greedySet p k (least - 1) (most.map fun n => n - 1) cs with
      | some r => some r
      | none => if least = 0 then k (c :: cs) else none
    else if least = 0 then k (c :: cs) else none

/-- The assertion `$` under the flag `m` at the end of a pattern: the text that follows, when
it is empty or starts with a line terminator. -/
def eolK (s : List Char) : Option (List Char) :=
  match s with
  | [] => some []
  | c :: cs => if isLineTerminator c then some (c :: cs) else none

/-- The end `.+$` of a pattern: what follows the rest of the line, when the line has a
character. -/
def dotPlusK (s : List Char) : Option (List Char) :=
  match s with
  | [] => none
  | c :: cs => if isLineTerminator c then none
    else some (cs.dropWhile fun x => !isLineTerminator x)

/-- The end `\s*.+$` of a pattern, with its backtracking. -/
def wsStarK : List Char → Option (List Char)
  | [] => none
  | c :: cs =>
    if isSpace c then
      match wsStarK cs with
      | some r => some r
      | none => dotPlusK (c :: cs)
    else dotPlusK (c :: cs)

/-- The end `\s+.+$` of a pattern. -/
def wsPlusK (s : List Char) : Option (List Char) :=
  match s with
  | [] => none
  | c :: cs => if isSpace c then wsStarK cs else none

/-- A character before which `^` holds under the flag `m`: none, or a line terminator. -/
def atLineStart (prev : Option Char) : Bool :=
  match prev with
  | none => true
  | some c => isLineTerminator c

/-- A bullet marker: one of `-`, `*`, `+`. -/
def isMarker (c : Char) : Bool := c == '-' || c == '*' || c == '+'

/-- What follows the match of the heading pattern at the start of `s`, by recursion on the
text: one to six `#` not followed by a seventh, then `\s+.+$`. -/
def headingEnd (prev : Option Char) (s : List Char) : Option (List Char) :=
  if atLineStart prev ∧ 1 ≤ (s.takeWhile fun x => x == '#').length ∧
      (s.takeWhile fun x => x == '#').length ≤ 6 then
    wsPlusK (s.dropWhile fun x => x == '#')
  else none

/-- What follows the match of the bullet pattern at the start of `s`, by recursion on the
text: white space, a marker, then `\s+.+$`. -/
def bulletEnd (prev : Option Char) (s : List Char) : Option (List Char) :=
  if atLineStart prev then
    match s.dropWhile isSpace with
    | [] => none
    | c :: cs => if isMarker c then wsPlusK cs else none
  else none

/-- What follows the match of the pattern of three or more line feeds at the start of
`s`. -/
def blankLinesEnd (s : List Char) : Option (List Char) :=
  if 3 ≤ (s.takeWhile fun x => x == '\n').length then
    some (s.dropWhile fun x => x == '\n')
  else none

/-! ## Texts as lines and runs of line feeds -/

/-- A text cut at its line feeds: each line, which is not empty and has no line terminator,
with the number of line feeds that follow it. -/
abbrev Blocks := List (List Char × Nat)

/-- The text of a list of lines with their line feeds. -/
def textOf : Blocks → List Char
  | [] => []
  | (l, n) :: rest => l ++ (List.replicate n '\n' ++ textOf rest)

/-- A line of a text: not empty, without line terminator. -/
def IsLine (l : List Char) : Prop := l ≠ [] ∧ ∀ c ∈ l, isLineTerminator c = false

/-- The lines are lines and each but the last is followed by a line feed. -/
def WellFormed : Blocks → Prop
  | [] => True
  | (l, n) :: rest => IsLine l ∧ (1 ≤ n ∨ rest = []) ∧ WellFormed rest

/-- The line has a character that is not white space. -/
def hasText (l : List Char) : Bool := l.any fun c => !isSpace c

/-- What the end `\s+.+$` of a pattern finds in the rest of a line: the end of the match on
this line (`complete`), only white space up to the end of the line, so that the match goes
on in the lines that follow (`opened`, with whether the white space has two characters or
more), or no match (`plain`). -/
inductive TailKind where
  | complete
  | opened (two : Bool)
  | plain
  deriving DecidableEq

/-- The kind of the rest of a line after the `#` signs or the bullet marker. -/
def tailKind (x : List Char) : TailKind :=
  match x with
  | [] => .opened false
  | c :: cs =>
    if isSpace c then
      if hasText cs then .complete else .opened (decide (cs ≠ []))
    else .plain

/-- The kind of a line for the heading pattern. -/
def headingKind (l : List Char) : TailKind :=
  if 1 ≤ (l.takeWhile fun x => x == '#').length ∧
      (l.takeWhile fun x => x == '#').length ≤ 6 then
    tailKind (l.dropWhile fun x => x == '#')
  else .plain

/-- The kind of a line for the bullet pattern. -/
def bulletKind (l : List Char) : TailKind :=
  match l.dropWhile isSpace with
  | [] => .plain
  | c :: cs => if isMarker c then tailKind cs else .plain

/-- One step of a pass over the lines of a text: the number of line feeds the pass adds
after the line `l`, and whether a match is open after it. `pending` says that a match is
open before the line, `last` that the line is the last one. A match that is open at the end
of its line ends on the next line that has text, or else on the last line, and the pass adds
one line feed where a match ends. -/
def feedStep (kind : List Char → TailKind) (pending : Bool) (l : List Char) (last : Bool) :
    Nat × Bool :=
  if pending then
    if hasText l || last then (1, false) else (0, true)
  else
    match kind l with
    | .complete => (1, false)
    | .opened two => if last then (if two then 1 else 0, false) else (0, true)
    | .plain => (0, false)

/-- The line feeds added by a pass after each line of a text. -/
def addedFeeds (kind : List Char → TailKind) : Bool → List (List Char) → List Nat
  | _, [] => []
  | pending, l :: rest =>
    (feedStep kind pending l rest.isEmpty).1 ::
      addedFeeds kind (feedStep kind pending l rest.isEmpty).2 rest

/-- The lines with line feeds added after them. -/
def addFeeds : Blocks → List Nat → Blocks
  | (l, n) :: rest, d :: ds => (l, n + d) :: addFeeds rest ds
  | bs, _ => bs

/-- The heading pass on lines. -/
def headingBlocks (bs : Blocks) : Blocks :=
  addFeeds bs (addedFeeds headingKind false (bs.map Prod.fst))

/-- The bullet pass on lines. -/
def bulletBlocks (bs : Blocks) : Blocks :=
  addFeeds bs (addedFeeds bulletKind false (bs.map Prod.fst))

/-- The pass that collapses line feeds, on a number of line feeds. -/
def capFeeds (n : Nat) : Nat := if 3 ≤ n then 2 else n

/-- The pass that collapses line feeds, on lines. -/
def collapseBlocks (bs : Blocks) : Blocks := bs.map fun b => (b.1, capFeeds b.2)

/-- The method `trim` at the end of a text, on lines: the last lines without text are
dropped, and the last line that has text loses the white space at its end and its line
feeds. -/
def trimEndBlocks : Blocks → Blocks
  | [] => []
  | (l, n) :: rest =>
    match trimEndBlocks rest with
    | [] => if hasText l then [(l.rdropWhile isSpace, 0)] else []
    | b :: bs => (l, n) :: b :: bs

/-- The function `enhanceResponseFormatting` on the lines of a text without code fence. -/
def enhanceBlocks (bs : Blocks) : Blocks :=
  trimEndBlocks (collapseBlocks (bulletBlocks (headingBlocks bs)))

/-- The scan of `replace` from a position of the text, with the fuel of the whole scan. -/
def scanFrom (r : Re) (replacement : List Char → List Char) (prev : Option Char)
    (s : List Char) : List Char :=
  replaceAllFrom r replacement (s.length + 1) prev s

/-- The function `enhanceResponseFormatting` on the lines of a text without code fence, in
one pass over the lines: `headings` and `bullets` say whether a match of the heading and of
the bullet pattern is open before the line. -/
def enhanceFrom : Bool → Bool → Blocks → Blocks
  | _, _, [] => []
  | headings, bullets, (l, n) :: rest =>
    match enhanceFrom (feedStep headingKind headings l rest.isEmpty).2
        (feedStep bulletKind bullets l rest.isEmpty).2 rest with
    | [] => if hasText l then [(l.rdropWhile isSpace, 0)] else []
    | x :: xs =>
      (l, capFeeds (n + (feedStep headingKind headings l rest.isEmpty).1 +
        (feedStep bulletKind bullets l rest.isEmpty).1)) :: x :: xs

/-- The first line of a text, if any, starts with a character that is not white space. -/
def StartsWithText (bs : Blocks) : Prop :=
  ∀ l, (bs.map Prod.fst).head? = some l → ∃ c cs, l = c :: cs ∧ isSpace c = false

/-- The text has a code fence marker: three consecutive backquotes. -/
def hasFence : List Char → Bool
  | [] => false
  | c :: cs => ['`', '`', '`'].isPrefixOf (c :: cs) || hasFence cs

/-- No line has a code fence marker. -/
def NoFence (bs : Blocks) : Prop := ∀ l ∈ bs.map Prod.fst, hasFence l = false

/-- A text made of a heading, a paragraph and two bullets. -/
def sampleMarkdown : List Char := "# Title\nuse `x`\n- a\n- b".data

/-! ## Properties of the registry and of `selectBestModel` -/

theorem mem_modelKeys (k : ModelKey) : k ∈ modelKeys := by
  cases k <;> simp [modelKeys]

theorem modelKeys_sorted (env : Env) :
    modelKeys.Pairwise (fun a b => priorityOf env a < priorityOf env b) := by
  simp [modelKeys, priorityOf, MODELS]

theorem modelKeys_nodup : modelKeys.Nodup := by
  simp [modelKeys]

/-- Registry priorities are pairwise distinct. -/
theorem priorityOf_injective (env : Env) (a b : ModelKey)
    (h : priorityOf env a = priorityOf env b) : a = b := by
  cases a <;> cases b <;> simp [priorityOf, MODELS] at h <;> rfl

/-- Distinct providers have distinct endpoints, so the requests sent to distinct providers
are distinct and the transport may answer each provider independently of the others. -/
theorem endpoint_injective (env : Env) (a b : ModelKey)
    (h : (MODELS env a).endpoint = (MODELS env b).endpoint) : a = b := by
  cases a <;> cases b <;> first | rfl | (revert h; simp only [ MODELS]; decide)

/-- The first key of the registry order that passes a test has the least priority among
the keys that pass it. -/
theorem find_modelKeys_minimal (env : Env) (p : ModelKey → Bool) (k : ModelKey)
    (h : modelKeys.find? p = some k) :
    p k = true ∧ ∀ j, p j = true → priorityOf env k ≤ priorityOf env j := by
  obtain ⟨hk, pre, post, hsplit, hpre⟩ := List.find?_eq_some.mp h
  refine ⟨hk, fun j hj => ?_⟩
  have hmem : j ∈ pre ++ k :: post := hsplit ▸ mem_modelKeys j
  have hsorted := modelKeys_sorted env
  rw [hsplit] at hsorted
  rcases List.mem_append.mp hmem with hin | hin
  · have := hpre j hin
    simp [hj] at this
  · rcases List.mem_cons.mp hin with rfl | hin
    · exact le_refl _
    · have h2 := (List.pairwise_append.mp hsorted).2.1
      exact le_of_lt ((List.pairwise_cons.mp h2).1 j hin)

/-- For a task type that is not a name inherited from `Object.prototype`,
`selectBestModel` is the two walks of the specification: the policy of the task type, then
the registry. -/
theorem selectBestModel_eq_of_not_inherited (env : Env) (taskType : Option String)
    (h : taskType.getD "general" ∉ objectPrototypeKeys) :
    selectBestModel env taskType =
      match (policyFor (taskType.getD "general")).find? (configured env) with
      | some k => .ok k
      | none =>
        match modelKeys.find? (configured env) with
        | some k => .ok k
        | none => .error (.error noModelsMessage) := by
  unfold selectBestModel taskPreferencesGet policyFor
  cases hl : TASK_PREFERENCES.lookup (taskType.getD "general") with
  | none => simp [h]
  | some prefs => simp

/-- For a task type that is a name inherited from `Object.prototype`, `selectBestModel`
throws the `TypeError` of the `for ... of` loop, whatever the credentials. -/
theorem selectBestModel_of_inherited (env : Env) (taskType : String)
    (h : taskType ∈ objectPrototypeKeys) :
    selectBestModel env (some taskType) =
      .error (.typeError "preferences is not iterable") := by
  have hl : TASK_PREFERENCES.lookup taskType = none := by
    simp only [objectPrototypeKeys, List.mem_cons, List.mem_singleton, List.not_mem_nil,
      or_false] at h
    rcases h with h | h | h | h | h | h | h | h | h | h | h | h <;> subst h <;> rfl
  simp [selectBestModel, taskPreferencesGet, hl, h]

/-- Task fit: outside the inherited names, when a provider of the policy is configured the
selector returns the earliest configured provider of the policy. -/
theorem selectBestModel_preferred (env : Env) (taskType : Option String)
    (h : taskType.getD "general" ∉ objectPrototypeKeys)
    (hcfg : ∃ k ∈ policyFor (taskType.getD "general"), configured env k = true) :
    ∃ k before after,
      policyFor (taskType.getD "general") = before ++ k :: after ∧
      configured env k = true ∧
      (∀ j ∈ before, configured env j = false) ∧
      selectBestModel env taskType = .ok k := by
  rw [selectBestModel_eq_of_not_inherited env taskType h]
  cases hf : (policyFor (taskType.getD "general")).find? (configured env) with
  | none =>
    obtain ⟨k, hk, hck⟩ := hcfg
    have := List.find?_eq_none.mp hf k hk
    exact absurd hck this
  | some k =>
    obtain ⟨hk, pre, post, hsplit, hpre⟩ := List.find?_eq_some.mp hf
    exact ⟨k, pre, post, hsplit, hk, fun j hj => by simpa using hpre j hj, rfl⟩

/-- Availability fit: outside the inherited names, when no provider of the policy is
configured but some provider is, the selector returns the configured provider of least
priority. -/
theorem selectBestModel_availability (env : Env) (taskType : Option String)
    (h : taskType.getD "general" ∉ objectPrototypeKeys)
    (hnone : ∀ k ∈ policyFor (taskType.getD "general"), configured env k = false)
    (hsome : ∃ k, configured env k = true) :
    ∃ k, selectBestModel env taskType = .ok k ∧ configured env k = true ∧
      ∀ j, configured env j = true → priorityOf env k ≤ priorityOf env j := by
  rw [selectBestModel_eq_of_not_inherited env taskType h]
  have hf : (policyFor (taskType.getD "general")).find? (configured env) = none :=
    List.find?_eq_none.mpr fun k hk => by simp [hnone k hk]
  rw [hf]
  cases hm : modelKeys.find? (configured env) with
  | none =>
    obtain ⟨k, hck⟩ := hsome
    exact absurd hck (List.find?_eq_none.mp hm k (mem_modelKeys k))
  | some k =>
    obtain ⟨hk, hmin⟩ := find_modelKeys_minimal env (configured env) k hm
    exact ⟨k, rfl, hk, hmin⟩

/-- Whatever `selectBestModel` returns is configured. -/
theorem selectBestModel_configured (env : Env) (taskType : Option String) (k : ModelKey)
    (h : selectBestModel env taskType = .ok k) : configured env k = true := by
  have key : ∀ prefs : List ModelKey,
      (match prefs.find? (fun modelKey => configured env modelKey) with
        | some modelKey => Except.ok modelKey
        | none =>
          match modelKeys.find? (fun modelKey => configured env modelKey) with
          | some modelKey => Except.ok modelKey
          | none => Except.error (Thrown.error noModelsMessage)) = Except.ok k →
      configured env k = true := by
    intro prefs hp
    cases hf : prefs.find? (fun modelKey => configured env modelKey) with
    | some j =>
      rw [hf] at hp
      cases hp
      exact List.find?_some hf
    | none =>
      rw [hf] at hp
      cases hm : modelKeys.find? (fun modelKey => configured env modelKey) with
      | some j =>
        rw [hm] at hp
        cases hp
        exact List.find?_some hm
      | none =>
        rw [hm] at hp
        cases hp
  unfold selectBestModel at h
  cases hl : taskPreferencesGet (taskType.getD "general") with
  | own prefs =>
    simp only [hl] at h
    exact key prefs h
  | inherited =>
    simp only [hl] at h
    cases h
  | undefined =>
    simp only [hl] at h
    exact key _ h

/-- Outside the inherited names the selector fails exactly when nothing is configured, and
then with the configuration error. -/
theorem selectBestModel_total (env : Env) (taskType : Option String)
    (h : taskType.getD "general" ∉ objectPrototypeKeys) :
    ((∃ k, selectBestModel env taskType = .ok k ∧ configured env k = true) ∨
      selectBestModel env taskType = .error (.error noModelsMessage)) ∧
    (selectBestModel env taskType = .error (.error noModelsMessage) ↔
      ∀ k, configured env k = false) := by
  rw [selectBestModel_eq_of_not_inherited env taskType h]
  cases hf : (policyFor (taskType.getD "general")).find? (configured env) with
  | some k =>
    have hk := List.find?_some hf
    refine ⟨Or.inl ⟨k, rfl, hk⟩, ?_⟩
    constructor
    · intro hc; cases hc
    · intro hall; rw [hall k] at hk; cases hk
  | none =>
    cases hm : modelKeys.find? (configured env) with
    | some k =>
      have hk := List.find?_some hm
      refine ⟨Or.inl ⟨k, rfl, hk⟩, ?_⟩
      constructor
      · intro hc; cases hc
      · intro hall; rw [hall k] at hk; cases hk
    | none =>
      refine ⟨Or.inr rfl, ?_⟩
      constructor
      · intro _ k
        simpa using List.find?_eq_none.mp hm k (mem_modelKeys k)
      · intro _; rfl

/-- C1, at the failing input: only the Groq key is set and the task type is
`constructor`, which is not a listed task type, so its policy is the list of `general`,
where Groq is the earliest configured provider; `selectBestModel` does not return Groq, it
throws the `TypeError` of a `for ... of` over a value that is not iterable. -/
theorem selectBestModel_constructor_not_preferred :
    policyFor "constructor" = generalPreferences ∧
    (policyFor "constructor").find? (configured envGroq) = some .GROQ ∧
    selectBestModel envGroq (some "constructor") =
      .error (.typeError "preferences is not iterable") :=
  ⟨rfl, rfl, rfl⟩

/-- C2, at the failing input: only the Perplexity key is set and the task type is
`toString`; no provider of the policy (the list of `general`) is configured and Perplexity
is the only, hence the least-priority, configured provider; `selectBestModel` does not
return Perplexity, it throws a `TypeError`. -/
theorem selectBestModel_toString_no_availability_fallback :
    (∀ k ∈ policyFor "toString", configured envPerplexity k = false) ∧
    configured envPerplexity .PERPLEXITY = true ∧
    (∀ j, configured envPerplexity j = true →
      priorityOf envPerplexity .PERPLEXITY ≤ priorityOf envPerplexity j) ∧
    selectBestModel envPerplexity (some "toString") =
      .error (.typeError "preferences is not iterable") := by
  refine ⟨?_, rfl, ?_, rfl⟩
  · intro k hk
    simp only [policyFor, generalPreferences, List.mem_cons, List.mem_singleton,
      List.not_mem_nil, or_false, show TASK_PREFERENCES.lookup "toString" = none from rfl,
      Option.getD_none] at hk
    rcases hk with h | h | h | h <;> subst h <;> rfl
  · intro j hj
    cases j <;> first | exact le_refl _ | (exact absurd hj (by decide))

/-- C3, at the failing input: the Groq key is set and the task type is `valueOf`;
`selectBestModel` fails although a provider is configured, and the failure is a
`TypeError`, not the error of a missing configuration. -/
theorem selectBestModel_valueOf_fails_when_configured :
    configured envGroq .GROQ = true ∧
    selectBestModel envGroq (some "valueOf") =
      .error (.typeError "preferences is not iterable") ∧
    Thrown.typeError "preferences is not iterable" ≠ Thrown.error noModelsMessage := by
  refine ⟨rfl, rfl, ?_⟩
  intro h
  cases h

/-! ## Properties of `callAI` -/

theorem attemptPrimary_fst (env : Env) (post : Transport) (model : ModelKey)
    (messages : List Message) (options : Options) :
    (attemptPrimary env post model messages options).1 =
      [primaryCall env model messages options] := by
  unfold attemptPrimary primaryCall callGoogleGemini
  by_cases h : model = .GOOGLE
  · subst h; simp
  · simp [h]

theorem attemptFallback_fst (env : Env) (post : Transport) (fallback : ModelKey)
    (messages : List Message) (options : Options) :
    (attemptFallback env post fallback messages options).1 =
      [fallbackCall env fallback messages options] := by
  unfold attemptFallback fallbackCall callGoogleGemini
  by_cases h : fallback = .GOOGLE
  · subst h; simp
  · simp [h]

/-- The outcome of the call to the selected model is the rejection of the transport or
the extraction from the response data. -/
theorem primaryOutcome_eq (env : Env) (post : Transport) (model : ModelKey)
    (messages : List Message) (options : Options) :
    primaryOutcome env post model messages options =
      match post (primaryCall env model messages options).request with
      | .error e => .error (.rejected e)
      | .ok data => extractFor model data := by
  unfold primaryOutcome attemptPrimary primaryCall callGoogleGemini extractFor
  by_cases h : model = .GOOGLE
  · subst h; simp
  · simp [h]

/-- The outcome of the call to a fallback model is the rejection of the transport or the
extraction from the response data. -/
theorem fallbackOutcome_eq (env : Env) (post : Transport) (fallback : ModelKey)
    (messages : List Message) (options : Options) :
    fallbackOutcome env post fallback messages options =
      match post (fallbackCall env fallback messages options).request with
      | .error e => .error (.rejected e)
      | .ok data => extractFor fallback data := by
  unfold fallbackOutcome attemptFallback fallbackCall callGoogleGemini extractFor
  by_cases h : fallback = .GOOGLE
  · subst h; simp
  · simp [h]

theorem tryFallbacks_cons_ok (env : Env) (post : Transport) (messages : List Message)
    (options : Options) (c : ModelKey) (rest : List ModelKey) (v : JsVal)
    (h : fallbackOutcome env post c messages options = .ok v) :
    tryFallbacks env post messages options (c :: rest) =
      ([fallbackCall env c messages options], some v) := by
  have h1 := attemptFallback_fst env post c messages options
  unfold fallbackOutcome at h
  rw [tryFallbacks]
  cases hc : attemptFallback env post c messages options with
  | mk calls r =>
    rw [hc] at h h1
    simp only at h h1
    subst h h1
    rfl

theorem tryFallbacks_cons_failed (env : Env) (post : Transport) (messages : List Message)
    (options : Options) (c : ModelKey) (rest : List ModelKey)
    (h : failed (fallbackOutcome env post c messages options) = true) :
    tryFallbacks env post messages options (c :: rest) =
      (fallbackCall env c messages options ::
          (tryFallbacks env post messages options rest).1,
        (tryFallbacks env post messages options rest).2) := by
  have h1 := attemptFallback_fst env post c messages options
  unfold fallbackOutcome at h
  rw [tryFallbacks]
  cases hc : attemptFallback env post c messages options with
  | mk calls r =>
    rw [hc] at h h1
    simp only at h h1
    subst h1
    cases r with
    | ok v => simp [failed] at h
    | error e => rfl

/-- The loop stops at the first fallback whose call succeeds. -/
theorem tryFallbacks_first_success (env : Env) (post : Transport) (messages : List Message)
    (options : Options) (before : List ModelKey) (c : ModelKey) (after : List ModelKey)
    (v : JsVal)
    (hbefore : ∀ k ∈ before, failed (fallbackOutcome env post k messages options) = true)
    (hc : fallbackOutcome env post c messages options = .ok v) :
    tryFallbacks env post messages options (before ++ c :: after) =
      ((before ++ [c]).map fun k => fallbackCall env k messages options, some v) := by
  induction before with
  | nil => simpa using tryFallbacks_cons_ok env post messages options c after v hc
  | cons b bs ih =>
    have hb := hbefore b (List.mem_cons_self b bs)
    have ih2 := ih fun k hk => hbefore k (List.mem_cons_of_mem b hk)
    rw [List.cons_append, tryFallbacks_cons_failed env post messages options b _ hb, ih2]
    rfl

/-- When every fallback fails the loop calls each of them and runs to its end. -/
theorem tryFallbacks_all_failed (env : Env) (post : Transport) (messages : List Message)
    (options : Options) (l : List ModelKey)
    (hall : ∀ k ∈ l, failed (fallbackOutcome env post k messages options) = true) :
    tryFallbacks env post messages options l =
      (l.map fun k => fallbackCall env k messages options, none) := by
  induction l with
  | nil => rfl
  | cons b bs ih =>
    have hb := hall b (List.mem_cons_self b bs)
    have ih2 := ih fun k hk => hall k (List.mem_cons_of_mem b hk)
    rw [tryFallbacks_cons_failed env post messages options b _ hb, ih2]
    rfl

/-- Either some fallback is the first to succeed, or all of them fail. -/
theorem fallbacks_first_success_or_all_failed (env : Env) (post : Transport)
    (messages : List Message) (options : Options) (l : List ModelKey) :
    (∃ before c after v, l = before ++ c :: after ∧
      (∀ k ∈ before, failed (fallbackOutcome env post k messages options) = true) ∧
      fallbackOutcome env post c messages options = .ok v) ∨
    (∀ k ∈ l, failed (fallbackOutcome env post k messages options) = true) := by
  induction l with
  | nil => exact Or.inr fun k hk => absurd hk (List.not_mem_nil k)
  | cons b bs ih =>
    cases hb : fallbackOutcome env post b messages options with
    | ok v => exact Or.inl ⟨[], b, bs, v, rfl, fun k hk => absurd hk (List.not_mem_nil k), hb⟩
    | error e =>
      have hfb : failed (fallbackOutcome env post b messages options) = true := by
        rw [hb]; rfl
      rcases ih with ⟨before, c, after, v, hsplit, hbefore, hc⟩ | hall
      · refine Or.inl ⟨b :: before, c, after, v, by rw [hsplit]; rfl, ?_, hc⟩
        intro k hk
        rcases List.mem_cons.mp hk with rfl | hk
        · exact hfb
        · exact hbefore k hk
      · refine Or.inr fun k hk => ?_
        rcases List.mem_cons.mp hk with rfl | hk
        · exact hfb
        · exact hall k hk

/-- The execution of `callAI` once a model has been selected, in terms of the outcome of
the primary call and of the fallback loop. -/
theorem callAI_of_selected (env : Env) (post : Transport) (taskType : Option String)
    (messages : List Message) (options : Options) (p : ModelKey)
    (hsel : selectBestModel env taskType = .ok p) :
    callAI env post taskType messages options =
      match primaryOutcome env post p messages options with
      | .ok value => ⟨[primaryCall env p messages options], .ok value⟩
      | .error error =>
        if (fallbackModels env p).length > 0 then
          match (tryFallbacks env post messages options (fallbackModels env p)).2 with
          | some value =>
            ⟨primaryCall env p messages options ::
              (tryFallbacks env post messages options (fallbackModels env p)).1, .ok value⟩
          | none =>
            ⟨primaryCall env p messages options ::
              (tryFallbacks env post messages options (fallbackModels env p)).1,
              .error (.error allFailedMessage)⟩
        else ⟨[primaryCall env p messages options], .error error⟩ := by
  have h1 := attemptPrimary_fst env post p messages options
  unfold callAI primaryOutcome
  rw [hsel]
  dsimp only
  cases ha : attemptPrimary env post p messages options with
  | mk calls r =>
    rw [ha] at h1
    simp only at h1
    subst h1
    cases r with
    | ok v => rfl
    | error e =>
      dsimp only
      split
      · cases ht : tryFallbacks env post messages options (fallbackModels env p) with
        | mk later o =>
          cases o <;> rfl
      · rfl

theorem mem_fallbackModels (env : Env) (p k : ModelKey) :
    k ∈ fallbackModels env p ↔ (configured env k = true ∧ k ≠ p) := by
  simp [fallbackModels, mem_modelKeys, and_comm]

theorem fallbackModels_sorted (env : Env) (p : ModelKey) :
    (fallbackModels env p).Pairwise (fun a b => priorityOf env a < priorityOf env b) :=
  (modelKeys_sorted env).filter _

theorem fallbackModels_nodup (env : Env) (p : ModelKey) : (fallbackModels env p).Nodup :=
  modelKeys_nodup.filter _

theorem map_provider_fallbackCall (env : Env) (messages : List Message) (options : Options)
    (l : List ModelKey) :
    (l.map fun k => fallbackCall env k messages options).map Call.provider = l := by
  induction l with
  | nil => rfl
  | cons a as ih => simpa [fallbackCall] using ih

/-- The providers called by the fallback loop are an initial segment of its candidates. -/
theorem tryFallbacks_providers_initial (env : Env) (post : Transport)
    (messages : List Message) (options : Options) (l : List ModelKey) :
    ((tryFallbacks env post messages options l).1.map Call.provider) <+: l := by
  rcases fallbacks_first_success_or_all_failed env post messages options l with
    ⟨before, c, after, v, hsplit, hbefore, hc⟩ | hall
  · rw [hsplit, tryFallbacks_first_success env post messages options before c after v hbefore hc]
    simp only [map_provider_fallbackCall]
    exact ⟨after, by simp⟩
  · rw [tryFallbacks_all_failed env post messages options l hall]
    simp only [map_provider_fallbackCall]
    exact ⟨[], by simp⟩

/-- Without any configured provider, and outside the inherited names, `callAI` throws the
configuration error before any call. -/
theorem callAI_unconfigured (env : Env) (post : Transport) (taskType : Option String)
    (messages : List Message) (options : Options)
    (h : taskType.getD "general" ∉ objectPrototypeKeys)
    (hnone : ∀ k, configured env k = false) :
    (callAI env post taskType messages options).result = .error (.error noModelsMessage) ∧
    (callAI env post taskType messages options).calls = [] := by
  have hsel := ((selectBestModel_total env taskType h).2).mpr hnone
  unfold callAI
  rw [hsel]
  exact ⟨rfl, rfl⟩

/-! ## The reads of the code and the paths of the specification -/

theorem except_bind_ok {α β : Type} (a : α) (f : α → Except Thrown β) :
    (Except.ok a >>= f) = f a := rfl

theorem except_bind_error {α β : Type} (e : Thrown) (f : α → Except Thrown β) :
    (Except.error e >>= f) = Except.error e := rfl

theorem valueAt_nil (v : JsVal) : valueAt v [] = some v := by
  cases v <;> simp [valueAt]

/-- A property read that does not throw moves one step along a path that goes on. -/
theorem valueAt_key_step (v w : JsVal) (k : String) (rest : List PathStep)
    (h : getProp v k = .ok w) (hrest : rest ≠ []) :
    valueAt v (.key k :: rest) = valueAt w rest := by
  cases rest with
  | nil => exact absurd rfl hrest
  | cons s rest =>
    cases v with
    | obj fields =>
      simp only [getProp, Except.ok.injEq] at h
      cases hl : fields.lookup k with
      | some x => rw [hl] at h; simp only [Option.getD_some] at h; subst h; simp [valueAt, hl]
      | none => rw [hl] at h; simp only [Option.getD_none] at h; subst h; simp [valueAt, hl]
    | undefined => cases h
    | null => cases h
    | _ => simp only [getProp, Except.ok.injEq] at h; subst h; simp [valueAt]

/-- A read of the first element that does not throw moves one step along a path that goes
on. -/
theorem valueAt_first_step (v w : JsVal) (rest : List PathStep)
    (h : getIndex0 v = .ok w) (hrest : rest ≠ []) :
    valueAt v (.first :: rest) = valueAt w rest := by
  cases rest with
  | nil => exact absurd rfl hrest
  | cons s rest =>
    cases v with
    | obj fields =>
      simp only [getIndex0, Except.ok.injEq] at h
      cases hl : fields.lookup "0" with
      | some x => rw [hl] at h; simp only [Option.getD_some] at h; subst h; simp [valueAt, hl]
      | none => rw [hl] at h; simp only [Option.getD_none] at h; subst h; simp [valueAt, hl]
    | arr xs =>
      cases xs with
      | nil => simp only [getIndex0, List.head?_nil, Option.getD_none, Except.ok.injEq] at h
               subst h; simp [valueAt]
      | cons x xs => simp only [getIndex0, List.head?_cons, Option.getD_some,
                       Except.ok.injEq] at h
                     subst h; simp [valueAt]
    | str s =>
      simp only [getIndex0] at h
      cases hs : s.data with
      | nil => rw [hs] at h; simp only [Except.ok.injEq] at h; subst h; simp [valueAt]
      | cons c cs => rw [hs] at h; simp only [Except.ok.injEq] at h; subst h; simp [valueAt]
    | undefined => cases h
    | null => cases h
    | _ => simp only [getIndex0, Except.ok.injEq] at h; subst h; simp [valueAt]

/-- A property read that does not throw gives the value at the one-step path, `undefined`
when there is none. -/
theorem valueAt_key_last (v w : JsVal) (k : String) (h : getProp v k = .ok w) :
    valueOrUndefined v [.key k] = w := by
  unfold valueOrUndefined
  cases v with
  | obj fields =>
    simp only [getProp, Except.ok.injEq] at h
    cases hl : fields.lookup k with
    | some x => rw [hl] at h; simp only [Option.getD_some] at h; subst h
                simp [valueAt, hl, valueAt_nil]
    | none => rw [hl] at h; simp only [Option.getD_none] at h; subst h; simp [valueAt, hl]
  | undefined => cases h
  | null => cases h
  | _ => simp only [getProp, Except.ok.injEq] at h; subst h; simp [valueAt]

/-- A step by a property name that selects something is the property read of the code. -/
theorem getProp_of_valueAt (v y : JsVal) (k : String) (rest : List PathStep)
    (h : valueAt v (.key k :: rest) = some y) :
    ∃ w, getProp v k = .ok w ∧ valueAt w rest = some y := by
  cases v with
  | obj fields =>
    cases hl : fields.lookup k with
    | some x => simp only [valueAt, hl] at h; exact ⟨x, by simp [getProp, hl], h⟩
    | none => simp [valueAt, hl] at h
  | _ => simp [valueAt] at h

/-- A step `[0]` that selects something is the read of the first element of the code. -/
theorem getIndex0_of_valueAt (v y : JsVal) (rest : List PathStep)
    (h : valueAt v (.first :: rest) = some y) :
    ∃ w, getIndex0 v = .ok w ∧ valueAt w rest = some y := by
  cases v with
  | obj fields =>
    cases hl : fields.lookup "0" with
    | some x => simp only [valueAt, hl] at h; exact ⟨x, by simp [getIndex0, hl], h⟩
    | none => simp [valueAt, hl] at h
  | arr xs =>
    cases xs with
    | nil => simp [valueAt] at h
    | cons x xs => simp only [valueAt] at h; exact ⟨x, by simp [getIndex0], h⟩
  | _ => simp [valueAt] at h

/-- The expression `choices[0].message.content` gives the value of the response at the path
`choices[0].message.content`. -/
theorem extractChat_of_valueAt (data v : JsVal) (h : valueAt data chatTextPath = some v) :
    extractChat data = .ok v := by
  obtain ⟨c, h1, h⟩ := getProp_of_valueAt _ _ _ _ h
  obtain ⟨f, h2, h⟩ := getIndex0_of_valueAt _ _ _ h
  obtain ⟨m, h3, h⟩ := getProp_of_valueAt _ _ _ _ h
  obtain ⟨w, h4, h⟩ := getProp_of_valueAt _ _ _ _ h
  rw [valueAt_nil] at h
  cases h
  unfold extractChat
  rw [h1, except_bind_ok, h2, except_bind_ok, h3, except_bind_ok, h4]

/-- The expression `candidates[0].content.parts[0].text` gives the value of the response at
the path `candidates[0].content.parts[0].text`. -/
theorem extractGemini_of_valueAt (data v : JsVal)
    (h : valueAt data geminiTextPath = some v) : extractGemini data = .ok v := by
  obtain ⟨c, h1, h⟩ := getProp_of_valueAt _ _ _ _ h
  obtain ⟨f, h2, h⟩ := getIndex0_of_valueAt _ _ _ h
  obtain ⟨ct, h3, h⟩ := getProp_of_valueAt _ _ _ _ h
  obtain ⟨ps, h4, h⟩ := getProp_of_valueAt _ _ _ _ h
  obtain ⟨pt, h5, h⟩ := getIndex0_of_valueAt _ _ _ h
  obtain ⟨w, h6, h⟩ := getProp_of_valueAt _ _ _ _ h
  rw [valueAt_nil] at h
  cases h
  unfold extractGemini
  rw [h1, except_bind_ok, h2, except_bind_ok, h3, except_bind_ok, h4, except_bind_ok, h5,
    except_bind_ok, h6]

/-- Whatever `choices[0].message.content` evaluates to is the value of the response at that
path, `undefined` when the path is absent. -/
theorem extractChat_eq_valueAt (data v : JsVal) (h : extractChat data = .ok v) :
    v = valueOrUndefined data chatTextPath := by
  unfold extractChat at h
  cases h1 : getProp data "choices" with
  | error e => simp [h1, except_bind_error] at h
  | ok c =>
    rw [h1, except_bind_ok] at h
    cases h2 : getIndex0 c with
    | error e => simp [h2, except_bind_error] at h
    | ok f =>
      rw [h2, except_bind_ok] at h
      cases h3 : getProp f "message" with
      | error e => simp [h3, except_bind_error] at h
      | ok m =>
        rw [h3, except_bind_ok] at h
        unfold valueOrUndefined chatTextPath
        rw [valueAt_key_step _ _ _ _ h1 (by simp), valueAt_first_step _ _ _ h2 (by simp),
          valueAt_key_step _ _ _ _ h3 (by simp)]
        exact (valueAt_key_last _ _ _ h).symm

/-- Whatever `candidates[0].content.parts[0].text` evaluates to is the value of the
response at that path, `undefined` when the path is absent. -/
theorem extractGemini_eq_valueAt (data v : JsVal) (h : extractGemini data = .ok v) :
    v = valueOrUndefined data geminiTextPath := by
  unfold extractGemini at h
  cases h1 : getProp data "candidates" with
  | error e => simp [h1, except_bind_error] at h
  | ok c =>
    rw [h1, except_bind_ok] at h
    cases h2 : getIndex0 c with
    | error e => simp [h2, except_bind_error] at h
    | ok f =>
      rw [h2, except_bind_ok] at h
      cases h3 : getProp f "content" with
      | error e => simp [h3, except_bind_error] at h
      | ok ct =>
        rw [h3, except_bind_ok] at h
        cases h4 : getProp ct "parts" with
        | error e => simp [h4, except_bind_error] at h
        | ok ps =>
          rw [h4, except_bind_ok] at h
          cases h5 : getIndex0 ps with
          | error e => simp [h5, except_bind_error] at h
          | ok pt =>
            rw [h5, except_bind_ok] at h
            unfold valueOrUndefined geminiTextPath
            rw [valueAt_key_step _ _ _ _ h1 (by simp), valueAt_first_step _ _ _ h2 (by simp),
              valueAt_key_step _ _ _ _ h3 (by simp), valueAt_key_step _ _ _ _ h4 (by simp),
              valueAt_first_step _ _ _ h5 (by simp)]
            exact (valueAt_key_last _ _ _ h).symm

/-- C4: when the call to the provider chosen by `selectBestModel` succeeds, `callAI`
returns exactly the value extracted from that provider's response, which is the value of
the response at the completion path of the provider (`choices[0].message.content`, or
`candidates[0].content.parts[0].text` for Gemini; `undefined` when the response has nothing
there), and the only call of the execution is the one to that provider (no fallback is
used). In particular, when the response of that provider has the value `v` at its
completion path, `callAI` returns `v` after that one call. -/
theorem callAI_primary_success (env : Env) (post : Transport) (taskType : Option String)
    (messages : List Message) (options : Options) (p : ModelKey)
    (hsel : selectBestModel env taskType = .ok p) :
    (∀ v, primaryOutcome env post p messages options = .ok v →
      (callAI env post taskType messages options).result = .ok v ∧
      (callAI env post taskType messages options).calls =
        [primaryCall env p messages options] ∧
      (callAI env post taskType messages options).providers = [p] ∧
      ∃ data, post (primaryCall env p messages options).request = .ok data ∧
        extractFor p data = .ok v ∧ v = valueOrUndefined data (completionPath p)) ∧
    (∀ data v, post (primaryCall env p messages options).request = .ok data →
      valueAt data (completionPath p) = some v →
      (callAI env post taskType messages options).result = .ok v ∧
      (callAI env post taskType messages options).calls =
        [primaryCall env p messages options] ∧
      (callAI env post taskType messages options).providers = [p]) := by
  have hfirst : ∀ v, primaryOutcome env post p messages options = .ok v →
      (callAI env post taskType messages options).result = .ok v ∧
      (callAI env post taskType messages options).calls =
        [primaryCall env p messages options] ∧
      (callAI env post taskType messages options).providers = [p] := by
    intro v hok
    rw [callAI_of_selected env post taskType messages options p hsel, hok]
    exact ⟨rfl, rfl, rfl⟩
  constructor
  · intro v hok
    obtain ⟨h1, h2, h3⟩ := hfirst v hok
    refine ⟨h1, h2, h3, ?_⟩
    rw [primaryOutcome_eq] at hok
    cases hp : post (primaryCall env p messages options).request with
    | error e => rw [hp] at hok; cases hok
    | ok data =>
      rw [hp] at hok
      have hread : extractFor p data = .ok v := hok
      refine ⟨data, rfl, hread, ?_⟩
      by_cases hg : p = .GOOGLE
      · have hx : extractFor p data = extractGemini data := by simp [extractFor, hg]
        have hc : completionPath p = geminiTextPath := by simp [completionPath, hg]
        rw [hx] at hread
        rw [hc]
        exact extractGemini_eq_valueAt data v hread
      · have hx : extractFor p data = extractChat data := by simp [extractFor, hg]
        have hc : completionPath p = chatTextPath := by simp [completionPath, hg]
        rw [hx] at hread
        rw [hc]
        exact extractChat_eq_valueAt data v hread
  · intro data v hpost hpath
    apply hfirst
    rw [primaryOutcome_eq, hpost]
    show extractFor p data = .ok v
    by_cases hg : p = .GOOGLE
    · have hx : extractFor p data = extractGemini data := by simp [extractFor, hg]
      have hc : completionPath p = geminiTextPath := by simp [completionPath, hg]
      rw [hc] at hpath
      rw [hx]
      exact extractGemini_of_valueAt data v hpath
    · have hx : extractFor p data = extractChat data := by simp [extractFor, hg]
      have hc : completionPath p = chatTextPath := by simp [completionPath, hg]
      rw [hc] at hpath
      rw [hx]
      exact extractChat_of_valueAt data v hpath

/-- C4 at a concrete input: Groq is selected for code generation and its response has
`hello` at `choices[0].message.content`. -/
theorem callAI_primary_success_witness :
    valueAt (chatResponse "hello") (completionPath .GROQ) = some (.str "hello") ∧
    (callAI envGroq postAllUp (some "code-generation") sampleMessages noOptions).result =
      .ok (.str "hello") ∧
    (callAI envGroq postAllUp (some "code-generation") sampleMessages noOptions).providers =
      [.GROQ] := by
  have hpath : valueAt (chatResponse "hello") (completionPath .GROQ) = some (.str "hello") :=
    rfl
  have h := (callAI_primary_success envGroq postAllUp (some "code-generation") sampleMessages
    noOptions .GROQ rfl).2 (chatResponse "hello") (.str "hello") rfl hpath
  exact ⟨hpath, h.1, h.2.2⟩

/-- The providers called in one execution are pairwise distinct. -/
theorem providers_nodup_of_callAI (env : Env) (post : Transport) (taskType : Option String)
    (messages : List Message) (options : Options) :
    (callAI env post taskType messages options).providers.Nodup := by
  cases hsel : selectBestModel env taskType with
  | error e =>
    unfold callAI
    rw [hsel]
    exact List.nodup_nil
  | ok p =>
    have hpre := tryFallbacks_providers_initial env post messages options (fallbackModels env p)
    have hnd : (p :: (tryFallbacks env post messages options
        (fallbackModels env p)).1.map Call.provider).Nodup := by
      refine List.nodup_cons.mpr ⟨fun hmem => ?_, (fallbackModels_nodup env p).sublist
        hpre.sublist⟩
      have := (mem_fallbackModels env p p).mp (hpre.subset hmem)
      exact this.2 rfl
    rw [callAI_of_selected env post taskType messages options p hsel]
    cases primaryOutcome env post p messages options with
    | ok v => simp [CallResult.providers, primaryCall]
    | error e =>
      dsimp only
      split
      · cases (tryFallbacks env post messages options (fallbackModels env p)).2 <;>
          simpa [CallResult.providers, primaryCall] using hnd
      · simp [CallResult.providers, primaryCall]

/-- C5: in one execution of `callAI`, whatever the credentials and whatever calls succeed
or fail, no provider is invoked twice. -/
theorem callAI_providers_nodup (env : Env) (post : Transport) (taskType : Option String)
    (messages : List Message) (options : Options) :
    (callAI env post taskType messages options).providers.Nodup :=
  providers_nodup_of_callAI env post taskType messages options

/-- The execution of `callAI` when the primary call fails and some fallback is the first
to succeed. -/
theorem callAI_of_first_success (env : Env) (post : Transport) (taskType : Option String)
    (messages : List Message) (options : Options) (p : ModelKey)
    (hsel : selectBestModel env taskType = .ok p)
    (hfail : failed (primaryOutcome env post p messages options) = true)
    (before : List ModelKey) (c : ModelKey) (after : List ModelKey) (v : JsVal)
    (hsplit : fallbackModels env p = before ++ c :: after)
    (hbefore : ∀ k ∈ before, failed (fallbackOutcome env post k messages options) = true)
    (hc : fallbackOutcome env post c messages options = .ok v) :
    callAI env post taskType messages options =
      ⟨primaryCall env p messages options ::
        (before ++ [c]).map fun k => fallbackCall env k messages options, .ok v⟩ := by
  rw [callAI_of_selected env post taskType messages options p hsel]
  cases hp : primaryOutcome env post p messages options with
  | ok w => rw [hp] at hfail; cases hfail
  | error e =>
    have hlen : (fallbackModels env p).length > 0 := by
      rw [hsplit]; simp
    dsimp only
    rw [if_pos hlen, hsplit,
      tryFallbacks_first_success env post messages options before c after v hbefore hc]

/-- The execution of `callAI` when the primary call and every fallback call fail. -/
theorem callAI_of_all_failed (env : Env) (post : Transport) (taskType : Option String)
    (messages : List Message) (options : Options) (p : ModelKey)
    (hsel : selectBestModel env taskType = .ok p)
    (hfail : failed (primaryOutcome env post p messages options) = true)
    (hall : ∀ k ∈ fallbackModels env p,
      failed (fallbackOutcome env post k messages options) = true) :
    callAI env post taskType messages options =
      ⟨primaryCall env p messages options ::
        (fallbackModels env p).map fun k => fallbackCall env k messages options,
       if (fallbackModels env p).length > 0 then .error (.error allFailedMessage)
       else primaryOutcome env post p messages options⟩ := by
  rw [callAI_of_selected env post taskType messages options p hsel]
  cases hp : primaryOutcome env post p messages options with
  | ok w => rw [hp] at hfail; cases hfail
  | error e =>
    dsimp only
    rw [tryFallbacks_all_failed env post messages options _ hall]
    by_cases hlen : (fallbackModels env p).length > 0
    · rw [if_pos hlen, if_pos hlen]
    · rw [if_neg hlen, if_neg hlen]
      have : fallbackModels env p = [] := by
        cases hf : fallbackModels env p with
        | nil => rfl
        | cons a l => rw [hf] at hlen; simp at hlen
      rw [this]
      rfl

/-- C6: when the call to the primary provider fails, the fallback candidates are exactly
the configured providers other than the primary, in ascending order of priority; the
candidates are called in that order, the result is the value of the first candidate whose
call succeeds and no later candidate is called; when no candidate succeeds every candidate
has been called. -/
theorem callAI_fallback_order (env : Env) (post : Transport) (taskType : Option String)
    (messages : List Message) (options : Options) (p : ModelKey)
    (hsel : selectBestModel env taskType = .ok p)
    (hfail : failed (primaryOutcome env post p messages options) = true) :
    (∀ k, k ∈ fallbackModels env p ↔ (configured env k = true ∧ k ≠ p)) ∧
    (fallbackModels env p).Pairwise (fun a b => priorityOf env a < priorityOf env b) ∧
    (∀ before c after v, fallbackModels env p = before ++ c :: after →
      (∀ k ∈ before, failed (fallbackOutcome env post k messages options) = true) →
      fallbackOutcome env post c messages options = .ok v →
      (callAI env post taskType messages options).result = .ok v ∧
      (callAI env post taskType messages options).providers = p :: (before ++ [c])) ∧
    ((∀ k ∈ fallbackModels env p,
        failed (fallbackOutcome env post k messages options) = true) →
      (callAI env post taskType messages options).providers = p :: fallbackModels env p) := by
  refine ⟨mem_fallbackModels env p, fallbackModels_sorted env p, ?_, ?_⟩
  · intro before c after v hsplit hbefore hc
    rw [callAI_of_first_success env post taskType messages options p hsel hfail before c
      after v hsplit hbefore hc]
    refine ⟨rfl, ?_⟩
    simp only [CallResult.providers, List.map_cons, map_provider_fallbackCall]
    rfl
  · intro hall
    rw [callAI_of_all_failed env post taskType messages options p hsel hfail hall]
    simp only [CallResult.providers, List.map_cons, map_provider_fallbackCall]
    rfl

/-- C6 at the scenario of the specification: Groq (priority 0) and OpenAI (priority 1) are
configured, the call to Groq fails and the call to OpenAI succeeds; the result is the text
of OpenAI and the calls are Groq, then OpenAI. -/
theorem callAI_fallback_order_witness :
    fallbackModels envGroqOpenAI .GROQ = [.OPENAI] ∧
    (callAI envGroqOpenAI postGroqDown (some "code-generation") sampleMessages
      noOptions).result = .ok (.str "hello from the fallback") ∧
    (callAI envGroqOpenAI postGroqDown (some "code-generation") sampleMessages
      noOptions).providers = [.GROQ, .OPENAI] := by
  have h := callAI_fallback_order envGroqOpenAI postGroqDown (some "code-generation")
    sampleMessages noOptions .GROQ rfl rfl
  have h3 := h.2.2.1 [] .OPENAI [] (.str "hello from the fallback") rfl
    (fun k hk => absurd hk (List.not_mem_nil k)) rfl
  exact ⟨rfl, h3.1, h3.2⟩

/-- C7 as stated fails: Groq and OpenAI are configured, the primary (Groq) fails and another
provider (OpenAI) is configured, yet `callAI` returns no result: the call to OpenAI fails as
well and `callAI` throws. -/
theorem callAI_fallback_may_fail :
    selectBestModel envGroqOpenAI (some "code-generation") = .ok .GROQ ∧
    failed (primaryOutcome envGroqOpenAI postAllDown .GROQ sampleMessages noOptions) = true ∧
    configured envGroqOpenAI .OPENAI = true ∧
    (callAI envGroqOpenAI postAllDown (some "code-generation") sampleMessages
      noOptions).result = .error (.error allFailedMessage) :=
  ⟨rfl, rfl, rfl, rfl⟩

/-- C7, amended: when the call to the primary provider fails and the call to at least one
other configured provider succeeds, `callAI` returns a value produced by a configured
provider different from the primary, namely the last provider called, after more than one
call (a fallback was used). -/
theorem callAI_fallback_success (env : Env) (post : Transport) (taskType : Option String)
    (messages : List Message) (options : Options) (p : ModelKey)
    (hsel : selectBestModel env taskType = .ok p)
    (hfail : failed (primaryOutcome env post p messages options) = true)
    (hother : ∃ k, k ≠ p ∧ configured env k = true ∧
      failed (fallbackOutcome env post k messages options) = false) :
    ∃ c v, c ≠ p ∧ configured env c = true ∧
      fallbackOutcome env post c messages options = .ok v ∧
      (callAI env post taskType messages options).result = .ok v ∧
      (callAI env post taskType messages options).providers.head? = some p ∧
      (callAI env post taskType messages options).providers.getLast? = some c ∧
      1 < (callAI env post taskType messages options).calls.length := by
  rcases fallbacks_first_success_or_all_failed env post messages options
      (fallbackModels env p) with ⟨before, c, after, v, hsplit, hbefore, hc⟩ | hall
  · have hmem : c ∈ fallbackModels env p := by rw [hsplit]; simp
    have hcp := (mem_fallbackModels env p c).mp hmem
    refine ⟨c, v, hcp.2, hcp.1, hc, ?_⟩
    rw [callAI_of_first_success env post taskType messages options p hsel hfail before c
      after v hsplit hbefore hc]
    refine ⟨rfl, ?_, ?_, ?_⟩
    · simp [CallResult.providers, primaryCall]
    · simp only [CallResult.providers, List.map_cons, map_provider_fallbackCall]
      rw [← List.cons_append, List.getLast?_append]
      rfl
    · simp
  · obtain ⟨k, hkp, hk, hkok⟩ := hother
    have := hall k ((mem_fallbackModels env p k).mpr ⟨hk, hkp⟩)
    rw [hkok] at this
    cases this

/-- C7, amended, at a concrete input: Groq fails, OpenAI answers. -/
theorem callAI_fallback_success_witness :
    ∃ c v, c ≠ ModelKey.GROQ ∧ configured envGroqOpenAI c = true ∧
      fallbackOutcome envGroqOpenAI postGroqDown c sampleMessages noOptions = .ok v ∧
      (callAI envGroqOpenAI postGroqDown (some "code-generation") sampleMessages
        noOptions).result = .ok v ∧
      (callAI envGroqOpenAI postGroqDown (some "code-generation") sampleMessages
        noOptions).providers.head? = some .GROQ ∧
      (callAI envGroqOpenAI postGroqDown (some "code-generation") sampleMessages
        noOptions).providers.getLast? = some c ∧
      1 < (callAI envGroqOpenAI postGroqDown (some "code-generation") sampleMessages
        noOptions).calls.length :=
  callAI_fallback_success envGroqOpenAI postGroqDown (some "code-generation") sampleMessages
    noOptions .GROQ rfl rfl ⟨.OPENAI, by decide, rfl, rfl⟩

/-- C8 as stated fails. With Groq and OpenAI configured and every call rejected, the error
thrown by `callAI` is an `Error` holding a message only: reading `attempts` on it gives
`undefined`, not a list with an entry per provider. With Groq alone configured and its call
rejected, the error thrown is not even that aggregate but the rejection itself. -/
theorem callAI_all_failed_carries_no_attempts :
    (failed (primaryOutcome envGroqOpenAI postAllDown .GROQ sampleMessages noOptions) = true ∧
      failed (fallbackOutcome envGroqOpenAI postAllDown .OPENAI sampleMessages noOptions) =
        true ∧
      (callAI envGroqOpenAI postAllDown (some "general") sampleMessages noOptions).result =
        .error (.error allFailedMessage) ∧
      (Thrown.error allFailedMessage).attempts = .undefined) ∧
    (failed (primaryOutcome envGroq postAllDown .GROQ sampleMessages noOptions) = true ∧
      (callAI envGroq postAllDown (some "general") sampleMessages noOptions).result =
        .error (.rejected rateLimited)) :=
  ⟨⟨rfl, rfl, rfl, rfl⟩, rfl, rfl⟩

/-- C8, amended: when the call to every configured provider fails, `callAI` has called each
configured provider exactly once, the primary first and the others in ascending order of
priority, and it throws: the `Error` with the fixed message `All AI models failed. No
fallback succeeded.` when a provider other than the primary is configured, the error of the
primary call itself when the primary is the only configured provider. The thrown value has
no `attempts`. -/
theorem callAI_all_providers_failed (env : Env) (post : Transport)
    (taskType : Option String) (messages : List Message) (options : Options) (p : ModelKey)
    (hsel : selectBestModel env taskType = .ok p)
    (hfail : failed (primaryOutcome env post p messages options) = true)
    (hothers : ∀ k, k ≠ p → configured env k = true →
      failed (fallbackOutcome env post k messages options) = true) :
    (callAI env post taskType messages options).providers = p :: fallbackModels env p ∧
    (callAI env post taskType messages options).providers.Nodup ∧
    (∀ k, k ∈ (callAI env post taskType messages options).providers ↔
      configured env k = true) ∧
    (callAI env post taskType messages options).result =
      (if (fallbackModels env p).length > 0 then .error (.error allFailedMessage)
       else primaryOutcome env post p messages options) ∧
    ∃ e, (callAI env post taskType messages options).result = .error e ∧
      e.attempts = .undefined := by
  have hall : ∀ k ∈ fallbackModels env p,
      failed (fallbackOutcome env post k messages options) = true := fun k hk =>
    hothers k ((mem_fallbackModels env p k).mp hk).2 ((mem_fallbackModels env p k).mp hk).1
  have hp := selectBestModel_configured env taskType p hsel
  have hprov : (callAI env post taskType messages options).providers =
      p :: fallbackModels env p := by
    rw [callAI_of_all_failed env post taskType messages options p hsel hfail hall]
    simp only [CallResult.providers, List.map_cons, map_provider_fallbackCall]
    rfl
  have hres : (callAI env post taskType messages options).result =
      (if (fallbackModels env p).length > 0 then .error (.error allFailedMessage)
       else primaryOutcome env post p messages options) := by
    rw [callAI_of_all_failed env post taskType messages options p hsel hfail hall]
  refine ⟨hprov, providers_nodup_of_callAI env post taskType messages options, ?_, hres,
    ?_⟩
  · intro k
    rw [hprov, List.mem_cons, mem_fallbackModels]
    constructor
    · rintro (rfl | h)
      · exact hp
      · exact h.1
    · intro hk
      by_cases hkp : k = p
      · exact Or.inl hkp
      · exact Or.inr ⟨hk, hkp⟩
  · rw [hres]
    split
    · exact ⟨_, rfl, rfl⟩
    · cases hpo : primaryOutcome env post p messages options with
      | ok w => rw [hpo] at hfail; cases hfail
      | error e => exact ⟨e, rfl, by cases e <;> rfl⟩

/-- C8, amended, at a concrete input: Groq and OpenAI are configured and every call is
rejected. -/
theorem callAI_all_providers_failed_witness :
    (callAI envGroqOpenAI postAllDown (some "general") sampleMessages noOptions).providers =
      [.GROQ, .OPENAI] ∧
    (callAI envGroqOpenAI postAllDown (some "general") sampleMessages noOptions).result =
      .error (.error allFailedMessage) := by
  have h := callAI_all_providers_failed envGroqOpenAI postAllDown (some "general")
    sampleMessages noOptions .GROQ rfl rfl (fun k _ _ => by cases k <;> rfl)
  exact ⟨h.1, h.2.2.2.1⟩

/-- C9, at the failing input: no key is set and the task type is `hasOwnProperty`; `callAI`
calls no provider, but the error it throws is the `TypeError` of the selector, not the
configuration error. -/
theorem callAI_hasOwnProperty_unconfigured :
    (∀ k, configured envNone k = false) ∧
    (callAI envNone postAllUp (some "hasOwnProperty") sampleMessages noOptions).result =
      .error (.typeError "preferences is not iterable") ∧
    (callAI envNone postAllUp (some "hasOwnProperty") sampleMessages noOptions).calls.length =
      0 ∧
    Thrown.typeError "preferences is not iterable" ≠ Thrown.error noModelsMessage := by
  refine ⟨fun k => by cases k <;> rfl, rfl, rfl, ?_⟩
  intro h
  cases h

/-- C10 as stated fails: Groq alone is configured and its call is rejected with status
429; the error that reaches the caller of `callAI` is that rejection itself, neither the
configuration error nor the all-failed error. -/
theorem callAI_single_provider_raw_error :
    (callAI envGroq postAllDown (some "code-generation") sampleMessages noOptions).result =
      .error (.rejected rateLimited) ∧
    Thrown.rejected rateLimited ≠ Thrown.error noModelsMessage ∧
    Thrown.rejected rateLimited ≠ Thrown.error allFailedMessage := by
  refine ⟨rfl, ?_, ?_⟩ <;> intro h <;> cases h

/-- C10, amended: for a task type that is not a name inherited from `Object.prototype`,
every failure of `callAI` is the configuration error, the all-failed error, or, when the
selected provider is the only configured one, the error of the call to that provider,
rethrown as it is. -/
theorem callAI_failure_kinds (env : Env) (post : Transport) (taskType : Option String)
    (messages : List Message) (options : Options) (e : Thrown)
    (h : taskType.getD "general" ∉ objectPrototypeKeys)
    (hres : (callAI env post taskType messages options).result = .error e) :
    e = .error noModelsMessage ∨ e = .error allFailedMessage ∨
    ∃ p, selectBestModel env taskType = .ok p ∧
      (∀ k, k ≠ p → configured env k = false) ∧
      primaryOutcome env post p messages options = .error e := by
  cases hsel : selectBestModel env taskType with
  | error e0 =>
    have hcall : (callAI env post taskType messages options).result = .error e0 := by
      unfold callAI; rw [hsel]
    rw [hcall] at hres
    cases hres
    rcases (selectBestModel_total env taskType h).1 with ⟨k, hk, _⟩ | hno
    · rw [hsel] at hk; cases hk
    · rw [hsel] at hno; cases hno; exact Or.inl rfl
  | ok p =>
    rw [callAI_of_selected env post taskType messages options p hsel] at hres
    cases hpo : primaryOutcome env post p messages options with
    | ok w => rw [hpo] at hres; cases hres
    | error e0 =>
      rw [hpo] at hres
      dsimp only at hres
      by_cases hlen : (fallbackModels env p).length > 0
      · rw [if_pos hlen] at hres
        cases ht : (tryFallbacks env post messages options (fallbackModels env p)).2 with
        | some w => rw [ht] at hres; cases hres
        | none => rw [ht] at hres; cases hres; exact Or.inr (Or.inl rfl)
      · rw [if_neg hlen] at hres
        cases hres
        refine Or.inr (Or.inr ⟨p, rfl, fun k hkp => ?_, hpo⟩)
        have hnil : fallbackModels env p = [] := by
          cases hf : fallbackModels env p with
          | nil => rfl
          | cons a l => rw [hf] at hlen; simp at hlen
        cases hk : configured env k with
        | false => rfl
        | true =>
          have := (mem_fallbackModels env p k).mpr ⟨hk, hkp⟩
          rw [hnil] at this
          cases this

/-- C10, amended, at a concrete input: Groq alone is configured and its call is rejected;
the failure is of the third kind. -/
theorem callAI_failure_kinds_witness :
    Thrown.rejected rateLimited = .error noModelsMessage ∨
    Thrown.rejected rateLimited = .error allFailedMessage ∨
    ∃ p, selectBestModel envGroq (some "code-generation") = .ok p ∧
      (∀ k, k ≠ p → configured envGroq k = false) ∧
      primaryOutcome envGroq postAllDown p sampleMessages noOptions =
        .error (.rejected rateLimited) :=
  callAI_failure_kinds envGroq postAllDown (some "code-generation") sampleMessages noOptions
    (.rejected rateLimited) (by decide) rfl

/-! ## Properties of `callGoogleGemini` -/

theorem intercalate_go_contents (ms : List Message) (m : Message) (acc : String) :
    String.intercalate.go acc "\n\n" ((m :: ms).map fun x => x.content) =
      acc ++ "\n\n" ++ flattenMessages (m :: ms) := by
  induction ms generalizing m acc with
  | nil => rfl
  | cons m2 rest ih =>
    have h := ih m2 (acc ++ "\n\n" ++ m.content)
    simp only [List.map_cons, String.intercalate.go] at h ⊢
    rw [h]
    simp only [flattenMessages, String.append_assoc]

/-- The JavaScript `messages.map(m => m.content).join` with a blank line as separator is
the flattening of the specification. -/
theorem intercalate_contents (ms : List Message) :
    "\n\n".intercalate (ms.map fun x => x.content) = flattenMessages ms := by
  cases ms with
  | nil => rfl
  | cons m rest =>
    cases rest with
    | nil => rfl
    | cons m2 rest =>
      have h := intercalate_go_contents rest m2 m.content
      have e : "\n\n".intercalate ((m :: m2 :: rest).map fun x => x.content) =
          String.intercalate.go m.content "\n\n" ((m2 :: rest).map fun x => x.content) := rfl
      rw [e, h]
      simp only [flattenMessages, String.append_assoc]

/-- C11: for every message list the body of the request built by `callGoogleGemini` has, at
`contents[0].parts[0].text`, the contents of the messages in their original order joined by
a blank line, the roles dropped; for a single message with content `c` that text is `c`. -/
theorem geminiRequest_prompt (env : Env) (messages : List Message) (options : Options) :
    geminiPromptText (geminiRequest env messages options).body =
      .ok (.str (flattenMessages messages)) ∧
    (∀ post, (callGoogleGemini env post messages options).1.map Call.request =
      [geminiRequest env messages options]) ∧
    ∀ role c, geminiPromptText (geminiRequest env [⟨role, c⟩] options).body =
      .ok (.str c) := by
  have key : ∀ ms : List Message, geminiPromptText (geminiRequest env ms options).body =
      .ok (.str (flattenMessages ms)) := by
    intro ms
    rw [← intercalate_contents]
    rfl
  exact ⟨key messages, fun _ => rfl, fun role c => key [⟨role, c⟩]⟩

/-- A response of the documented Gemini shape has its text at
`candidates[0].content.parts[0].text`. -/
theorem extractGemini_of_shape (t : String) (candidates parts : List JsVal) :
    extractGemini (.obj [("candidates",
      .arr (.obj [("content", .obj [("parts", .arr (.obj [("text", .str t)] :: parts))])]
        :: candidates))]) = .ok (.str t) :=
  rfl

/-- C12: when the Gemini endpoint answers with data whose value at the path
`candidates[0].content.parts[0].text` is the string `t`, `callGoogleGemini` returns exactly
`t`, and so does `callAI` when Gemini is the provider that succeeds: as the selected
provider, or as the first fallback whose call succeeds after the primary failed. -/
theorem callGoogleGemini_returns_text (env : Env) (post : Transport)
    (messages : List Message) (options : Options) (data : JsVal) (t : String)
    (hpost : post (geminiRequest env messages options) = .ok data)
    (hpath : valueAt data geminiTextPath = some (.str t)) :
    (callGoogleGemini env post messages options).2 = .ok (.str t) ∧
    (∀ taskType, selectBestModel env taskType = .ok .GOOGLE →
      (callAI env post taskType messages options).result = .ok (.str t)) ∧
    (∀ taskType p before after, selectBestModel env taskType = .ok p →
      failed (primaryOutcome env post p messages options) = true →
      fallbackModels env p = before ++ .GOOGLE :: after →
      (∀ k ∈ before, failed (fallbackOutcome env post k messages options) = true) →
      (callAI env post taskType messages options).result = .ok (.str t)) := by
  have hread : extractGemini data = .ok (.str t) :=
    extractGemini_of_valueAt data (.str t) hpath
  have hg : (callGoogleGemini env post messages options).2 = .ok (.str t) := by
    simp only [callGoogleGemini, hpost, hread]
  have hprim : primaryOutcome env post .GOOGLE messages options = .ok (.str t) := by
    simpa [primaryOutcome, attemptPrimary] using hg
  have hfall : fallbackOutcome env post .GOOGLE messages options = .ok (.str t) := by
    simpa [fallbackOutcome, attemptFallback] using hg
  refine ⟨hg, ?_, ?_⟩
  · intro taskType hsel
    rw [callAI_of_selected env post taskType messages options .GOOGLE hsel, hprim]
  · intro taskType p before after hsel hfail hsplit hbefore
    rw [callAI_of_first_success env post taskType messages options p hsel hfail before
      .GOOGLE after (.str t) hsplit hbefore hfall]

/-- C12 at the scenario of the specification: the mocked Gemini response has `hello` at
`candidates[0].content.parts[0].text` and the completion is `hello`. -/
theorem callGoogleGemini_returns_text_witness :
    valueAt (geminiResponse "hello") geminiTextPath = some (.str "hello") ∧
    (callGoogleGemini envGoogle postGemini sampleMessages noOptions).2 =
      .ok (.str "hello") ∧
    (callAI envGoogle postGemini (some "explanation") sampleMessages noOptions).result =
      .ok (.str "hello") := by
  have hpath : valueAt (geminiResponse "hello") geminiTextPath = some (.str "hello") := rfl
  have h := callGoogleGemini_returns_text envGoogle postGemini sampleMessages noOptions
    (geminiResponse "hello") "hello" rfl hpath
  exact ⟨hpath, h.1, h.2.1 (some "explanation") rfl⟩

/-! ## Properties of `getModelStatus` -/

theorem propertyName_injective (a b : ModelKey) (h : a.propertyName = b.propertyName) :
    a = b := by
  cases a <;> cases b <;> first | rfl | exact absurd h (by decide)

/-- The name and the strength tags of a registry entry do not depend on the environment. -/
theorem name_strengths_env_independent (env env2 : Env) (k : ModelKey) :
    (MODELS env k).name = (MODELS env2 k).name ∧
    (MODELS env k).strengths = (MODELS env2 k).strengths := by
  cases k <;> exact ⟨rfl, rfl⟩

/-- C19: `getModelStatus` returns exactly one entry per registry provider, in the order of
the registry; the entry of a provider has `configured` true exactly when the API key of the
provider is non-empty, and its strengths are the registered strength tags; two environments
in which the same providers have a non-empty key give the same status, so no credential
value appears in it. -/
theorem getModelStatus_entries (env env2 : Env)
    (hsame : ∀ k, configured env k = configured env2 k) :
    (getModelStatus env).map Prod.fst = modelKeys.map ModelKey.propertyName ∧
    ((getModelStatus env).map Prod.fst).Nodup ∧
    (∀ k, ∃ entry, (getModelStatus env).lookup k.propertyName = some entry ∧
      (entry.configured = true ↔ strTruthy (MODELS env k).apiKey = true) ∧
      entry.strengths = (MODELS env k).strengths ∧
      entry.name = (MODELS env k).name) ∧
    getModelStatus env = getModelStatus env2 := by
  refine ⟨by simp [getModelStatus], by simp [getModelStatus, modelKeys, ModelKey.propertyName],
    ?_, ?_⟩
  · intro k
    cases k <;> exact ⟨_, rfl, Iff.rfl, rfl, rfl⟩
  · unfold getModelStatus
    apply List.map_congr_left
    intro k _
    have h1 := name_strengths_env_independent env env2 k
    have h2 : strTruthy (MODELS env k).apiKey = strTruthy (MODELS env2 k).apiKey := hsame k
    rw [h1.1, h1.2, h2]

/-- C19 at a concrete input: two different Groq keys give the same status, in which Groq is
the only configured provider. -/
theorem getModelStatus_entries_witness :
    getModelStatus envGroq = getModelStatus envGroqOther ∧
    (getModelStatus envGroq).map (fun e => (e.1, e.2.configured)) =
      [("GROQ", true), ("OPENAI", false), ("OPENROUTER", false), ("GOOGLE", false),
       ("PERPLEXITY", false)] :=
  ⟨(getModelStatus_entries envGroq envGroqOther (fun k => by cases k <;> rfl)).2.2.2, rfl⟩

/-! ## Timeouts of the provider calls -/

theorem primaryCall_timeout (env : Env) (model : ModelKey) (messages : List Message)
    (options : Options) : (primaryCall env model messages options).request.timeout = 30000 := by
  unfold primaryCall
  split <;> rfl

theorem fallbackCall_timeout (env : Env) (model : ModelKey) (messages : List Message)
    (options : Options) : (fallbackCall env model messages options).request.timeout = 30000 := by
  unfold fallbackCall
  split <;> rfl

/-- Every call of the fallback loop is the call to one of the candidates. -/
theorem tryFallbacks_calls (env : Env) (post : Transport) (messages : List Message)
    (options : Options) (l : List ModelKey) :
    ∀ c ∈ (tryFallbacks env post messages options l).1,
      ∃ k, c = fallbackCall env k messages options := by
  intro c hc
  rcases fallbacks_first_success_or_all_failed env post messages options l with
    ⟨before, c2, after, v, hsplit, hbefore, hc2⟩ | hall
  · rw [hsplit, tryFallbacks_first_success env post messages options before c2 after v
      hbefore hc2] at hc
    obtain ⟨k, _, hk⟩ := List.mem_map.mp hc
    exact ⟨k, hk.symm⟩
  · rw [tryFallbacks_all_failed env post messages options l hall] at hc
    obtain ⟨k, _, hk⟩ := List.mem_map.mp hc
    exact ⟨k, hk.symm⟩

/-- The calls of `callAI` and `callGoogleGemini`, of `callGeminiGenerate` and of
`callPerplexity` are made with a timeout of 30000 ms. -/
theorem timeout_of_sibling_adapters :
    (∀ env post taskType messages options,
      ∀ c ∈ (callAI env post taskType messages options).calls, c.request.timeout = 30000) ∧
    (∀ env post messages options,
      ∀ c ∈ (callGoogleGemini env post messages options).1, c.request.timeout = 30000) ∧
    (∀ env encode post p,
      ∀ r ∈ (callGeminiGenerate env encode post p).1, r.timeout = some 30000) ∧
    (∀ format toStr env post p,
      ∀ r ∈ (callPerplexityWith format toStr env post p).1, r.timeout = some 30000) := by
  refine ⟨?_, ?_, ?_, ?_⟩
  · intro env post taskType messages options c hc
    cases hsel : selectBestModel env taskType with
    | error e =>
      have : (callAI env post taskType messages options).calls = [] := by
        unfold callAI; rw [hsel]
      rw [this] at hc
      cases hc
    | ok p =>
      rw [callAI_of_selected env post taskType messages options p hsel] at hc
      have hprim := primaryCall_timeout env p messages options
      have hrest : ∀ c ∈ (tryFallbacks env post messages options (fallbackModels env p)).1,
          c.request.timeout = 30000 := by
        intro c hc
        obtain ⟨k, rfl⟩ := tryFallbacks_calls env post messages options _ c hc
        exact fallbackCall_timeout env k messages options
      cases hpo : primaryOutcome env post p messages options with
      | ok v =>
        rw [hpo] at hc
        simp only [List.mem_singleton] at hc
        rw [hc]; exact hprim
      | error e =>
        rw [hpo] at hc
        dsimp only at hc
        split at hc
        · cases ht : (tryFallbacks env post messages options (fallbackModels env p)).2 with
          | some w =>
            rw [ht] at hc
            rcases List.mem_cons.mp hc with h | h
            · rw [h]; exact hprim
            · exact hrest c h
          | none =>
            rw [ht] at hc
            rcases List.mem_cons.mp hc with h | h
            · rw [h]; exact hprim
            · exact hrest c h
        · simp only [List.mem_singleton] at hc
          rw [hc]; exact hprim
  · intro env post messages options c hc
    simp only [callGoogleGemini, List.mem_singleton] at hc
    rw [hc]; rfl
  · intro env encode post p r hr
    unfold callGeminiGenerate at hr
    dsimp only at hr
    by_cases hkey : strTruthy (optOr p.apiKeyOverride env.GOOGLE_API_KEY) = true
    · rw [if_pos hkey] at hr
      simp only [List.mem_singleton] at hr
      rw [hr]; rfl
    · rw [if_neg hkey] at hr
      cases hr
  · intro format toStr env post p r hr
    unfold callPerplexityWith at hr
    dsimp only at hr
    by_cases hkey : strTruthy (optOr p.apiKeyOverride env.PERPLEXITY_API_KEY) = true
    · rw [if_pos hkey] at hr
      simp only [List.mem_singleton] at hr
      rw [hr]; rfl
    · rw [if_neg hkey] at hr
      cases hr

/-- C16, at the failing input: `callOpenAIChat` called with one message and a key issues
one request, and the configuration of that request has no timeout; with `stream` set the
configuration has `responseType` and still no timeout. -/
theorem callOpenAIChat_request_without_timeout :
    (callOpenAIChat processEnvNone axiosAllUp sampleChatParams).1.map AxiosRequest.timeout =
      [none] ∧
    (callOpenAIChat processEnvNone axiosAllUp
        { sampleChatParams with stream := .bool true }).1.map
      (fun r => (r.timeout, r.responseType)) = [(none, some "stream")] ∧
    ∀ env p apiKey, (openAIRequest env p apiKey).timeout = none :=
  ⟨rfl, rfl, fun _ _ _ => rfl⟩

/-! ## Properties of `callGeminiGenerate` -/

theorem getProp_truthy (v : JsVal) (key : String) (x : JsVal)
    (h : getProp v key = .ok x) (hx : x ≠ .undefined) : v.truthy = true := by
  cases v <;> simp [getProp] at h <;> first | rfl | exact absurd h.symm hx

theorem getIndex0_truthy (v : JsVal) (x : JsVal)
    (h : getIndex0 v = .ok x) (hx : x ≠ .undefined) : v.truthy = true := by
  cases v with
  | str s =>
    simp only [getIndex0] at h
    cases hs : s.data with
    | nil => rw [hs] at h; simp at h; exact absurd h.symm hx
    | cons c cs =>
      simp only [JsVal.truthy, decide_eq_true_eq]
      intro he
      rw [he] at hs
      cases hs
  | _ => first | rfl | (simp [getIndex0] at h <;> exact absurd h.symm hx)

theorem getProp_base_defined (v : JsVal) (key : String) (x : JsVal)
    (h : getProp v key = .ok x) : v ≠ .undefined := by
  intro hv
  rw [hv] at h
  simp [getProp] at h

theorem jsAnd_of_truthy (a : JsVal) (b : Except Thrown JsVal) (h : a.truthy = true) :
    jsAnd a b = b := by
  simp [jsAnd, h]

theorem jsAnd_of_falsy (a : JsVal) (b : Except Thrown JsVal) (h : a.truthy = false) :
    jsAnd a b = .ok a := by
  simp [jsAnd, h]

theorem truthy_ne_undefined (v : JsVal) (h : v.truthy = true) : v ≠ .undefined := by
  intro hv
  rw [hv] at h
  cases h

/-- When `callGeminiGenerate` gets a text out of the response data, every guarded read
succeeded on a truthy value, and the text is the truthy one of the text and the generated
text of the first part. -/
theorem geminiGenerateText_ok (data v : JsVal) (h : geminiGenerateText data = .ok v) :
    v.truthy = true ∧
    ∃ c f ct ps pt text g,
      getProp data "candidates" = .ok c ∧ getIndex0 c = .ok f ∧
      getProp f "content" = .ok ct ∧ getProp ct "parts" = .ok ps ∧
      getIndex0 ps = .ok pt ∧ getProp pt "text" = .ok text ∧
      getProp pt "generatedText" = .ok g ∧ v = jsOr text g := by
  unfold geminiGenerateText at h
  by_cases hd : data.truthy = true
  swap
  · simp [jsAnd, hd, except_bind_ok] at h
  rw [jsAnd_of_truthy _ _ hd] at h
  cases h1 : getProp data "candidates" with
  | error e => simp [h1, except_bind_error] at h
  | ok c =>
    rw [h1, except_bind_ok] at h
    by_cases hc : c.truthy = true
    swap
    · simp [jsAnd, hc, except_bind_ok] at h
    rw [jsAnd_of_truthy _ _ hc] at h
    cases h2 : getIndex0 c with
    | error e => simp [h2, except_bind_error] at h
    | ok f =>
      rw [h2, except_bind_ok] at h
      by_cases hf : f.truthy = true
      swap
      · simp [jsAnd, hf, except_bind_ok] at h
      rw [jsAnd_of_truthy _ _ hf] at h
      cases h3 : getProp f "content" with
      | error e => simp [h3, except_bind_error] at h
      | ok ct =>
        rw [h3, except_bind_ok] at h
        by_cases hct : ct.truthy = true
        swap
        · simp [jsAnd, hct, except_bind_ok] at h
        rw [jsAnd_of_truthy _ _ hct] at h
        cases h4 : getProp ct "parts" with
        | error e => simp [h4, except_bind_error] at h
        | ok ps =>
          rw [h4, except_bind_ok] at h
          by_cases hps : ps.truthy = true
          swap
          · simp [jsAnd, hps, except_bind_ok] at h
          rw [jsAnd_of_truthy _ _ hps] at h
          cases h5 : getIndex0 ps with
          | error e => simp [h5, except_bind_error] at h
          | ok pt =>
            rw [h5, except_bind_ok] at h
            by_cases hpt : pt.truthy = true
            swap
            · simp [jsAnd, hpt, except_bind_ok] at h
            rw [jsAnd_of_truthy _ _ hpt] at h
            cases h6 : getProp pt "text" with
            | error e => simp [h6, except_bind_error] at h
            | ok text =>
              cases h7 : getProp pt "generatedText" with
              | error e => simp [h6, h7, except_bind_ok, except_bind_error] at h
              | ok g =>
                rw [h6, h7] at h
                simp only [except_bind_ok, pure, Except.pure] at h
                by_cases hv : (jsOr text g).truthy = true
                · rw [if_pos hv] at h
                  cases h
                  exact ⟨hv, c, f, ct, ps, pt, text, g, rfl, h2, h3, h4, h5, h6,
                    h7, rfl⟩
                · rw [if_neg hv] at h
                  cases h


/-- The guarded reads of `callGeminiGenerate` on a response whose first part is truthy. -/
theorem geminiGenerateText_of_part (data c f ct ps pt text g : JsVal)
    (h1 : getProp data "candidates" = .ok c) (h2 : getIndex0 c = .ok f)
    (h3 : getProp f "content" = .ok ct) (h4 : getProp ct "parts" = .ok ps)
    (h5 : getIndex0 ps = .ok pt) (h6 : getProp pt "text" = .ok text)
    (h7 : getProp pt "generatedText" = .ok g) (hpt : pt.truthy = true) :
    geminiGenerateText data =
      if (jsOr text g).truthy then .ok (jsOr text g)
      else .error (.error "Invalid Gemini response") := by
  have hps := getIndex0_truthy ps pt h5 (truthy_ne_undefined pt hpt)
  have hct := getProp_truthy ct "parts" ps h4 (truthy_ne_undefined ps hps)
  have hf := getProp_truthy f "content" ct h3 (truthy_ne_undefined ct hct)
  have hc := getIndex0_truthy c f h2 (truthy_ne_undefined f hf)
  have hd := getProp_truthy data "candidates" c h1 (truthy_ne_undefined c hc)
  unfold geminiGenerateText
  rw [jsAnd_of_truthy _ _ hd, h1, except_bind_ok, jsAnd_of_truthy _ _ hc, h2, except_bind_ok,
    jsAnd_of_truthy _ _ hf, h3, except_bind_ok, jsAnd_of_truthy _ _ hct, h4, except_bind_ok,
    jsAnd_of_truthy _ _ hps, h5, except_bind_ok, jsAnd_of_truthy _ _ hpt, h6, h7]
  rfl

/-- A string at `candidates[0].content.parts[0].text` is the text of a truthy part. -/
theorem extractGemini_str (data : JsVal) (t : String)
    (h : extractGemini data = .ok (.str t)) :
    ∃ c f ct ps pt g,
      getProp data "candidates" = .ok c ∧ getIndex0 c = .ok f ∧
      getProp f "content" = .ok ct ∧ getProp ct "parts" = .ok ps ∧
      getIndex0 ps = .ok pt ∧ getProp pt "text" = .ok (.str t) ∧
      getProp pt "generatedText" = .ok g ∧ pt.truthy = true := by
  unfold extractGemini at h
  cases h1 : getProp data "candidates" with
  | error e => simp [h1, except_bind_error] at h
  | ok c =>
    rw [h1, except_bind_ok] at h
    cases h2 : getIndex0 c with
    | error e => simp [h2, except_bind_error] at h
    | ok f =>
      rw [h2, except_bind_ok] at h
      cases h3 : getProp f "content" with
      | error e => simp [h3, except_bind_error] at h
      | ok ct =>
        rw [h3, except_bind_ok] at h
        cases h4 : getProp ct "parts" with
        | error e => simp [h4, except_bind_error] at h
        | ok ps =>
          rw [h4, except_bind_ok] at h
          cases h5 : getIndex0 ps with
          | error e => simp [h5, except_bind_error] at h
          | ok pt =>
            rw [h5, except_bind_ok] at h
            have hpt := getProp_truthy pt "text" (.str t) h (by intro hh; cases hh)
            cases h7 : getProp pt "generatedText" with
            | error e =>
              have := getProp_base_defined pt "text" _ h
              cases pt <;> simp [getProp] at h7 h
            | ok g => exact ⟨c, f, ct, ps, pt, g, rfl, h2, h3, h4, h5,
                h, h7, hpt⟩


theorem getProp_of_truthy (v : JsVal) (key : String) (h : v.truthy = true) :
    ∃ x, getProp v key = .ok x := by
  cases v <;> first | exact ⟨_, rfl⟩ | cases h

theorem getIndex0_of_truthy (v : JsVal) (h : v.truthy = true) :
    ∃ x, getIndex0 v = .ok x := by
  cases v with
  | str s =>
    simp only [getIndex0]
    cases s.data <;> exact ⟨_, rfl⟩
  | _ => first | exact ⟨_, rfl⟩ | cases h

/-- The guarded reads of `callGeminiGenerate` never throw a `TypeError`: the outcome is a
value or the error `Invalid Gemini response`. -/
theorem geminiGenerateText_total (data : JsVal) :
    (∃ v, geminiGenerateText data = .ok v) ∨
    geminiGenerateText data = .error (.error "Invalid Gemini response") := by
  unfold geminiGenerateText
  by_cases hd : data.truthy = true
  swap
  · right; simp [jsAnd, hd, except_bind_ok]
  obtain ⟨c, h1⟩ := getProp_of_truthy data "candidates" hd
  rw [jsAnd_of_truthy _ _ hd, h1, except_bind_ok]
  by_cases hc : c.truthy = true
  swap
  · right; simp [jsAnd, hc, except_bind_ok]
  obtain ⟨f, h2⟩ := getIndex0_of_truthy c hc
  rw [jsAnd_of_truthy _ _ hc, h2, except_bind_ok]
  by_cases hf : f.truthy = true
  swap
  · right; simp [jsAnd, hf, except_bind_ok]
  obtain ⟨ct, h3⟩ := getProp_of_truthy f "content" hf
  rw [jsAnd_of_truthy _ _ hf, h3, except_bind_ok]
  by_cases hct : ct.truthy = true
  swap
  · right; simp [jsAnd, hct, except_bind_ok]
  obtain ⟨ps, h4⟩ := getProp_of_truthy ct "parts" hct
  rw [jsAnd_of_truthy _ _ hct, h4, except_bind_ok]
  by_cases hps : ps.truthy = true
  swap
  · right; simp [jsAnd, hps, except_bind_ok]
  obtain ⟨pt, h5⟩ := getIndex0_of_truthy ps hps
  rw [jsAnd_of_truthy _ _ hps, h5, except_bind_ok]
  by_cases hpt : pt.truthy = true
  swap
  · right; simp [jsAnd, hpt, except_bind_ok]
  obtain ⟨text, h6⟩ := getProp_of_truthy pt "text" hpt
  obtain ⟨g, h7⟩ := getProp_of_truthy pt "generatedText" hpt
  rw [jsAnd_of_truthy _ _ hpt, h6, h7]
  simp only [except_bind_ok, pure, Except.pure]
  by_cases hv : (jsOr text g).truthy = true
  · left; exact ⟨_, by rw [if_pos hv]⟩
  · right; rw [if_neg hv]

theorem callGeminiGenerate_of_key (env : ProcessEnv) (encode : String → String)
    (post : AxiosTransport) (p : GeminiParams) (data : JsVal)
    (hkey : strTruthy (optOr p.apiKeyOverride env.GOOGLE_API_KEY) = true)
    (hpost : post (geminiGenerateRequest encode p
      (template (optOr p.apiKeyOverride env.GOOGLE_API_KEY))) = .ok data) :
    (callGeminiGenerate env encode post p).2 = geminiGenerateText data := by
  unfold callGeminiGenerate
  dsimp only
  rw [if_pos hkey]
  dsimp only
  rw [hpost]

/-! ## The guarded reads of `callGeminiGenerate` and the paths of the specification -/

/-- Nothing is selected in a falsy value. -/
theorem valueAt_of_falsy (v : JsVal) (rest : List PathStep) (h : v.truthy = false)
    (hrest : rest ≠ []) : valueAt v rest = none := by
  cases rest with
  | nil => exact absurd rfl hrest
  | cons s rest => cases v <;> first | simp [valueAt] | simp [JsVal.truthy] at h

/-- A guarded property read `v && v.key` never throws and moves one step along a path that
goes on. -/
theorem guarded_key_step (v : JsVal) (k : String) :
    ∃ w, jsAnd v (getProp v k) = .ok w ∧
      ∀ rest, rest ≠ [] → valueAt v (.key k :: rest) = valueAt w rest := by
  by_cases hv : v.truthy = true
  · obtain ⟨w, hw⟩ := getProp_of_truthy v k hv
    exact ⟨w, by rw [jsAnd_of_truthy _ _ hv, hw],
      fun rest hrest => valueAt_key_step v w k rest hw hrest⟩
  · have hf : v.truthy = false := by simpa using hv
    refine ⟨v, by simp [jsAnd, hf], fun rest hrest => ?_⟩
    rw [valueAt_of_falsy v rest hf hrest, valueAt_of_falsy v _ hf (by simp)]

/-- A guarded read `v && v[0]` never throws and moves one step along a path that goes on. -/
theorem guarded_first_step (v : JsVal) :
    ∃ w, jsAnd v (getIndex0 v) = .ok w ∧
      ∀ rest, rest ≠ [] → valueAt v (.first :: rest) = valueAt w rest := by
  by_cases hv : v.truthy = true
  · obtain ⟨w, hw⟩ := getIndex0_of_truthy v hv
    exact ⟨w, by rw [jsAnd_of_truthy _ _ hv, hw],
      fun rest hrest => valueAt_first_step v w rest hw hrest⟩
  · have hf : v.truthy = false := by simpa using hv
    refine ⟨v, by simp [jsAnd, hf], fun rest hrest => ?_⟩
    rw [valueAt_of_falsy v rest hf hrest, valueAt_of_falsy v _ hf (by simp)]

/-- The last lines of `callGeminiGenerate` on the first part: the text of the part when it
is truthy, or else its generated text when that one is truthy, or else the error. -/
theorem guarded_part_text (part : JsVal) :
    (jsAnd part (do
        let text ← getProp part "text"
        let generated ← getProp part "generatedText"
        pure (jsOr text generated)) >>= fun text =>
      if text.truthy then .ok text else .error (.error "Invalid Gemini response")) =
    if (valueOrUndefined part [.key "text"]).truthy then
      .ok (valueOrUndefined part [.key "text"])
    else if (valueOrUndefined part [.key "generatedText"]).truthy then
      .ok (valueOrUndefined part [.key "generatedText"])
    else .error (.error "Invalid Gemini response") := by
  by_cases hv : part.truthy = true
  · obtain ⟨t, ht⟩ := getProp_of_truthy part "text" hv
    obtain ⟨g, hg⟩ := getProp_of_truthy part "generatedText" hv
    rw [jsAnd_of_truthy _ _ hv, ht, hg, valueAt_key_last _ _ _ ht, valueAt_key_last _ _ _ hg]
    simp only [except_bind_ok, pure, Except.pure]
    unfold jsOr
    by_cases h1 : t.truthy = true
    · simp [h1]
    · simp [h1]
  · have hf : part.truthy = false := by simpa using hv
    have h1 : valueOrUndefined part [.key "text"] = .undefined := by
      unfold valueOrUndefined; rw [valueAt_of_falsy part _ hf (by simp)]; rfl
    have h2 : valueOrUndefined part [.key "generatedText"] = .undefined := by
      unfold valueOrUndefined; rw [valueAt_of_falsy part _ hf (by simp)]; rfl
    rw [h1, h2]
    have hj : jsAnd part (do
        let text ← getProp part "text"
        let generated ← getProp part "generatedText"
        pure (jsOr text generated)) = .ok part := by
      unfold jsAnd
      rw [if_neg hv]
    rw [hj, except_bind_ok, if_neg hv]
    rfl

/-- The lines of `callGeminiGenerate` after the call, in the words of the specification:
the value at `candidates[0].content.parts[0].text` when it is truthy, or else the value at
`candidates[0].content.parts[0].generatedText` when that one is truthy, or else the error
`Invalid Gemini response`. -/
theorem geminiGenerateText_eq_valueAt (data : JsVal) :
    geminiGenerateText data =
      if (valueOrUndefined data geminiTextPath).truthy then
        .ok (valueOrUndefined data geminiTextPath)
      else if (valueOrUndefined data geminiGeneratedPath).truthy then
        .ok (valueOrUndefined data geminiGeneratedPath)
      else .error (.error "Invalid Gemini response") := by
  obtain ⟨c, h1, e1⟩ := guarded_key_step data "candidates"
  obtain ⟨f, h2, e2⟩ := guarded_first_step c
  obtain ⟨ct, h3, e3⟩ := guarded_key_step f "content"
  obtain ⟨ps, h4, e4⟩ := guarded_key_step ct "parts"
  obtain ⟨pt, h5, e5⟩ := guarded_first_step ps
  have ht : valueOrUndefined data geminiTextPath = valueOrUndefined pt [.key "text"] := by
    unfold valueOrUndefined geminiTextPath
    rw [e1 _ (by simp), e2 _ (by simp), e3 _ (by simp), e4 _ (by simp), e5 _ (by simp)]
  have hg : valueOrUndefined data geminiGeneratedPath =
      valueOrUndefined pt [.key "generatedText"] := by
    unfold valueOrUndefined geminiGeneratedPath
    rw [e1 _ (by simp), e2 _ (by simp), e3 _ (by simp), e4 _ (by simp), e5 _ (by simp)]
  rw [ht, hg, ← guarded_part_text pt]
  unfold geminiGenerateText
  rw [h1, except_bind_ok, h2, except_bind_ok, h3, except_bind_ok, h4, except_bind_ok, h5,
    except_bind_ok]

/-- C13 as stated fails. A response whose first part has a generated text and no text has
nothing at `candidates[0].content.parts[0].text`, yet `callGeminiGenerate` returns a text,
the generated one. A response with the empty string at that path has a string there, yet
`callGeminiGenerate` fails. (The key is made of unreserved characters, which
`encodeURIComponent` leaves as they are.) -/
theorem callGeminiGenerate_not_decided_by_text_path :
    (valueAt geminiGeneratedOnly geminiTextPath = none ∧
      extractGemini geminiGeneratedOnly = .ok .undefined ∧
      (callGeminiGenerate processEnvNone id (fun _ => .ok geminiGeneratedOnly)
        sampleGeminiParams).2 = .ok (.str "hi")) ∧
    (valueAt (geminiResponse "") geminiTextPath = some (.str "") ∧
      extractGemini (geminiResponse "") = .ok (.str "") ∧
      (callGeminiGenerate processEnvNone id (fun _ => .ok (geminiResponse ""))
        sampleGeminiParams).2 = .error (.error "Invalid Gemini response")) :=
  ⟨⟨rfl, rfl, rfl⟩, rfl, rfl, rfl⟩

/-- What `callGeminiGenerate` returns in terms of the reads of the code: the string at
`candidates[0].content.parts[0].text` when that string is not empty; whatever it returns is
truthy and is what the text read or the generated-text read gives; and it returns or fails
with the error `Invalid Gemini response`. -/
theorem callGeminiGenerate_reads (env : ProcessEnv) (encode : String → String)
    (post : AxiosTransport) (p : GeminiParams) (data : JsVal)
    (hkey : strTruthy (optOr p.apiKeyOverride env.GOOGLE_API_KEY) = true)
    (hpost : post (geminiGenerateRequest encode p
      (template (optOr p.apiKeyOverride env.GOOGLE_API_KEY))) = .ok data) :
    (∀ t, extractGemini data = .ok (.str t) → t ≠ "" →
      (callGeminiGenerate env encode post p).2 = .ok (.str t)) ∧
    (∀ v, (callGeminiGenerate env encode post p).2 = .ok v →
      v.truthy = true ∧
      (extractGemini data = .ok v ∨ extractGeminiGenerated data = .ok v)) ∧
    ((∃ v, (callGeminiGenerate env encode post p).2 = .ok v) ∨
      (callGeminiGenerate env encode post p).2 =
        .error (.error "Invalid Gemini response")) := by
  rw [callGeminiGenerate_of_key env encode post p data hkey hpost]
  refine ⟨?_, ?_, geminiGenerateText_total data⟩
  · intro t hpath ht
    obtain ⟨c, f, ct, ps, pt, g, h1, h2, h3, h4, h5, h6, h7, hpt⟩ := extractGemini_str data t hpath
    rw [geminiGenerateText_of_part data c f ct ps pt (.str t) g h1 h2 h3 h4 h5 h6 h7 hpt]
    have htr : (JsVal.str t).truthy = true := by simp [JsVal.truthy, ht]
    have hor : jsOr (.str t) g = .str t := by simp [jsOr, htr]
    rw [hor, if_pos htr]
  · intro v hv
    obtain ⟨hvt, c, f, ct, ps, pt, text, g, h1, h2, h3, h4, h5, h6, h7, hvo⟩ :=
      geminiGenerateText_ok data v hv
    refine ⟨hvt, ?_⟩
    by_cases htext : text.truthy = true
    · left
      have : v = text := by rw [hvo]; simp [jsOr, htext]
      rw [this]
      unfold extractGemini
      rw [h1, except_bind_ok, h2, except_bind_ok, h3, except_bind_ok, h4, except_bind_ok, h5,
        except_bind_ok, h6]
    · right
      have : v = g := by rw [hvo]; simp [jsOr, htext]
      rw [this]
      unfold extractGeminiGenerated
      rw [h1, except_bind_ok, h2, except_bind_ok, h3, except_bind_ok, h4, except_bind_ok, h5,
        except_bind_ok, h7]

/-- C13, amended: when the Gemini endpoint answers, `callGeminiGenerate` returns the value
of the response at `candidates[0].content.parts[0].text` when that value is truthy (a string
that is not empty); otherwise it returns the value at
`candidates[0].content.parts[0].generatedText` when that one is truthy; and in every other
case, an empty string at the text path with no generated text included, it fails with the
error `Invalid Gemini response`. An absent path counts as `undefined`. -/
theorem callGeminiGenerate_result (env : ProcessEnv) (encode : String → String)
    (post : AxiosTransport) (p : GeminiParams) (data : JsVal)
    (hkey : strTruthy (optOr p.apiKeyOverride env.GOOGLE_API_KEY) = true)
    (hpost : post (geminiGenerateRequest encode p
      (template (optOr p.apiKeyOverride env.GOOGLE_API_KEY))) = .ok data) :
    ((callGeminiGenerate env encode post p).2 =
      if (valueOrUndefined data geminiTextPath).truthy then
        .ok (valueOrUndefined data geminiTextPath)
      else if (valueOrUndefined data geminiGeneratedPath).truthy then
        .ok (valueOrUndefined data geminiGeneratedPath)
      else .error (.error "Invalid Gemini response")) ∧
    (∀ t, valueAt data geminiTextPath = some (.str t) → t ≠ "" →
      (callGeminiGenerate env encode post p).2 = .ok (.str t)) ∧
    (∀ g, (valueOrUndefined data geminiTextPath).truthy = false →
      valueAt data geminiGeneratedPath = some g → g.truthy = true →
      (callGeminiGenerate env encode post p).2 = .ok g) ∧
    ((valueOrUndefined data geminiTextPath).truthy = false →
      (valueOrUndefined data geminiGeneratedPath).truthy = false →
      (callGeminiGenerate env encode post p).2 =
        .error (.error "Invalid Gemini response")) := by
  have key := geminiGenerateText_eq_valueAt data
  rw [callGeminiGenerate_of_key env encode post p data hkey hpost]
  refine ⟨key, ?_, ?_, ?_⟩
  · intro t hpath ht
    have hv : valueOrUndefined data geminiTextPath = .str t := by
      unfold valueOrUndefined; rw [hpath]; rfl
    have htr : (JsVal.str t).truthy = true := by simp [JsVal.truthy, ht]
    rw [key, hv, if_pos htr]
  · intro g htext hpath hg
    have hv : valueOrUndefined data geminiGeneratedPath = g := by
      unfold valueOrUndefined; rw [hpath]; rfl
    rw [key, hv, if_neg (by rw [htext]; exact Bool.false_ne_true), if_pos hg]
  · intro htext hgen
    rw [key, if_neg (by rw [htext]; exact Bool.false_ne_true),
      if_neg (by rw [hgen]; exact Bool.false_ne_true)]

/-- C13, amended, at concrete inputs: a response with `hello` at the text path gives
`hello`; a response whose first part has only the generated text `hi` gives `hi`; a response
with the empty string at the text path and no generated text gives the error. -/
theorem callGeminiGenerate_result_witness :
    (callGeminiGenerate processEnvNone id (fun _ => .ok (geminiResponse "hello"))
      sampleGeminiParams).2 = .ok (.str "hello") ∧
    (callGeminiGenerate processEnvNone id (fun _ => .ok geminiGeneratedOnly)
      sampleGeminiParams).2 = .ok (.str "hi") ∧
    (callGeminiGenerate processEnvNone id (fun _ => .ok (geminiResponse ""))
      sampleGeminiParams).2 = .error (.error "Invalid Gemini response") :=
  ⟨(callGeminiGenerate_result processEnvNone id (fun _ => .ok (geminiResponse "hello"))
      sampleGeminiParams (geminiResponse "hello") rfl rfl).2.1 "hello" rfl (by decide),
    (callGeminiGenerate_result processEnvNone id (fun _ => .ok geminiGeneratedOnly)
      sampleGeminiParams geminiGeneratedOnly rfl rfl).2.2.1 (.str "hi") rfl rfl rfl,
    (callGeminiGenerate_result processEnvNone id (fun _ => .ok (geminiResponse ""))
      sampleGeminiParams (geminiResponse "") rfl rfl).2.2.2 rfl rfl⟩

/-! ## The error classes of `callPerplexity` -/

theorem isPrefixOf_append_left (pre lit s : List Char) (h : pre.length ≤ lit.length) :
    pre.isPrefixOf (lit ++ s) = pre.isPrefixOf lit := by
  induction pre generalizing lit with
  | nil => simp
  | cons a as ih =>
    cases lit with
    | nil => simp at h
    | cons b bs =>
      simp only [List.cons_append, List.isPrefixOf]
      have := ih bs (by simpa using h)
      simp only [List.append_eq] at this ⊢
      rw [this]

/-- A test of a prefix no longer than a literal is decided by the literal. -/
theorem startsWith_append (pre lit s : String) (h : pre.length ≤ lit.length) :
    startsWith pre (lit ++ s) = startsWith pre lit := by
  unfold startsWith
  rw [String.data_append]
  exact isPrefixOf_append_left _ _ _ h


theorem startsWith_self_append (pre s : String) : startsWith pre (pre ++ s) = true := by
  unfold startsWith
  rw [String.data_append, List.isPrefixOf_iff_prefix]
  exact List.prefix_append _ _

/-- The `catch` block of `callPerplexity` throws an `Error` whose class is the class of the
transport signal. -/
theorem perplexityCatch_class (toStr : JsVal → String) (e : HttpError) :
    ∃ m, perplexityCatch toStr e.caught = .error m ∧
      classOfMessage m = some (classifyTransport e.status e.code) := by
  unfold perplexityCatch HttpError.caught classifyTransport
  cases hs : e.status with
  | none =>
    simp only [Option.map_none']
    by_cases hc : e.code = some "ECONNABORTED"
    · rw [if_pos hc, if_pos hc]
      exact ⟨_, rfl, rfl⟩
    · rw [if_neg hc, if_neg hc]
      refine ⟨_, rfl, ?_⟩
      unfold classOfMessage
      rw [startsWith_append _ _ _ (by decide), startsWith_append _ _ _ (by decide),
        startsWith_self_append]
      rfl
  | some status =>
    simp only [Option.map_some']
    by_cases h401 : status = 401
    · rw [if_pos h401, if_pos h401]
      exact ⟨_, rfl, rfl⟩
    rw [if_neg h401, if_neg h401]
    by_cases h429 : status = 429
    · rw [if_pos h429, if_pos h429]
      exact ⟨_, rfl, rfl⟩
    rw [if_neg h429, if_neg h429]
    by_cases h400 : status = 400
    · rw [if_pos h400, if_pos h400]
      refine ⟨_, rfl, ?_⟩
      unfold classOfMessage
      rw [startsWith_self_append]
      rfl
    · rw [if_neg h400, if_neg h400]
      refine ⟨_, rfl, ?_⟩
      unfold classOfMessage
      rw [String.append_assoc, String.append_assoc, startsWith_append _ _ _ (by decide),
        startsWith_self_append]
      rfl


/-- The table of the specification: the class of a transport signal. -/
theorem classifyTransport_table (code : Option String) :
    classifyTransport (some 401) code = .unauthorized ∧
    classifyTransport (some 429) code = .rateLimited ∧
    classifyTransport (some 400) code = .badRequest ∧
    (∀ s, s ≠ 401 → s ≠ 429 → s ≠ 400 → classifyTransport (some s) code = .unknown) ∧
    classifyTransport none (some "ECONNABORTED") = .timeout ∧
    (code ≠ some "ECONNABORTED" → classifyTransport none code = .network) := by
  refine ⟨rfl, rfl, rfl, ?_, rfl, ?_⟩
  · intro s h1 h2 h3
    simp [classifyTransport, h1, h2, h3]
  · intro h
    simp [classifyTransport, h]

/-- C14: when the HTTP call of `callPerplexity` fails, the error raised belongs to exactly
one class, the class of the transport signal: by the status of the response when there is
one (401 unauthorized, 429 rate-limited, 400 bad request, any other status unknown), and
without a response by the code (`ECONNABORTED` timeout, anything else network error). Two
failures with the same status and code are in the same class, whatever the message of the
vendor and whatever the data of the response. -/
theorem callPerplexity_error_class (format : JsVal → Except Thrown JsVal)
    (toStr : JsVal → String) (env : ProcessEnv) (post : AxiosTransport)
    (p : PerplexityParams) (e : HttpError)
    (hkey : strTruthy (optOr p.apiKeyOverride env.PERPLEXITY_API_KEY) = true)
    (hrej : post (perplexityRequest env p
      (template (optOr p.apiKeyOverride env.PERPLEXITY_API_KEY))) = .error e) :
    ∃ m, (callPerplexityWith format toStr env post p).2 = .error (.error m) ∧
      classOfMessage m = some (classifyTransport e.status e.code) ∧
      ∀ e2 : HttpError, e2.status = e.status → e2.code = e.code →
        ∃ m2, perplexityCatch toStr e2.caught = .error m2 ∧
          classOfMessage m2 = classOfMessage m := by
  obtain ⟨m, hm, hclass⟩ := perplexityCatch_class toStr e
  refine ⟨m, ?_, hclass, ?_⟩
  · unfold callPerplexityWith
    dsimp only
    rw [if_pos hkey]
    dsimp only
    rw [hrej]
    exact congrArg Except.error hm
  · intro e2 hs hc
    obtain ⟨m2, hm2, hclass2⟩ := perplexityCatch_class toStr e2
    exact ⟨m2, hm2, by rw [hclass2, hclass, hs, hc]⟩

/-- C14 at a concrete input: the endpoint answers 400 with a vendor message; the error
raised carries the vendor message and is in the class bad request. -/
theorem callPerplexity_error_class_witness :
    ∃ m, (callPerplexityWith (fun v => .ok v) sampleToStr processEnvNone
        (fun _ => .error (httpError 400
          (.obj [("error", .obj [("message", .str "Invalid model")])])))
        samplePerplexityParams).2 = .error (.error m) ∧
      classOfMessage m = some .badRequest := by
  obtain ⟨m, h1, h2, _⟩ := callPerplexity_error_class (fun v => .ok v) sampleToStr
    processEnvNone (fun _ => .error (httpError 400
      (.obj [("error", .obj [("message", .str "Invalid model")])])))
    samplePerplexityParams (httpError 400
      (.obj [("error", .obj [("message", .str "Invalid model")])])) rfl rfl
  exact ⟨m, h1, h2⟩

/-! ## The error class reported by `/generate-code` -/

/-- The response sent when the OpenAI call failed and no Perplexity fallback succeeded is
the response chosen from the message of the OpenAI error. -/
theorem generateCodeOpenAIFailure_of_failed (e : Thrown) (hasPerplexity : Bool)
    (p : Except Thrown JsVal) (hfail : failed p = true) :
    generateCodeOpenAIFailure e hasPerplexity p = openAIFailureResponse e hasPerplexity := by
  unfold generateCodeOpenAIFailure
  cases p with
  | ok v => cases hfail
  | error t => cases hasPerplexity <;> rfl

/-- C15 as stated fails: two failures of the OpenAI call with the same transport signal (no
response, code `ECONNREFUSED`) and different message texts are reported in different
classes, 429 for the message that contains `429` and 500 for the other. -/
theorem generateCode_class_depends_on_message :
    refusedPort4291.signal = refusedPort8080.signal ∧
    (generateCodeOpenAIFailure refusedPort4291 false
      (.error (.error "Perplexity API key not configured"))).status = 429 ∧
    (generateCodeOpenAIFailure refusedPort8080 false
      (.error (.error "Perplexity API key not configured"))).status = 500 :=
  ⟨rfl, rfl, rfl⟩

/-- C15, amended: in `/generate-code`, when the OpenAI call fails and no Perplexity
fallback succeeds, the class reported is decided by the text of the message of the failure
alone, by searching the lowered message: `quota` or `429` gives 429, otherwise `401` or
`unauthorized` gives 401, otherwise 500; two failures with the same message text get the
same response, whatever their transport signal. -/
theorem generateCode_class_by_message (e1 e2 : Thrown) (hasPerplexity : Bool)
    (p1 p2 : Except Thrown JsVal) (hfail1 : failed p1 = true) (hfail2 : failed p2 = true)
    (hmsg : e1.message = e2.message) :
    generateCodeOpenAIFailure e1 hasPerplexity p1 =
      generateCodeOpenAIFailure e2 hasPerplexity p2 ∧
    (generateCodeOpenAIFailure e1 hasPerplexity p1).status =
      (if includes (toLowerCase e1.message) "quota" ||
          includes (toLowerCase e1.message) "429" then 429
       else if includes (toLowerCase e1.message) "401" ||
          includes (toLowerCase e1.message) "unauthorized" then 401
       else 500) := by
  rw [generateCodeOpenAIFailure_of_failed e1 hasPerplexity p1 hfail1,
    generateCodeOpenAIFailure_of_failed e2 hasPerplexity p2 hfail2]
  constructor
  · unfold openAIFailureResponse
    rw [hmsg]
  · unfold openAIFailureResponse
    dsimp only
    split
    · rfl
    · split <;> rfl

/-- C15, amended, at a concrete input: a rejection with status 500 and a `TypeError`, both
with the message `quota`, get the same response, of class 429. -/
theorem generateCode_class_by_message_witness :
    generateCodeOpenAIFailure (.rejected ⟨"quota", some "ERR_BAD_RESPONSE", some 500⟩) true
        (.error (.error "Perplexity API key not configured")) =
      generateCodeOpenAIFailure (.typeError "quota") true
        (.error (.error "Perplexity API request timeout. Please try again.")) ∧
    (generateCodeOpenAIFailure (.rejected ⟨"quota", some "ERR_BAD_RESPONSE", some 500⟩) true
        (.error (.error "Perplexity API key not configured"))).status = 429 := by
  have h := generateCode_class_by_message
    (.rejected ⟨"quota", some "ERR_BAD_RESPONSE", some 500⟩) (.typeError "quota") true
    (.error (.error "Perplexity API key not configured"))
    (.error (.error "Perplexity API request timeout. Please try again.")) rfl rfl rfl
  exact ⟨h.1, h.2⟩

/-! ## The body of `/api/ai/status` -/

theorem keyPreview_eq (a b : Option String) (h : keyPreview a = keyPreview b) :
    strTruthy a = strTruthy b ∧ keyPresent a = keyPresent b := by
  unfold keyPreview at h
  unfold keyPresent
  cases ha : strTruthy a <;> cases hb : strTruthy b <;> simp [ha, hb] at h ⊢
  rw [h]

/-- C20 as stated fails: two environments in which the same keys are set (the OpenAI key
alone) get different bodies for the same timestamp, because the body holds the first seven
characters of the key. -/
theorem aiStatus_echoes_key_start :
    (strTruthy processEnvOpenAI1.OPENAI_API_KEY = strTruthy processEnvOpenAI2.OPENAI_API_KEY ∧
      strTruthy processEnvOpenAI1.PERPLEXITY_API_KEY =
        strTruthy processEnvOpenAI2.PERPLEXITY_API_KEY ∧
      strTruthy processEnvOpenAI1.GOOGLE_API_KEY =
        strTruthy processEnvOpenAI2.GOOGLE_API_KEY) ∧
    optProp (optProp (optProp (aiStatus processEnvOpenAI1 "2025-01-01T00:00:00.000Z") "apis")
      "openai") "keyPresent" = .str "sk-aaaa..." ∧
    optProp (optProp (optProp (aiStatus processEnvOpenAI2 "2025-01-01T00:00:00.000Z") "apis")
      "openai") "keyPresent" = .str "sk-bbbb..." ∧
    aiStatus processEnvOpenAI1 "2025-01-01T00:00:00.000Z" ≠
      aiStatus processEnvOpenAI2 "2025-01-01T00:00:00.000Z" := by
  refine ⟨⟨rfl, rfl, rfl⟩, rfl, rfl, ?_⟩
  intro h
  have h2 := congrArg
    (fun body => optProp (optProp (optProp body "apis") "openai") "keyPresent") h
  have h3 : JsVal.str "sk-aaaa..." = JsVal.str "sk-bbbb..." := h2
  have h4 : "sk-aaaa..." = "sk-bbbb..." := JsVal.str.inj h3
  exact absurd h4 (by decide)

/-- C20, amended: the body of `/api/ai/status` holds of each key only whether it is set and,
when it is, its first seven characters: two environments that agree on which of the OpenAI,
Perplexity and Google keys are set and on the first seven characters of each key that is
set get the same body for the same timestamp. -/
theorem aiStatus_depends_on_key_previews (env1 env2 : ProcessEnv) (timestamp : String)
    (hopenai : keyPreview env1.OPENAI_API_KEY = keyPreview env2.OPENAI_API_KEY)
    (hperplexity : keyPreview env1.PERPLEXITY_API_KEY = keyPreview env2.PERPLEXITY_API_KEY)
    (hgoogle : keyPreview env1.GOOGLE_API_KEY = keyPreview env2.GOOGLE_API_KEY) :
    aiStatus env1 timestamp = aiStatus env2 timestamp := by
  obtain ⟨ho, ho2⟩ := keyPreview_eq _ _ hopenai
  obtain ⟨hp, hp2⟩ := keyPreview_eq _ _ hperplexity
  obtain ⟨hg, hg2⟩ := keyPreview_eq _ _ hgoogle
  unfold aiStatus apiStatus recommendations
  dsimp only
  rw [ho, ho2, hp, hp2, hg, hg2]

/-- C20, amended, at a concrete input: two OpenAI keys with the same first seven characters
and different ends get the same body. -/
theorem aiStatus_depends_on_key_previews_witness :
    processEnvOpenAI1.OPENAI_API_KEY ≠ processEnvOpenAI3.OPENAI_API_KEY ∧
    aiStatus processEnvOpenAI1 "2025-01-01T00:00:00.000Z" =
      aiStatus processEnvOpenAI3 "2025-01-01T00:00:00.000Z" :=
  ⟨by decide, aiStatus_depends_on_key_previews processEnvOpenAI1 processEnvOpenAI3
    "2025-01-01T00:00:00.000Z" rfl rfl rfl⟩

/-! ## The cache round trip -/

/-- The invariant of the round trip: the entries of the key are all the entry written by
`set`. -/
theorem runCache_only_entry (entry : CacheEntry) (ops : List (Nat × CacheOp))
    (store : CacheStore)
    (hops : ∀ x ∈ ops, x.2.writes entry.key = false)
    (hstore : ∀ e ∈ store, e.key = entry.key → e = entry) :
    ∀ e ∈ runCache store ops, e.key = entry.key → e = entry := by
  induction ops generalizing store with
  | nil => exact hstore
  | cons x rest ih =>
    obtain ⟨now, op⟩ := x
    apply ih (op.apply store now) (fun y hy => hops y (List.mem_cons_of_mem _ hy))
    have hop := hops (now, op) (List.mem_cons_self _ _)
    intro e he hk
    cases op with
    | get key =>
      simp only [CacheOp.apply, NodeCache.get] at he
      split at he
      · split at he
        · exact hstore e he hk
        · exact hstore e (List.mem_filter.mp he).1 hk
      · exact hstore e he hk
    | set key value ttl =>
      simp only [CacheOp.writes, decide_eq_false_iff_not] at hop
      simp only [CacheOp.apply, NodeCache.set, List.mem_cons] at he
      rcases he with he | he
      · rw [he] at hk
        exact absurd hk hop
      · exact hstore e (List.mem_filter.mp he).1 hk
    | del key =>
      simp only [CacheOp.apply, NodeCache.del] at he
      exact hstore e (List.mem_filter.mp he).1 hk
    | sweep =>
      simp only [CacheOp.apply, NodeCache.sweep] at he
      exact hstore e (List.mem_filter.mp he).1 hk

/-- While the entry is live, no operation other than a `set` or a `del` of its key removes
it. -/
theorem runCache_keeps_entry (entry : CacheEntry) (ops : List (Nat × CacheOp))
    (store : CacheStore)
    (hops : ∀ x ∈ ops, x.2.writes entry.key = false)
    (htimes : ∀ x ∈ ops, entry.live x.1 = true)
    (hstore : ∀ e ∈ store, e.key = entry.key → e = entry)
    (hmem : entry ∈ store) :
    entry ∈ runCache store ops := by
  induction ops generalizing store with
  | nil => exact hmem
  | cons x rest ih =>
    obtain ⟨now, op⟩ := x
    have hop := hops (now, op) (List.mem_cons_self _ _)
    have hlive : entry.live now = true := htimes (now, op) (List.mem_cons_self _ _)
    have hnext : ∀ e ∈ op.apply store now, e.key = entry.key → e = entry :=
      runCache_only_entry entry [(now, op)] store
        (fun y hy => by rw [List.mem_singleton.mp hy]; exact hop) hstore
    apply ih (op.apply store now) (fun y hy => hops y (List.mem_cons_of_mem _ hy))
      (fun y hy => htimes y (List.mem_cons_of_mem _ hy)) hnext
    cases op with
    | get key =>
      simp only [CacheOp.apply, NodeCache.get]
      split
      · rename_i e hfind
        split
        · exact hmem
        · rename_i hnot
          refine List.mem_filter.mpr ⟨hmem, ?_⟩
          simp only [decide_eq_true_eq]
          intro hk
          have hek : e.key = key := by simpa using List.find?_some hfind
          have : e = entry := hstore e (List.mem_of_find?_eq_some hfind) (by rw [hek, hk])
          rw [this] at hnot
          exact hnot hlive
      · exact hmem
    | set key value ttl =>
      simp only [CacheOp.writes, decide_eq_false_iff_not] at hop
      simp only [CacheOp.apply, NodeCache.set]
      refine List.mem_cons_of_mem _ (List.mem_filter.mpr ⟨hmem, ?_⟩)
      simp only [decide_eq_true_eq]
      exact fun hk => hop hk.symm
    | del key =>
      simp only [CacheOp.writes, decide_eq_false_iff_not] at hop
      simp only [CacheOp.apply, NodeCache.del]
      refine List.mem_filter.mpr ⟨hmem, ?_⟩
      simp only [decide_eq_true_eq]
      exact fun hk => hop hk.symm
    | sweep =>
      simp only [CacheOp.apply, NodeCache.sweep]
      exact List.mem_filter.mpr ⟨hmem, hlive⟩

/-- C17: after `set(k, v, ttl)` at time `t0` with `ttl > 0`, followed by any operations
other than a `set` or a `del` of `k` (reads of any key, writes of other keys, sweeps), all
performed before the time `t` of the read: `get(k)` returns `v` when `t` is before `ttl`
seconds have elapsed since `t0`, and returns empty when `ttl` seconds have elapsed. -/
theorem cache_round_trip (store : CacheStore) (k : String) (v : JsVal) (ttl t0 t : Nat)
    (ops : List (Nat × CacheOp))
    (_httl : 0 < ttl)
    (hops : ∀ x ∈ ops, x.2.writes k = false)
    (htimes : ∀ x ∈ ops, x.1 ≤ t) :
    (t < t0 + ttl * 1000 →
      (NodeCache.get (runCache (NodeCache.set store k v ttl t0) ops) k t).1 = v) ∧
    (t0 + ttl * 1000 ≤ t →
      (NodeCache.get (runCache (NodeCache.set store k v ttl t0) ops) k t).1 = .undefined) := by
  have hinit : ∀ e ∈ NodeCache.set store k v ttl t0,
      e.key = (⟨k, v, t0, ttl⟩ : CacheEntry).key → e = ⟨k, v, t0, ttl⟩ := by
    intro e he hk
    simp only [NodeCache.set, List.mem_cons] at he
    rcases he with he | he
    · exact he
    · have := (List.mem_filter.mp he).2
      simp only [decide_eq_true_eq] at this
      exact absurd hk this
  have honly := runCache_only_entry ⟨k, v, t0, ttl⟩ ops _ hops hinit
  constructor
  · intro hbefore
    have hkeep := runCache_keeps_entry ⟨k, v, t0, ttl⟩ ops _ hops
      (fun x hx => by
        simp only [CacheEntry.live, decide_eq_true_eq]
        exact lt_of_le_of_lt (htimes x hx) hbefore)
      hinit (List.mem_cons_self _ _)
    unfold NodeCache.get
    cases hfind : (runCache (NodeCache.set store k v ttl t0) ops).find?
        (fun e => decide (e.key = k)) with
    | none =>
      have := List.find?_eq_none.mp hfind _ hkeep
      simp at this
    | some e =>
      have hek : e.key = k := by simpa using List.find?_some hfind
      have he : e = ⟨k, v, t0, ttl⟩ := honly e (List.mem_of_find?_eq_some hfind) hek
      subst he
      have hlive : (⟨k, v, t0, ttl⟩ : CacheEntry).live t = true := by
        simp only [CacheEntry.live, decide_eq_true_eq]
        exact hbefore
      simp only [hlive, if_true]
  · intro hafter
    unfold NodeCache.get
    cases hfind : (runCache (NodeCache.set store k v ttl t0) ops).find?
        (fun e => decide (e.key = k)) with
    | none => rfl
    | some e =>
      have hek : e.key = k := by simpa using List.find?_some hfind
      have he : e = ⟨k, v, t0, ttl⟩ := honly e (List.mem_of_find?_eq_some hfind) hek
      subst he
      have hlive : (⟨k, v, t0, ttl⟩ : CacheEntry).live t = false := by
        simp only [CacheEntry.live, decide_eq_false_iff_not, not_lt]
        exact hafter
      simp only [hlive]
      rfl

/-- C17 at a concrete input: a validation entry written at time 1 s with a ttl of 300 s,
then a read of another key, a sweep and a write of another key; the entry is read back
after 5 s and is gone after 301 s. -/
theorem cache_round_trip_witness :
    (NodeCache.get (runCache (NodeCache.set [] "validate_sk-test" (.bool true) 300 1000)
      [(2000, .get "research_abc"), (3000, .sweep),
       (4000, .set "research_abc" (.str "text") 1800)]) "validate_sk-test" 5000).1 =
      .bool true ∧
    (NodeCache.get (runCache (NodeCache.set [] "validate_sk-test" (.bool true) 300 1000)
      [(2000, .get "research_abc"), (3000, .sweep),
       (4000, .set "research_abc" (.str "text") 1800)]) "validate_sk-test" 301000).1 =
      .undefined := by
  have hops : ∀ x ∈ [((2000 : Nat), CacheOp.get "research_abc"), (3000, .sweep),
      (4000, .set "research_abc" (.str "text") 1800)],
      x.2.writes "validate_sk-test" = false := by
    intro x hx
    simp only [List.mem_cons, List.mem_singleton, List.not_mem_nil, or_false] at hx
    rcases hx with rfl | rfl | rfl <;> rfl
  have htimes : ∀ t, 4000 ≤ t → ∀ x ∈ [((2000 : Nat), CacheOp.get "research_abc"),
      (3000, .sweep), (4000, .set "research_abc" (.str "text") 1800)], x.1 ≤ t := by
    intro t ht x hx
    simp only [List.mem_cons, List.mem_singleton, List.not_mem_nil, or_false] at hx
    rcases hx with rfl | rfl | rfl <;> simp only <;> omega
  exact ⟨(cache_round_trip [] "validate_sk-test" (.bool true) 300 1000 5000 _ (by decide) hops
      (htimes 5000 (by decide))).1 (by decide),
    (cache_round_trip [] "validate_sk-test" (.bool true) 300 1000 301000 _ (by decide) hops
      (htimes 301000 (by decide))).2 (by decide)⟩

/-! ## The cached routes write the cache only on success -/

/-- A read does not change what later reads return: the entry it may evict is expired. -/
theorem cacheContent_after_get (store : CacheStore) (k0 : String) (t0 t : Nat)
    (key : String) (h : t0 ≤ t) :
    cacheContent (NodeCache.get store k0 t0).2 t key = cacheContent store t key := by
  unfold cacheContent
  cases hfind : store.find? (fun e => decide (e.key = k0)) with
  | none => simp only [NodeCache.get, hfind]
  | some e =>
    by_cases hlive : e.live t0 = true
    · simp only [NodeCache.get, hfind, hlive, if_true]
    · have hstore : (NodeCache.get store k0 t0).2 =
          store.filter fun x => decide (x.key ≠ k0) := by
        simp only [NodeCache.get, hfind, hlive]
        rfl
      rw [hstore]
      by_cases hk : key = k0
      · subst hk
        have hnone : (store.filter fun x => decide (x.key ≠ key)).find?
            (fun e => decide (e.key = key)) = none := by
          rw [List.find?_eq_none]
          intro x hx
          have := (List.mem_filter.mp hx).2
          simpa using this
        have hdead : e.live t = false := by
          simp only [CacheEntry.live, decide_eq_true_eq, not_lt, decide_eq_false_iff_not]
            at hlive ⊢
          omega
        simp only [NodeCache.get, hnone, hfind, hdead]
        rfl
      · have hsame : (store.filter fun x => decide (x.key ≠ k0)).find?
            (fun e => decide (e.key = key)) =
            store.find? (fun e => decide (e.key = key)) := by
          rw [List.find?_filter]
          congr 1
          funext a
          by_cases ha : a.key = key
          · have : a.key ≠ k0 := fun h2 => hk (ha.symm.trans h2)
            simp [ha, this, hk]
          · simp [ha]
        simp only [NodeCache.get, hsame]
        cases store.find? (fun e => decide (e.key = key)) with
        | none => rfl
        | some e2 => by_cases h2 : e2.live t = true <;> simp [h2]

/-- C18: in the cached routes the cache is written only after the provider call of the
request has succeeded. For every request whose provider call fails, the only operation of
the route on the cache is the read of its key, so that the content of the cache after the
request, what `get` returns for each key from then on, is its content before the request. -/
theorem cached_routes_write_only_on_success :
    (∀ (env : ProcessEnv) (post : AxiosTransport) (store : CacheStore)
        (started finished : Nat) (openaiKey : Option String),
      failed (callOpenAIChat env post (validateKeysParams openaiKey)).2 = true →
      (validateKeysRoute env post store started finished openaiKey).2 =
          (NodeCache.get store (validateCacheKey openaiKey) started).2 ∧
        ∀ t key, started ≤ t →
          cacheContent (validateKeysRoute env post store started finished openaiKey).2 t key =
            cacheContent store t key) ∧
    (∀ (format : JsVal → Except Thrown JsVal) (toStr : JsVal → String)
        (sanitizeInput toBase64 : String → String) (env : ProcessEnv) (post : AxiosTransport)
        (store : CacheStore) (started finished : Nat) (query : String)
        (perplexityKey : Option String),
      failed (callPerplexityForResearch format toStr env post (sanitizeInput query)
        perplexityKey none).2 = true →
      ((researchRoute format toStr sanitizeInput toBase64 env post store started finished
            query perplexityKey).2 = store ∨
          (researchRoute format toStr sanitizeInput toBase64 env post store started finished
            query perplexityKey).2 =
            (NodeCache.get store (researchCacheKey toBase64 (sanitizeInput query))
              started).2) ∧
        ∀ t key, started ≤ t →
          cacheContent (researchRoute format toStr sanitizeInput toBase64 env post store
            started finished query perplexityKey).2 t key = cacheContent store t key) := by
  constructor
  · intro env post store started finished openaiKey hfail
    have hstore : (validateKeysRoute env post store started finished openaiKey).2 =
        (NodeCache.get store (validateCacheKey openaiKey) started).2 := by
      unfold validateKeysRoute
      dsimp only
      split
      · rfl
      · cases hcall : (callOpenAIChat env post (validateKeysParams openaiKey)).2 with
        | ok v => rw [hcall] at hfail; cases hfail
        | error e => rfl
    refine ⟨hstore, fun t key ht => ?_⟩
    rw [hstore]
    exact cacheContent_after_get store _ started t key ht
  · intro format toStr sanitizeInput toBase64 env post store started finished query
      perplexityKey hfail
    have hstore : (researchRoute format toStr sanitizeInput toBase64 env post store started
          finished query perplexityKey).2 = store ∨
        (researchRoute format toStr sanitizeInput toBase64 env post store started finished
          query perplexityKey).2 =
          (NodeCache.get store (researchCacheKey toBase64 (sanitizeInput query))
            started).2 := by
      unfold researchRoute
      dsimp only
      split
      · right
        split
        · rfl
        · cases hcall : (callPerplexityForResearch format toStr env post (sanitizeInput query)
              perplexityKey none).2 with
          | ok v => rw [hcall] at hfail; cases hfail
          | error e => rfl
      · left; rfl
    refine ⟨hstore, fun t key ht => ?_⟩
    rcases hstore with h | h
    · rw [h]
    · rw [h]
      exact cacheContent_after_get store _ started t key ht

/-- C18 at a concrete input: the validation call is rejected with status 401 and the store,
which held one research entry, is the same after the request. -/
theorem cached_routes_write_only_on_success_witness :
    (validateKeysRoute processEnvNone axiosAllDown sampleStore 1000 2000
      (some "sk-bad-key")).1.status = 401 ∧
    (validateKeysRoute processEnvNone axiosAllDown sampleStore 1000 2000
      (some "sk-bad-key")).2 =
      (NodeCache.get sampleStore (validateCacheKey (some "sk-bad-key")) 1000).2 ∧
    (NodeCache.get sampleStore (validateCacheKey (some "sk-bad-key")) 1000).2 = sampleStore :=
  ⟨rfl, (cached_routes_write_only_on_success.1 processEnvNone axiosAllDown sampleStore 1000
    2000 (some "sk-bad-key") rfl).1, rfl⟩

/-! ## The policy table -/

/-- C24: the policy table has an entry for each of the six task types and for nothing
else; the preference list of each task type is not empty, holds no provider id twice, and
every id in it names a provider of the registry. -/
theorem policy_table_invariant (taskType : String) (ids : List String)
    (h : (taskType, ids) ∈ taskPreferenceIds) :
    taskPreferenceIds.map Prod.fst = sixTaskTypes ∧
    taskType ∈ sixTaskTypes ∧
    ids ≠ [] ∧ ids.Nodup ∧
    (∀ id ∈ ids, ∃ k, modelKeyOfId id = some k ∧ k ∈ modelKeys) ∧
    TASK_PREFERENCES.lookup taskType = some (ids.filterMap modelKeyOfId) ∧
    (ids.filterMap modelKeyOfId).length = ids.length := by
  simp only [taskPreferenceIds, List.mem_cons, List.mem_singleton, List.not_mem_nil,
    or_false, Prod.mk.injEq] at h
  refine ⟨rfl, ?_⟩
  rcases h with ⟨rfl, rfl⟩ | ⟨rfl, rfl⟩ | ⟨rfl, rfl⟩ | ⟨rfl, rfl⟩ | ⟨rfl, rfl⟩ | ⟨rfl, rfl⟩ <;>
    refine ⟨by decide, by decide, by decide, ?_, rfl, rfl⟩ <;>
    intro id hid <;>
    simp only [List.mem_cons, List.mem_singleton, List.not_mem_nil, or_false] at hid <;>
    rcases hid with rfl | rfl | rfl | rfl <;>
    exact ⟨_, rfl, mem_modelKeys _⟩

/-- C24 at the task type `search`. -/
theorem policy_table_invariant_witness :
    ["PERPLEXITY", "GROQ", "GOOGLE"] ≠ [] ∧ ["PERPLEXITY", "GROQ", "GOOGLE"].Nodup ∧
    TASK_PREFERENCES.lookup "search" = some [.PERPLEXITY, .GROQ, .GOOGLE] := by
  have h := policy_table_invariant "search" ["PERPLEXITY", "GROQ", "GOOGLE"] (by decide)
  exact ⟨h.2.2.1, h.2.2.2.1, h.2.2.2.2.2.1⟩

/-! ## The request of `callOpenAIChat` -/

theorem optOr_none_right (a : Option String) : strTruthy (optOr a none) = strTruthy a := by
  unfold optOr
  cases h : strTruthy a
  · simp [h, strTruthy]
  · simp [h]

theorem strTruthy_optOr (a b : Option String) :
    strTruthy (optOr a b) = (strTruthy a || strTruthy b) := by
  unfold optOr
  cases h : strTruthy a <;> simp [h]

/-- C21: with a resolved API key `k` (the override when it is not empty, otherwise the key
of the environment), `callOpenAIChat` issues one request; its `Authorization` header is
`Bearer` followed by `k`; the `OpenAI-Organization` (respectively `OpenAI-Project`) header
is present exactly when an organization (respectively project) id is given by the caller or
set in the environment; and its body is exactly `{model, messages, max_tokens,
temperature, stream}` with the values of the caller, the defaults `gpt-4o-mini`, 1024, 0.7
and `false` for the absent ones, and the messages unchanged and in order. -/
theorem callOpenAIChat_request (env : ProcessEnv) (post : AxiosTransport)
    (p : OpenAIChatParams) (k : String)
    (hk : optOr p.apiKeyOverride env.OPENAI_API_KEY = some k) (hne : k ≠ "") :
    ∃ request, (callOpenAIChat env post p).1 = [request] ∧
      request.url = "https://api.openai.com/v1/chat/completions" ∧
      request.headers.lookup "Authorization" = some ("Bearer " ++ k) ∧
      ((request.headers.lookup "OpenAI-Organization").isSome = true ↔
        (strTruthy p.organization = true ∨ strTruthy env.OPENAI_ORG_ID = true)) ∧
      ((request.headers.lookup "OpenAI-Project").isSome = true ↔
        (strTruthy p.project = true ∨ strTruthy env.OPENAI_PROJECT_ID = true)) ∧
      request.body =
        .obj [("model", orDefault p.model (.str "gpt-4o-mini")),
              ("messages", .arr (p.messages.map fun m =>
                .obj [("role", .str m.role), ("content", .str m.content)])),
              ("max_tokens", orDefault p.max_tokens (.num 1024)),
              ("temperature", orDefault p.temperature (.num (7 / 10))),
              ("stream", orDefault p.stream (.bool false))] := by
  have hkey : strTruthy (optOr p.apiKeyOverride env.OPENAI_API_KEY) = true := by
    rw [hk]; simp [strTruthy, hne]
  refine ⟨openAIRequest env p k, ?_, rfl, ?_, ?_, ?_, rfl⟩
  · unfold callOpenAIChat
    dsimp only
    rw [if_pos hkey, hk]
    rfl
  · simp [openAIRequest, openAIHeaders, List.lookup]
  · have horg : strTruthy (optOr (optOr p.organization env.OPENAI_ORG_ID) none) =
        (strTruthy p.organization || strTruthy env.OPENAI_ORG_ID) := by
      rw [optOr_none_right, strTruthy_optOr]
    simp only [openAIRequest, openAIHeaders, horg]
    cases ho : strTruthy p.organization <;> cases he : strTruthy env.OPENAI_ORG_ID <;>
      cases hp : strTruthy (optOr (optOr p.project env.OPENAI_PROJECT_ID) none) <;>
      simp [List.lookup]
  · have hproj : strTruthy (optOr (optOr p.project env.OPENAI_PROJECT_ID) none) =
        (strTruthy p.project || strTruthy env.OPENAI_PROJECT_ID) := by
      rw [optOr_none_right, strTruthy_optOr]
    simp only [openAIRequest, openAIHeaders, hproj]
    cases ho : strTruthy p.project <;> cases he : strTruthy env.OPENAI_PROJECT_ID <;>
      cases hp : strTruthy (optOr (optOr p.organization env.OPENAI_ORG_ID) none) <;>
      simp [List.lookup]

/-- C21 at a concrete input: one message, an override key and no organization or project:
the request has the bearer header, neither optional header, and the default body. -/
theorem callOpenAIChat_request_witness :
    ∃ request, (callOpenAIChat processEnvNone axiosAllUp sampleChatParams).1 = [request] ∧
      request.headers =
        [("Content-Type", "application/json"), ("Authorization", "Bearer sk-test")] ∧
      request.body =
        .obj [("model", .str "gpt-4o-mini"),
              ("messages", .arr [.obj [("role", .str "user"), ("content", .str "hi")]]),
              ("max_tokens", .num 1024),
              ("temperature", .num (7 / 10)),
              ("stream", .bool false)] := by
  obtain ⟨request, h1, _, _, _, _, h6⟩ := callOpenAIChat_request processEnvNone axiosAllUp
    sampleChatParams "sk-test" rfl (by decide)
  have h : request = openAIRequest processEnvNone sampleChatParams "sk-test" := by
    have h2 : (callOpenAIChat processEnvNone axiosAllUp sampleChatParams).1 =
        [openAIRequest processEnvNone sampleChatParams "sk-test"] := rfl
    rw [h2] at h1
    exact (List.cons.inj h1).1.symm
  subst h
  exact ⟨_, rfl, rfl, h6⟩

/-! ## Options in the requests of `callAI` -/

/-- An option that is supplied and truthy is carried by the body, and an option that is
absent gets the default: the expression `value || fallback`. -/
theorem jsOr_supplied (value fallback : JsVal) :
    (value.truthy = true → jsOr value fallback = value) ∧
    (value = .undefined → jsOr value fallback = fallback) := by
  constructor
  · intro h
    simp [jsOr, h]
  · intro h
    subst h
    rfl

/-- The bodies built by `callAI` carry a truthy temperature and a truthy token limit of the
caller as they are, and the defaults 0.7 and 2000 when they are absent. -/
theorem callAI_body_options (env : Env) (k : ModelKey) (messages : List Message)
    (options : Options) :
    getProp (primaryRequest env k messages options).body "temperature" =
      .ok (jsOr options.temperature (.num (7 / 10))) ∧
    getProp (primaryRequest env k messages options).body "max_tokens" =
      .ok (jsOr options.maxTokens (.num 2000)) ∧
    getProp (fallbackRequest env k messages options).body "temperature" =
      .ok (jsOr options.temperature (.num (7 / 10))) ∧
    getProp (fallbackRequest env k messages options).body "max_tokens" =
      .ok (jsOr options.maxTokens (.num 2000)) ∧
    (getProp (geminiRequest env messages options).body "generationConfig" >>= fun c =>
      getProp c "temperature") = .ok (jsOr options.temperature (.num (7 / 10))) ∧
    (getProp (geminiRequest env messages options).body "generationConfig" >>= fun c =>
      getProp c "maxOutputTokens") = .ok (jsOr options.maxTokens (.num 2000)) :=
  ⟨rfl, rfl, rfl, rfl, rfl, rfl⟩

/-- C26, at the failing input: the caller supplies `{ temperature: 0 }`; the body sent to
the selected provider, the body sent to a fallback and the body sent to Gemini all carry
the temperature 0.7, not 0, because `options.temperature || 0.7` takes 0 for absent. -/
theorem callAI_zero_temperature_replaced :
    getProp (primaryRequest envAll .GROQ sampleMessages zeroTemperature).body "temperature" =
      .ok (.num (7 / 10)) ∧
    getProp (fallbackRequest envAll .OPENAI sampleMessages zeroTemperature).body
      "temperature" = .ok (.num (7 / 10)) ∧
    (getProp (geminiRequest envAll sampleMessages zeroTemperature).body "generationConfig"
      >>= fun c => getProp c "temperature") = .ok (.num (7 / 10)) ∧
    (callAI envAll postAllUp (some "general") sampleMessages zeroTemperature).calls.map
      (fun c => getProp c.request.body "temperature") = [.ok (.num (7 / 10))] ∧
    (JsVal.num 0 ≠ JsVal.num (7 / 10)) := by
  refine ⟨rfl, rfl, rfl, rfl, ?_⟩
  intro h
  have h2 : (0 : ℚ) = 7 / 10 := JsVal.num.inj h
  norm_num at h2

/-! ## The request to a provider as primary and as fallback -/

/-- Apart from OpenRouter, the request `callAI` sends to a provider is the same whether
the provider is the selected one or a fallback. -/
theorem primaryCall_eq_fallbackCall (env : Env) (p : ModelKey) (messages : List Message)
    (options : Options) (h : p ≠ .OPENROUTER) :
    primaryCall env p messages options = fallbackCall env p messages options := by
  unfold primaryCall fallbackCall primaryRequest fallbackRequest
  simp [h]

/-- C28, at the failing input: to OpenRouter the request of the primary attempt has the
header `HTTP-Referer` and the request of the fallback attempt has not; the two requests
differ. -/
theorem openrouter_request_differs_as_fallback :
    (primaryCall envAll .OPENROUTER sampleMessages noOptions).request.headers =
      [("Authorization", "Bearer or-test"), ("Content-Type", "application/json"),
       ("HTTP-Referer", "http://localhost:5173")] ∧
    (fallbackCall envAll .OPENROUTER sampleMessages noOptions).request.headers =
      [("Authorization", "Bearer or-test"), ("Content-Type", "application/json")] ∧
    (primaryCall envAll .OPENROUTER sampleMessages noOptions).request.headers ≠
      (fallbackCall envAll .OPENROUTER sampleMessages noOptions).request.headers := by
  refine ⟨rfl, rfl, ?_⟩
  decide

/-! ## The route `/fallback-test` -/

/-- C27, at the failing input: the Groq key was set when the module was loaded and Groq
answers. The route responds with `ok: true` and `fallbackUsed: true`, yet the only call of
the request is the call to the selected provider, Groq, and it succeeded: no call was
forced to fail and no fallback provider produced the result. -/
theorem fallbackTest_reports_fallback_without_failure :
    getProp (fallbackTestRoute envGroq postAllUp (some "sk-test")).1.body "ok" =
      .ok (.bool true) ∧
    getProp (fallbackTestRoute envGroq postAllUp (some "sk-test")).1.body "fallbackUsed" =
      .ok (.bool true) ∧
    selectBestModel envGroq (some "code-generation") = .ok .GROQ ∧
    (fallbackTestRoute envGroq postAllUp (some "sk-test")).2.1.providers = [.GROQ] ∧
    failed (primaryOutcome envGroq postAllUp .GROQ fallbackTestMessages noOptions) = false ∧
    getProp (fallbackTestRoute envGroq postAllUp (some "sk-test")).1.body "result" =
      primaryOutcome envGroq postAllUp .GROQ fallbackTestMessages noOptions :=
  ⟨rfl, rfl, rfl, rfl, rfl, rfl⟩

/-- The response of `/fallback-test` says `fallbackUsed: true` whenever `callAI` returns,
whatever the calls that were made. -/
theorem fallbackTest_flag_is_constant (loaded : Env) (post : Transport)
    (processKey : Option String) (value : JsVal)
    (h : (callAI loaded post (some "code-generation") fallbackTestMessages noOptions).result =
      .ok value) :
    getProp (fallbackTestRoute loaded post processKey).1.body "fallbackUsed" =
      .ok (.bool true) := by
  unfold fallbackTestRoute
  dsimp only
  rw [h]
  rfl

/-! ## Properties of `enhanceResponseFormatting` -/

theorem trim_eq_rdropWhile (s : List Char) :
    trim s = (s.dropWhile isSpace).rdropWhile isSpace := rfl

/-- The method `trim` changes nothing in a text that is already trimmed. -/
theorem trim_trim (s : List Char) : trim (trim s) = trim s := by
  rw [trim_eq_rdropWhile (trim s), trim_eq_rdropWhile s]
  have hdrop : ((s.dropWhile isSpace).rdropWhile isSpace).dropWhile isSpace =
      (s.dropWhile isSpace).rdropWhile isSpace := by
    cases hz : (s.dropWhile isSpace).rdropWhile isSpace with
    | nil => rfl
    | cons a t =>
      have hpre := List.rdropWhile_prefix isSpace (s.dropWhile isSpace)
      rw [hz] at hpre
      obtain ⟨r, hr⟩ := hpre
      have hn := List.head?_dropWhile_not isSpace s
      rw [← hr] at hn
      simp only [List.cons_append, List.head?_cons] at hn
      simp [hn]
  rw [hdrop, List.rdropWhile_idempotent]

/-- C23, at the failing input: a paragraph, a blank line and a code fence. The pass that
collapses the line feeds finds nothing to collapse, the pass that follows it puts a line
feed before the fence, and the output has three consecutive line feeds. -/
theorem enhanceResponseFormatting_leaves_three_line_feeds :
    enhanceResponseFormatting (.str "a\n\n```js\nb") = .ok (.str "a\n\n\n```js\nb") ∧
    hasThreeLineFeeds "a\n\n\n```js\nb".data = true ∧
    hasThreeLineFeeds
      (collapseBlankLines (spaceBullets (spaceHeadings "a\n\n```js\nb".data))) = false ∧
    hasThreeLineFeeds (spaceFenceOpen
      (collapseBlankLines (spaceBullets (spaceHeadings "a\n\n```js\nb".data)))) = true :=
  ⟨rfl, rfl, rfl, rfl⟩

/-- C29 as stated fails: on a line followed by a code fence, each application puts one more
line feed before the fence, and the second application gives another text than the
first. -/
theorem enhanceResponseFormatting_not_idempotent :
    enhanceResponseFormatting (.str "a\n```js\nb") = .ok (.str "a\n\n```js\nb") ∧
    (enhanceResponseFormatting (.str "a\n```js\nb") >>= enhanceResponseFormatting) =
      .ok (.str "a\n\n\n```js\nb") ∧
    "a\n\n\n```js\nb" ≠ "a\n\n```js\nb" :=
  ⟨rfl, rfl, by decide⟩

/-- A second application of `enhanceResponseFormatting` changes nothing when none of the
five replacement passes changes the formatted text. -/
theorem enhanceText_idempotent_at_fixed_point (s : List Char)
    (h1 : spaceHeadings (enhanceText s) = enhanceText s)
    (h2 : spaceBullets (enhanceText s) = enhanceText s)
    (h3 : collapseBlankLines (enhanceText s) = enhanceText s)
    (h4 : spaceFenceOpen (enhanceText s) = enhanceText s)
    (h5 : spaceFenceClose (enhanceText s) = enhanceText s) :
    enhanceText (enhanceText s) = enhanceText s ∧
    (enhanceResponseFormatting (.str (String.mk s)) >>= enhanceResponseFormatting) =
      enhanceResponseFormatting (.str (String.mk s)) := by
  have key : enhanceText (enhanceText s) = enhanceText s := by
    have h : enhanceText (enhanceText s) = trim (enhanceText s) := by
      show trim (spaceFenceClose (spaceFenceOpen (collapseBlankLines (spaceBullets
        (spaceHeadings (enhanceText s)))))) = _
      rw [h1, h2, h3, h4, h5]
    rw [h]
    unfold enhanceText
    exact trim_trim _
  refine ⟨key, ?_⟩
  show enhanceResponseFormatting (.str (String.mk (enhanceText s))) = _
  show Except.ok (JsVal.str (String.mk (enhanceText (enhanceText s)))) = _
  rw [key]
  rfl

/-- A plain sentence between spaces is such a text. -/
theorem enhanceText_idempotent_at_fixed_point_witness :
    enhanceText (enhanceText "  A monad is a monoid.\n".data) =
      enhanceText "  A monad is a monoid.\n".data ∧
    enhanceText "  A monad is a monoid.\n".data = "A monad is a monoid.".data :=
  ⟨(enhanceText_idempotent_at_fixed_point "  A monad is a monoid.\n".data rfl rfl rfl rfl
    rfl).1, rfl⟩

/-! ## The matcher and its description by recursion on the text -/

theorem matchRe_set_nil (p : Char → Bool) (prev : Option Char)
    (k : Option Char → List Char → Option (List Char)) :
    matchRe (.set p) prev [] k = none := rfl

theorem matchRe_set_cons (p : Char → Bool) (prev : Option Char) (c : Char) (cs : List Char)
    (k : Option Char → List Char → Option (List Char)) :
    matchRe (.set p) prev (c :: cs) k = if p c then k (some c) cs else none := rfl

theorem repeatGreedy_succ (step : Option Char → List Char →
      (Option Char → List Char → Option (List Char)) → Option (List Char))
    (k : Option Char → List Char → Option (List Char)) (fuel least : Nat)
    (most : Option Nat) (prev : Option Char) (s : List Char) :
    repeatGreedy step k (fuel + 1) least most prev s =
      match (if most = some 0 then none
        else step prev s fun prev2 s2 =>
          if s2.length < s.length then
            repeatGreedy step k fuel (least - 1) (most.map fun n => n - 1) prev2 s2
          else none) with
      | some rest => some rest
      | none => if least = 0 then k prev s else none := rfl

theorem repeatGreedy_set (p : Char → Bool) (k : List Char → Option (List Char))
    (s : List Char) : ∀ (fuel least : Nat) (most : Option Nat) (prev : Option Char),
    s.length < fuel →
    repeatGreedy (matchRe (.set p)) (fun _ rest => k rest) fuel least most prev s =
      greedySet p k least most s := by
  induction s with
  | nil =>
    intro fuel least most prev hf
    cases fuel with
    | zero => simp at hf
    | succ fuel =>
      rw [repeatGreedy_succ, matchRe_set_nil]
      simp [greedySet]
  | cons c cs ih =>
    intro fuel least most prev hf
    cases fuel with
    | zero => simp at hf
    | succ fuel =>
      have hf2 : cs.length < fuel := by simpa using hf
      rw [repeatGreedy_succ, matchRe_set_cons]
      by_cases hm : most = some 0
      · simp [greedySet, hm]
      · by_cases hp : p c = true
        · rw [if_neg hm, if_pos hp, if_pos (by simp),
            ih fuel (least - 1) (most.map fun n => n - 1) (some c) hf2]
          simp [greedySet, hm, hp]
        · simp [greedySet, hm, hp]

theorem matchRe_rep_set (p : Char → Bool) (k : List Char → Option (List Char))
    (least : Nat) (most : Option Nat) (prev : Option Char) (s : List Char) :
    matchRe (.rep (.set p) least most) prev s (fun _ rest => k rest) =
      greedySet p k least most s :=
  repeatGreedy_set p k s _ least most prev (Nat.lt_succ_self _)

theorem greedySet_of_fail (p : Char → Bool) (k : List Char → Option (List Char))
    (hk : ∀ c cs, p c = true → k (c :: cs) = none) (s : List Char) :
    ∀ (least : Nat) (most : Option Nat),
    greedySet p k least most s =
      if least ≤ (s.takeWhile p).length ∧ (∀ m, most = some m → (s.takeWhile p).length ≤ m)
      then k (s.dropWhile p) else none := by
  induction s with
  | nil => intro least most; simp [greedySet]
  | cons c cs ih =>
    intro least most
    by_cases hp : p c = true
    · by_cases hm : most = some 0
      · simp [greedySet, hm, hp, hk]
      · have hstep : greedySet p k least most (c :: cs) =
            greedySet p k (least - 1) (most.map fun n => n - 1) cs := by
          simp only [greedySet, hm, hp, ne_eq, not_false_eq_true, and_self, if_true]
          cases hg : greedySet p k (least - 1) (most.map fun n => n - 1) cs <;>
            simp [hk c cs hp]
        rw [hstep, ih]
        simp only [List.takeWhile_cons, hp, if_true, List.length_cons, List.dropWhile_cons]
        have hiff : (least - 1 ≤ (cs.takeWhile p).length ∧
            ∀ m, (most.map fun n => n - 1) = some m → (cs.takeWhile p).length ≤ m) ↔
            (least ≤ (cs.takeWhile p).length + 1 ∧
            ∀ m, most = some m → (cs.takeWhile p).length + 1 ≤ m) := by
          cases most with
          | none => simp
          | some n =>
            have hn : n ≠ 0 := fun h => hm (by rw [h])
            simp only [Option.map_some', Option.some.injEq, forall_eq']
            omega
        by_cases hc : least ≤ (cs.takeWhile p).length + 1 ∧
            ∀ m, most = some m → (cs.takeWhile p).length + 1 ≤ m
        · rw [if_pos hc, if_pos (hiff.mpr hc)]
        · rw [if_neg hc, if_neg (fun h => hc (hiff.mp h))]
    · simp [greedySet, hp]

theorem greedySet_cons_pos (p : Char → Bool) (k : List Char → Option (List Char))
    (least : Nat) (c : Char) (cs : List Char) (hp : p c = true) :
    greedySet p k least none (c :: cs) =
      match greedySet p k (least - 1) none cs with
      | some r => some r
      | none => if least = 0 then k (c :: cs) else none := by
  simp [greedySet, hp]

theorem greedySet_cons_neg (p : Char → Bool) (k : List Char → Option (List Char))
    (least : Nat) (most : Option Nat) (c : Char) (cs : List Char) (hp : p c = false) :
    greedySet p k least most (c :: cs) = if least = 0 then k (c :: cs) else none := by
  simp [greedySet, hp]

theorem greedySet_some (p : Char → Bool) (s : List Char) : ∀ (least : Nat),
    greedySet p some least none s =
      if least ≤ (s.takeWhile p).length then some (s.dropWhile p) else none := by
  induction s with
  | nil => intro least; simp [greedySet]
  | cons c cs ih =>
    intro least
    by_cases hp : p c = true
    · rw [greedySet_cons_pos p some least c cs hp, ih]
      simp only [List.takeWhile_cons, hp, if_true, List.length_cons, List.dropWhile_cons]
      by_cases hl : least - 1 ≤ (cs.takeWhile p).length
      · have h2 : least ≤ (cs.takeWhile p).length + 1 := by omega
        simp [hl, h2]
      · have h2 : ¬ least ≤ (cs.takeWhile p).length + 1 := by omega
        have h3 : least ≠ 0 := by omega
        simp [hl, h2, h3]
    · have hp2 : p c = false := by simpa using hp
      rw [greedySet_cons_neg p some least none c cs hp2]
      simp [hp2]

theorem eolK_dropWhile (s : List Char) :
    eolK (s.dropWhile fun x => !isLineTerminator x) =
      some (s.dropWhile fun x => !isLineTerminator x) := by
  induction s with
  | nil => rfl
  | cons c cs ih =>
    by_cases hc : isLineTerminator c = true
    · simp [List.dropWhile_cons, hc, eolK]
    · simp only [List.dropWhile_cons, hc, Bool.not_eq_true, Bool.not_false, if_true]
      simpa using ih

theorem matchRe_seq (a b : Re) (prev : Option Char) (s : List Char)
    (k : Option Char → List Char → Option (List Char)) :
    matchRe (.seq a b) prev s k = matchRe a prev s fun prev2 s2 => matchRe b prev2 s2 k :=
  rfl

theorem matchRe_eol (prev : Option Char) (s : List Char) :
    matchRe .eol prev s (fun _ rest => some rest) = eolK s := by
  cases s <;> rfl

theorem matchRe_bol (prev : Option Char) (s : List Char)
    (k : Option Char → List Char → Option (List Char)) :
    matchRe .bol prev s k = if atLineStart prev then k prev s else none := by
  cases prev with
  | none => rfl
  | some c => by_cases h : isLineTerminator c = true <;> simp [matchRe, atLineStart, h]

/-- The end `.+$` of the heading and of the bullet pattern. -/
theorem matchRe_dotPlus (prev : Option Char) (s : List Char) :
    matchRe (.seq (.rep (.set fun c => !isLineTerminator c) 1 none) .eol) prev s
      (fun _ rest => some rest) = dotPlusK s := by
  rw [matchRe_seq]
  have hk : (fun (prev2 : Option Char) (s2 : List Char) =>
      matchRe .eol prev2 s2 (fun _ rest => some rest)) = fun _ rest => eolK rest := by
    funext prev2 s2; exact matchRe_eol prev2 s2
  rw [hk, matchRe_rep_set, greedySet_of_fail]
  · cases s with
    | nil => simp [dotPlusK]
    | cons c cs =>
      by_cases hc : isLineTerminator c = true
      · simp [dotPlusK, hc]
      · have hc2 : isLineTerminator c = false := by simpa using hc
        simp only [List.takeWhile_cons, hc2, Bool.not_false, if_true, List.length_cons,
          List.dropWhile_cons, dotPlusK]
        rw [if_pos ⟨by omega, by simp⟩]
        simpa using eolK_dropWhile cs
  · intro c cs hc
    have hc2 : isLineTerminator c = false := by simpa using hc
    simp [eolK, hc2]

theorem greedySet_wsStar (s : List Char) :
    greedySet isSpace dotPlusK 0 none s = wsStarK s := by
  induction s with
  | nil => rfl
  | cons c cs ih =>
    by_cases hc : isSpace c = true
    · simp only [greedySet, ne_eq, not_false_eq_true, hc, and_self, if_true, Option.map_none',
        Nat.zero_sub, ih, wsStarK, reduceCtorEq]
    · simp [greedySet, wsStarK, hc]

/-- The end `\s+.+$` of the heading and of the bullet pattern. -/
theorem matchRe_wsPlus (prev : Option Char) (s : List Char) :
    matchRe (.seq (.rep (.set isSpace) 1 none)
      (.seq (.rep (.set fun c => !isLineTerminator c) 1 none) .eol)) prev s
      (fun _ rest => some rest) = wsPlusK s := by
  rw [matchRe_seq]
  have hk : (fun (prev2 : Option Char) (s2 : List Char) =>
      matchRe (.seq (.rep (.set fun c => !isLineTerminator c) 1 none) .eol) prev2 s2
        (fun _ rest => some rest)) = fun _ rest => dotPlusK rest := by
    funext prev2 s2; exact matchRe_dotPlus prev2 s2
  rw [hk, matchRe_rep_set]
  cases s with
  | nil => rfl
  | cons c cs =>
    by_cases hc : isSpace c = true
    · simp only [greedySet, ne_eq, not_false_eq_true, hc, and_self, if_true, Option.map_none',
        Nat.sub_self, greedySet_wsStar, wsPlusK, reduceCtorEq]
      cases wsStarK cs <;> simp
    · simp [greedySet, wsPlusK, hc]

theorem wsPlusK_of_not_space (c : Char) (cs : List Char) (h : isSpace c = false) :
    wsPlusK (c :: cs) = none := by
  simp [wsPlusK, h]

/-- The heading pattern at the start of a text. -/
theorem matchAt_headingPattern (prev : Option Char) (s : List Char) :
    matchAt headingPattern prev s = headingEnd prev s := by
  unfold matchAt headingPattern
  rw [matchRe_seq, matchRe_bol, matchRe_seq]
  have hk : (fun (prev2 : Option Char) (s2 : List Char) =>
      matchRe (.seq (.rep (.set isSpace) 1 none)
        (.seq (.rep (.set fun c => !isLineTerminator c) 1 none) .eol)) prev2 s2
        (fun _ rest => some rest)) = fun _ rest => wsPlusK rest := by
    funext prev2 s2; exact matchRe_wsPlus prev2 s2
  rw [hk]
  unfold Re.char
  rw [matchRe_rep_set, greedySet_of_fail]
  · unfold headingEnd
    by_cases hp : atLineStart prev = true
    · simp only [hp, if_true, true_and, Option.some.injEq, forall_eq']
    · simp [hp]
  · intro c cs hc
    have : c = '#' := by simpa using hc
    subst this
    exact wsPlusK_of_not_space _ _ (by decide)

theorem isMarker_not_space (c : Char) (h : isSpace c = true) : isMarker c = false := by
  unfold isMarker
  by_cases h1 : c = '-'
  · subst h1; exact absurd h (by decide)
  by_cases h2 : c = '*'
  · subst h2; exact absurd h (by decide)
  by_cases h3 : c = '+'
  · subst h3; exact absurd h (by decide)
  simp [h1, h2, h3]

/-- The bullet pattern at the start of a text. -/
theorem matchAt_bulletPattern (prev : Option Char) (s : List Char) :
    matchAt bulletPattern prev s = bulletEnd prev s := by
  unfold matchAt bulletPattern
  rw [matchRe_seq, matchRe_bol, matchRe_seq]
  have hk : (fun (prev2 : Option Char) (s2 : List Char) =>
      matchRe (.seq (.set fun c => c == '-' || c == '*' || c == '+')
        (.seq (.rep (.set isSpace) 1 none)
          (.seq (.rep (.set fun c => !isLineTerminator c) 1 none) .eol))) prev2 s2
        (fun _ rest => some rest)) = fun _ rest =>
        match rest with
        | [] => none
        | c :: cs => if isMarker c then wsPlusK cs else none := by
    funext prev2 s2
    rw [matchRe_seq]
    cases s2 with
    | nil => rfl
    | cons c cs =>
      rw [matchRe_set_cons]
      show (if (c == '-' || c == '*' || c == '+') = true then _ else _) = _
      simp only [matchRe_wsPlus]
      rfl
  rw [hk, matchRe_rep_set, greedySet_of_fail]
  · unfold bulletEnd
    by_cases hp : atLineStart prev = true
    · simp [hp]
    · simp [hp]
  · intro c cs hc
    simp [isMarker_not_space c hc]

/-- The pattern of three or more line feeds at the start of a text. -/
theorem matchAt_blankLinesPattern (prev : Option Char) (s : List Char) :
    matchAt blankLinesPattern prev s = blankLinesEnd s := by
  unfold matchAt blankLinesPattern Re.char
  rw [matchRe_rep_set (fun x => x == '\n') some 3 none prev s, greedySet_some]
  rfl

/-! ## The scan of `replace` -/

theorem replaceAllFrom_fuel (r : Re) (f : List Char → List Char) :
    ∀ (n : Nat) (s : List Char) (prev : Option Char) (fuel1 fuel2 : Nat),
    s.length ≤ n → s.length < fuel1 → s.length < fuel2 →
    replaceAllFrom r f fuel1 prev s = replaceAllFrom r f fuel2 prev s := by
  intro n
  induction n with
  | zero =>
    intro s prev fuel1 fuel2 hn h1 h2
    have hs : s = [] := List.length_eq_zero.mp (Nat.le_zero.mp hn)
    subst hs
    cases fuel1 with
    | zero => simp at h1
    | succ fuel1 =>
      cases fuel2 with
      | zero => simp at h2
      | succ fuel2 =>
        simp only [replaceAllFrom]
        cases matchAt r prev [] with
        | none => rfl
        | some rest => simp
  | succ n ih =>
    intro s prev fuel1 fuel2 hn h1 h2
    cases fuel1 with
    | zero => simp at h1
    | succ fuel1 =>
      cases fuel2 with
      | zero => simp at h2
      | succ fuel2 =>
        simp only [replaceAllFrom]
        cases hm : matchAt r prev s with
        | none =>
          cases s with
          | nil => rfl
          | cons c cs =>
            simp only
            rw [ih cs (some c) fuel1 fuel2 (by simpa using hn) (by simpa using h1)
              (by simpa using h2)]
        | some rest =>
          simp only
          by_cases hl : rest.length < s.length
          · rw [if_pos hl, if_pos hl]
            rw [ih rest _ fuel1 fuel2 (by omega) (by omega) (by omega)]
          · rw [if_neg hl, if_neg hl]
            cases s with
            | nil => rfl
            | cons c cs =>
              simp only
              rw [ih cs (some c) fuel1 fuel2 (by simpa using hn) (by simpa using h1)
                (by simpa using h2)]

theorem replaceAll_eq_scanFrom (r : Re) (f : List Char → List Char) (s : List Char) :
    replaceAll r f s = scanFrom r f none s := rfl

theorem scanFrom_nil (r : Re) (f : List Char → List Char) (prev : Option Char)
    (h : matchAt r prev [] = none) : scanFrom r f prev [] = [] := by
  simp [scanFrom, replaceAllFrom, h]

/-- Where the pattern does not match, the character is copied. -/
theorem scanFrom_cons (r : Re) (f : List Char → List Char) (prev : Option Char) (c : Char)
    (cs : List Char) (h : matchAt r prev (c :: cs) = none) :
    scanFrom r f prev (c :: cs) = c :: scanFrom r f (some c) cs := by
  unfold scanFrom
  simp only [replaceAllFrom, h, List.length_cons]

/-- Where the pattern matches a text that is not empty, the replacement is written and the
scan goes on after the match. -/
theorem scanFrom_match (r : Re) (f : List Char → List Char) (prev : Option Char)
    (m rest : List Char) (hm : m ≠ []) (h : matchAt r prev (m ++ rest) = some rest) :
    scanFrom r f prev (m ++ rest) = f m ++ scanFrom r f m.getLast? rest := by
  unfold scanFrom
  have hlen : rest.length < (m ++ rest).length := by
    have : 0 < m.length := List.length_pos.mpr hm
    simp only [List.length_append]; omega
  simp only [replaceAllFrom, h, hlen, if_true]
  have htake : (m ++ rest).take ((m ++ rest).length - rest.length) = m := by
    simp
  rw [htake]
  congr 1
  exact replaceAllFrom_fuel r f rest.length rest _ (m ++ rest).length (rest.length + 1)
    (Nat.le_refl _) hlen (by omega)

/-! ## The end `\s+.+$` of a pattern on lines -/

theorem isSpace_of_isLineTerminator (c : Char) (h : isLineTerminator c = true) :
    isSpace c = true := by
  simp only [isLineTerminator, Bool.or_eq_true, decide_eq_true_eq] at h
  simp only [isSpace, Bool.or_eq_true, Bool.and_eq_true, decide_eq_true_eq]
  omega

theorem hasText_eq_false (l : List Char) :
    hasText l = false ↔ ∀ c ∈ l, isSpace c = true := by
  simp [hasText]

theorem textOf_append (a b : Blocks) : textOf (a ++ b) = textOf a ++ textOf b := by
  induction a with
  | nil => rfl
  | cons x a ih =>
    obtain ⟨l, n⟩ := x
    show textOf ((l, n) :: (a ++ b)) = textOf ((l, n) :: a) ++ textOf b
    simp only [textOf, ih, List.append_assoc]

/-- What follows a line in a well-formed text is empty or starts with a line feed. -/
theorem tail_cases (n : Nat) (rest : Blocks) (h : 1 ≤ n ∨ rest = []) :
    List.replicate n '\n' ++ textOf rest = [] ∨
      ∃ t, List.replicate n '\n' ++ textOf rest = '\n' :: t := by
  cases n with
  | zero =>
    rcases h with h | h
    · omega
    · left; subst h; rfl
  | succ k => right; exact ⟨_, rfl⟩

theorem dropWhile_line (x T : List Char) (hx : ∀ c ∈ x, isLineTerminator c = false)
    (hT : T = [] ∨ ∃ t, T = '\n' :: t) :
    (x ++ T).dropWhile (fun c => !isLineTerminator c) = T := by
  induction x with
  | nil =>
    rcases hT with h | ⟨t, h⟩
    · subst h; rfl
    · subst h; rfl
  | cons c cs ih =>
    have hc := hx c (List.mem_cons_self _ _)
    simp only [List.cons_append, List.dropWhile_cons, hc, Bool.not_false, if_true]
    exact ih fun d hd => hx d (List.mem_cons_of_mem _ hd)

theorem wsStarK_cons_space (c : Char) (cs : List Char) (h : isSpace c = true) :
    wsStarK (c :: cs) =
      match wsStarK cs with
      | some r => some r
      | none => dotPlusK (c :: cs) := by
  simp [wsStarK, h]

theorem wsStarK_cons_text (c : Char) (cs : List Char) (h : isSpace c = false) :
    wsStarK (c :: cs) = dotPlusK (c :: cs) := by
  simp [wsStarK, h]

theorem dotPlusK_cons (c : Char) (cs : List Char) (h : isLineTerminator c = false) :
    dotPlusK (c :: cs) = some (cs.dropWhile fun x => !isLineTerminator x) := by
  simp [dotPlusK, h]

theorem wsStarK_replicate (n : Nat) : wsStarK (List.replicate n '\n') = none := by
  induction n with
  | zero => rfl
  | succ k ih =>
    rw [List.replicate_succ, wsStarK_cons_space _ _ (by decide), ih]
    rfl

theorem wsStarK_append_space (ws t r : List Char) (hws : ∀ c ∈ ws, isSpace c = true)
    (h : wsStarK t = some r) : wsStarK (ws ++ t) = some r := by
  induction ws with
  | nil => exact h
  | cons c cs ih =>
    have hc := hws c (List.mem_cons_self _ _)
    rw [List.cons_append, wsStarK_cons_space _ _ hc,
      ih fun d hd => hws d (List.mem_cons_of_mem _ hd)]

/-- On a line that has text, the match ends at the end of the line. -/
theorem wsStarK_line (x T : List Char) (hx : ∀ c ∈ x, isLineTerminator c = false)
    (ht : hasText x = true) (hT : T = [] ∨ ∃ t, T = '\n' :: t) :
    wsStarK (x ++ T) = some T := by
  induction x with
  | nil => simp [hasText] at ht
  | cons c cs ih =>
    have hc := hx c (List.mem_cons_self _ _)
    have hcs : ∀ d ∈ cs, isLineTerminator d = false :=
      fun d hd => hx d (List.mem_cons_of_mem _ hd)
    by_cases hsp : isSpace c = true
    · have ht2 : hasText cs = true := by
        simpa [hasText, hsp] using ht
      rw [List.cons_append, wsStarK_cons_space _ _ hsp, ih hcs ht2]
    · rw [List.cons_append, wsStarK_cons_text _ _ (by simpa using hsp), dotPlusK_cons _ _ hc,
        dropWhile_line cs T hcs hT]

/-- On a last line of white space, the match ends at the end of the line. -/
theorem wsStarK_blank_line (x : List Char) (n : Nat)
    (hx : ∀ c ∈ x, isLineTerminator c = false) (hne : x ≠ [])
    (hws : ∀ c ∈ x, isSpace c = true) :
    wsStarK (x ++ List.replicate n '\n') = some (List.replicate n '\n') := by
  induction x with
  | nil => exact absurd rfl hne
  | cons c cs ih =>
    have hc := hx c (List.mem_cons_self _ _)
    have hsp := hws c (List.mem_cons_self _ _)
    have hcs : ∀ d ∈ cs, isLineTerminator d = false :=
      fun d hd => hx d (List.mem_cons_of_mem _ hd)
    cases cs with
    | nil =>
      have hd := dropWhile_line [] (List.replicate n '\n') (by simp)
        (by cases n with
            | zero => left; rfl
            | succ k => right; exact ⟨_, rfl⟩)
      rw [List.cons_append, List.nil_append, wsStarK_cons_space _ _ hsp, wsStarK_replicate,
        dotPlusK_cons _ _ hc]
      rw [List.nil_append] at hd
      rw [hd]
    | cons d ds =>
      have := ih hcs (by simp) fun e he => hws e (List.mem_cons_of_mem _ he)
      rw [List.cons_append, wsStarK_cons_space _ _ hsp, this]

/-- A match that is open at the end of a line ends on the next line that has text, or else
on the last line; the pass adds its line feed there. -/
theorem pending_step (kind : List Char → TailKind) (bs : Blocks) (hwf : WellFormed bs)
    (hne : bs ≠ []) :
    ∃ pre lj nj post, bs = pre ++ (lj, nj) :: post ∧
      (∀ m, wsStarK (List.replicate m '\n' ++ textOf bs) =
        some (List.replicate nj '\n' ++ textOf post)) ∧
      addedFeeds kind true (bs.map Prod.fst) =
        List.replicate pre.length 0 ++ 1 :: addedFeeds kind false (post.map Prod.fst) ∧
      WellFormed post ∧ IsLine lj ∧ (1 ≤ nj ∨ post = []) := by
  induction bs with
  | nil => exact absurd rfl hne
  | cons b rest ih =>
    obtain ⟨l, n⟩ := b
    obtain ⟨hl, hn, hrest⟩ := hwf
    have hnl : ∀ m, ∀ c ∈ List.replicate m '\n', isSpace c = true := by
      intro m c hc
      rw [List.eq_of_mem_replicate hc]
      decide
    by_cases hcase : hasText l = true ∨ rest = []
    · refine ⟨[], l, n, rest, rfl, ?_, ?_, hrest, hl, hn⟩
      · intro m
        apply wsStarK_append_space _ _ _ (hnl m)
        rcases hcase with ht | hr
        · exact wsStarK_line l _ hl.2 ht (tail_cases n rest hn)
        · subst hr
          by_cases ht : hasText l = true
          · exact wsStarK_line l _ hl.2 ht (tail_cases n [] hn)
          · have hws := (hasText_eq_false l).mp (by simpa using ht)
            simpa [textOf] using wsStarK_blank_line l n hl.2 hl.1 hws
      · rcases hcase with ht | hr
        · simp [addedFeeds, feedStep, ht]
        · subst hr
          simp [addedFeeds, feedStep]
    · have ht : hasText l = false := by
        simpa using fun h => hcase (Or.inl h)
      have hr : rest ≠ [] := fun h => hcase (Or.inr h)
      have hn1 : 1 ≤ n := by
        rcases hn with h | h
        · exact h
        · exact absurd h hr
      obtain ⟨pre, lj, nj, post, hsplit, hmatch, hadd, hpost, hlj, hnj⟩ := ih hrest hr
      refine ⟨(l, n) :: pre, lj, nj, post, by rw [hsplit]; rfl, ?_, ?_, hpost, hlj, hnj⟩
      · intro m
        apply wsStarK_append_space _ _ _ (hnl m)
        exact wsStarK_append_space l _ _ ((hasText_eq_false l).mp ht) (hmatch n)
      · have hrm : (rest.map Prod.fst).isEmpty = false := by
          cases rest with
          | nil => exact absurd rfl hr
          | cons b bs => rfl
        simp [addedFeeds, feedStep, ht, hrm, hadd, List.replicate_succ]

theorem wsPlusK_cons_space (c : Char) (cs : List Char) (h : isSpace c = true) :
    wsPlusK (c :: cs) = wsStarK cs := by
  simp [wsPlusK, h]

theorem addedFeeds_cons (kind : List Char → TailKind) (pending : Bool) (l : List Char)
    (rest : List (List Char)) :
    addedFeeds kind pending (l :: rest) =
      (feedStep kind pending l rest.isEmpty).1 ::
        addedFeeds kind (feedStep kind pending l rest.isEmpty).2 rest := rfl

theorem isEmpty_map_fst (bs : Blocks) : (bs.map Prod.fst).isEmpty = bs.isEmpty := by
  cases bs <;> rfl

/-- The end `\s+.+$` of a pattern at the rest `x` of the line `l`: either there is no match
and the pass adds nothing after the line, or the match ends at the end of a line `lj`, after
which the pass adds a line feed, and nothing is added before. -/
theorem tail_step (kind : List Char → TailKind) (l x : List Char) (n : Nat) (rest : Blocks)
    (hk : kind l = tailKind x) (hx : ∀ c ∈ x, isLineTerminator c = false)
    (hl : IsLine l) (hn : 1 ≤ n ∨ rest = []) (hwf : WellFormed rest) :
    (wsPlusK (x ++ (List.replicate n '\n' ++ textOf rest)) = none ∧
      addedFeeds kind false (l :: rest.map Prod.fst) =
        0 :: addedFeeds kind false (rest.map Prod.fst)) ∨
    (∃ pre lj nj post, (l, n) :: rest = pre ++ (lj, nj) :: post ∧
      wsPlusK (x ++ (List.replicate n '\n' ++ textOf rest)) =
        some (List.replicate nj '\n' ++ textOf post) ∧
      addedFeeds kind false (l :: rest.map Prod.fst) =
        List.replicate pre.length 0 ++ 1 :: addedFeeds kind false (post.map Prod.fst) ∧
      WellFormed post ∧ IsLine lj ∧ (1 ≤ nj ∨ post = [])) := by
  have hopen : ∀ two, kind l = .opened two → rest ≠ [] →
      ∃ pre lj nj post, (l, n) :: rest = pre ++ (lj, nj) :: post ∧
        (∀ m, wsStarK (List.replicate m '\n' ++ textOf rest) =
          some (List.replicate nj '\n' ++ textOf post)) ∧
        addedFeeds kind false (l :: rest.map Prod.fst) =
          List.replicate pre.length 0 ++ 1 :: addedFeeds kind false (post.map Prod.fst) ∧
        WellFormed post ∧ IsLine lj ∧ (1 ≤ nj ∨ post = []) := by
    intro two hkind hr
    obtain ⟨pre, lj, nj, post, hsplit, hmatch, hadd, hpost, hlj, hnj⟩ :=
      pending_step kind rest hwf hr
    refine ⟨(l, n) :: pre, lj, nj, post, by rw [hsplit]; rfl, hmatch, ?_, hpost, hlj, hnj⟩
    have he : rest.isEmpty = false := by
      cases rest with
      | nil => exact absurd rfl hr
      | cons b bs => rfl
    rw [addedFeeds_cons, isEmpty_map_fst, he]
    simp [feedStep, hkind, hadd, List.replicate_succ]
  cases x with
  | nil =>
    have hkind : kind l = .opened false := by rw [hk]; rfl
    by_cases hr : rest = []
    · left
      subst hr
      constructor
      · cases n with
        | zero => rfl
        | succ k =>
          rw [List.nil_append, List.replicate_succ, List.cons_append,
            wsPlusK_cons_space _ _ (by decide)]
          simpa [textOf] using wsStarK_replicate k
      · simp [addedFeeds, feedStep, hkind]
    · right
      have hn1 : 1 ≤ n := by
        rcases hn with h | h
        · exact h
        · exact absurd h hr
      obtain ⟨k, hk2⟩ : ∃ k, n = k + 1 := ⟨n - 1, by omega⟩
      obtain ⟨pre, lj, nj, post, hsplit, hmatch, hadd, hpost, hlj, hnj⟩ :=
        hopen false hkind hr
      refine ⟨pre, lj, nj, post, hsplit, ?_, hadd, hpost, hlj, hnj⟩
      rw [List.nil_append, hk2, List.replicate_succ, List.cons_append,
        wsPlusK_cons_space _ _ (by decide)]
      exact hmatch k
  | cons c cs =>
    have hcs : ∀ d ∈ cs, isLineTerminator d = false :=
      fun d hd => hx d (List.mem_cons_of_mem _ hd)
    by_cases hsp : isSpace c = true
    · rw [List.cons_append, wsPlusK_cons_space _ _ hsp]
      by_cases ht : hasText cs = true
      · right
        have hkind : kind l = .complete := by rw [hk]; simp [tailKind, hsp, ht]
        refine ⟨[], l, n, rest, rfl, wsStarK_line cs _ hcs ht (tail_cases n rest hn), ?_,
          hwf, hl, hn⟩
        rw [addedFeeds_cons]
        simp [feedStep, hkind]
      · have ht2 : hasText cs = false := by simpa using ht
        have hws := (hasText_eq_false cs).mp ht2
        have hkind : kind l = .opened (decide (cs ≠ [])) := by
          rw [hk]; simp [tailKind, hsp, ht2]
        by_cases hr : rest = []
        · subst hr
          by_cases hne : cs = []
          · left
            subst hne
            constructor
            · simpa [textOf] using wsStarK_replicate n
            · simp [addedFeeds, feedStep, hkind]
          · right
            refine ⟨[], l, n, [], rfl, ?_, ?_, hwf, hl, hn⟩
            · simpa [textOf] using wsStarK_blank_line cs n hcs hne hws
            · simp [addedFeeds, feedStep, hkind, hne]
        · right
          obtain ⟨pre, lj, nj, post, hsplit, hmatch, hadd, hpost, hlj, hnj⟩ :=
            hopen _ hkind hr
          exact ⟨pre, lj, nj, post, hsplit, wsStarK_append_space cs _ _ hws (hmatch n),
            hadd, hpost, hlj, hnj⟩
    · left
      have hsp2 : isSpace c = false := by simpa using hsp
      have hkind : kind l = .plain := by rw [hk]; simp [tailKind, hsp2]
      constructor
      · rw [List.cons_append, wsPlusK_of_not_space _ _ hsp2]
      · rw [addedFeeds_cons]
        simp [feedStep, hkind]

/-! ## The heading pass on lines -/

theorem takeWhile_line (p : Char → Bool) (hp : p '\n' = false) (l T : List Char)
    (hT : T = [] ∨ ∃ t, T = '\n' :: t) :
    (l ++ T).takeWhile p = l.takeWhile p ∧ (l ++ T).dropWhile p = l.dropWhile p ++ T := by
  induction l with
  | nil =>
    rcases hT with h | ⟨t, h⟩
    · subst h; exact ⟨rfl, rfl⟩
    · subst h; simp [hp]
  | cons c cs ih =>
    by_cases hc : p c = true
    · simp [List.takeWhile_cons, List.dropWhile_cons, hc, ih.1, ih.2]
    · simp [List.takeWhile_cons, List.dropWhile_cons, hc]

theorem textOf_cons (l : List Char) (n : Nat) (rest : Blocks) :
    textOf ((l, n) :: rest) = l ++ (List.replicate n '\n' ++ textOf rest) := rfl

/-- The heading pattern at the start of a line: either there is no match and the pass adds
nothing after the line, or the match ends at the end of a line, after which the pass adds a
line feed. -/
theorem heading_step (l : List Char) (n : Nat) (rest : Blocks) (prev : Option Char)
    (hp : atLineStart prev = true)
    (hl : IsLine l) (hn : 1 ≤ n ∨ rest = []) (hwf : WellFormed rest) :
    (matchAt headingPattern prev (textOf ((l, n) :: rest)) = none ∧
      addedFeeds headingKind false (l :: rest.map Prod.fst) =
        0 :: addedFeeds headingKind false (rest.map Prod.fst)) ∨
    (∃ pre lj nj post, (l, n) :: rest = pre ++ (lj, nj) :: post ∧
      matchAt headingPattern prev (textOf ((l, n) :: rest)) =
        some (List.replicate nj '\n' ++ textOf post) ∧
      addedFeeds headingKind false (l :: rest.map Prod.fst) =
        List.replicate pre.length 0 ++
          1 :: addedFeeds headingKind false (post.map Prod.fst) ∧
      WellFormed post ∧ IsLine lj ∧ (1 ≤ nj ∨ post = [])) := by
  rw [matchAt_headingPattern, textOf_cons]
  unfold headingEnd
  obtain ⟨htake, hdrop⟩ := takeWhile_line (fun x => x == '#') (by decide) l _
    (tail_cases n rest hn)
  rw [htake, hdrop]
  by_cases hrange : 1 ≤ (l.takeWhile fun x => x == '#').length ∧
      (l.takeWhile fun x => x == '#').length ≤ 6
  · have hk : headingKind l = tailKind (l.dropWhile fun x => x == '#') := by
      simp [headingKind, hrange]
    have hx : ∀ c ∈ l.dropWhile (fun x => x == '#'), isLineTerminator c = false :=
      fun c hc => hl.2 c ((List.dropWhile_sublist _).subset hc)
    rw [if_pos ⟨hp, hrange⟩]
    exact tail_step headingKind l _ n rest hk hx hl hn hwf
  · left
    constructor
    · rw [if_neg (fun hh => hrange hh.2)]
    · rw [addedFeeds_cons]
      simp [feedStep, headingKind, hrange]

theorem matchAt_headingPattern_mid (p : Char) (s : List Char)
    (hp : isLineTerminator p = false) : matchAt headingPattern (some p) s = none := by
  rw [matchAt_headingPattern]
  simp [headingEnd, atLineStart, hp]

theorem matchAt_headingPattern_feed (prev : Option Char) (s : List Char) :
    matchAt headingPattern prev ('\n' :: s) = none := by
  rw [matchAt_headingPattern]
  simp [headingEnd]

theorem matchAt_headingPattern_nil (prev : Option Char) :
    matchAt headingPattern prev [] = none := by
  rw [matchAt_headingPattern]
  simp [headingEnd]

/-- In the middle of a line, where `^` does not hold, the characters are copied. -/
theorem scanFrom_mid_line (r : Re) (f : List Char → List Char)
    (hmid : ∀ p s, isLineTerminator p = false → matchAt r (some p) s = none)
    (x : List Char) : ∀ (p : Char) (T : List Char), isLineTerminator p = false →
    (∀ c ∈ x, isLineTerminator c = false) →
    ∃ q, isLineTerminator q = false ∧
      scanFrom r f (some p) (x ++ T) = x ++ scanFrom r f (some q) T := by
  induction x with
  | nil => intro p T hp _; exact ⟨p, hp, rfl⟩
  | cons c cs ih =>
    intro p T hp hx
    have hc := hx c (List.mem_cons_self _ _)
    obtain ⟨q, hq, hscan⟩ := ih c T hc fun d hd => hx d (List.mem_cons_of_mem _ hd)
    refine ⟨q, hq, ?_⟩
    rw [List.cons_append, scanFrom_cons r f (some p) c (cs ++ T) (hmid p _ hp), hscan]
    rfl

/-- A line at whose start the pattern does not match is copied. -/
theorem scanFrom_line (r : Re) (f : List Char → List Char)
    (hmid : ∀ p s, isLineTerminator p = false → matchAt r (some p) s = none)
    (l T : List Char) (prev : Option Char) (hl : IsLine l)
    (hno : matchAt r prev (l ++ T) = none) :
    ∃ q, isLineTerminator q = false ∧
      scanFrom r f prev (l ++ T) = l ++ scanFrom r f (some q) T := by
  cases l with
  | nil => exact absurd rfl hl.1
  | cons c cs =>
    have hc := hl.2 c (List.mem_cons_self _ _)
    obtain ⟨q, hq, hscan⟩ := scanFrom_mid_line r f hmid cs c T hc
      fun d hd => hl.2 d (List.mem_cons_of_mem _ hd)
    refine ⟨q, hq, ?_⟩
    rw [List.cons_append] at hno ⊢
    rw [scanFrom_cons r f prev c (cs ++ T) hno, hscan]
    rfl

theorem getLast?_line (a l : List Char) (hl : IsLine l) :
    ∃ q, isLineTerminator q = false ∧ (a ++ l).getLast? = some q := by
  have hne : l ≠ [] := hl.1
  refine ⟨l.getLast hne, hl.2 _ (List.getLast_mem hne), ?_⟩
  rw [List.getLast?_append_of_ne_nil _ hne, List.getLast?_eq_getLast _ hne]

theorem addFeeds_zeros (pre bs : Blocks) (ds : List Nat) :
    addFeeds (pre ++ bs) (List.replicate pre.length 0 ++ ds) = pre ++ addFeeds bs ds := by
  induction pre with
  | nil => rfl
  | cons b pre ih =>
    obtain ⟨l, n⟩ := b
    show addFeeds ((l, n) :: (pre ++ bs)) (0 :: (List.replicate pre.length 0 ++ ds)) = _
    simp only [addFeeds, ih, Nat.add_zero, List.cons_append]

theorem addFeeds_cons (l : List Char) (n d : Nat) (rest : Blocks) (ds : List Nat) :
    addFeeds ((l, n) :: rest) (d :: ds) = (l, n + d) :: addFeeds rest ds := rfl

/-- The heading pass copies the line feeds. -/
theorem scanFrom_heading_feeds (f : List Char → List Char) (n : Nat) :
    ∀ (prev : Option Char) (t : List Char),
    scanFrom headingPattern f prev (List.replicate n '\n' ++ t) =
      List.replicate n '\n' ++
        scanFrom headingPattern f (if n = 0 then prev else some '\n') t := by
  induction n with
  | zero => intro prev t; rfl
  | succ k ih =>
    intro prev t
    rw [List.replicate_succ, List.cons_append,
      scanFrom_cons _ f prev _ _ (matchAt_headingPattern_feed prev _), ih]
    cases k <;> simp

theorem textOf_bump (pre : Blocks) (lj : List Char) (nj : Nat) (post : Blocks)
    (ds : List Nat) :
    textOf (addFeeds (pre ++ (lj, nj) :: post) (List.replicate pre.length 0 ++ 1 :: ds)) =
      (textOf pre ++ lj) ++ '\n' ::
        (List.replicate nj '\n' ++ textOf (addFeeds post ds)) := by
  rw [addFeeds_zeros, addFeeds_cons, textOf_append, textOf_cons, List.replicate_succ]
  simp

theorem textOf_split (pre : Blocks) (lj : List Char) (nj : Nat) (post : Blocks) :
    textOf (pre ++ (lj, nj) :: post) =
      (textOf pre ++ lj) ++ (List.replicate nj '\n' ++ textOf post) := by
  rw [textOf_append, textOf_cons]
  simp

theorem length_post_lt (bs pre post : Blocks) (b : List Char × Nat)
    (h : bs = pre ++ b :: post) : post.length < bs.length := by
  rw [h]
  simp only [List.length_append, List.length_cons]
  omega

/-- The heading pass on a well-formed text is the heading pass on its lines. -/
theorem scanFrom_heading (k : Nat) : ∀ (bs : Blocks), bs.length ≤ k → WellFormed bs →
    ∀ prev, atLineStart prev = true →
    scanFrom headingPattern (fun m => m ++ ['\n']) prev (textOf bs) =
      textOf (headingBlocks bs) := by
  induction k with
  | zero =>
    intro bs hk _ prev _
    have : bs = [] := List.length_eq_zero.mp (Nat.le_zero.mp hk)
    subst this
    exact scanFrom_nil _ _ _ (matchAt_headingPattern_nil prev)
  | succ k ih =>
    intro bs hk hwf prev hp
    cases bs with
    | nil => exact scanFrom_nil _ _ _ (matchAt_headingPattern_nil prev)
    | cons b rest =>
      obtain ⟨l, n⟩ := b
      obtain ⟨hl, hn, hrest⟩ := hwf
      have hklen : rest.length ≤ k := by simpa using hk
      have htail : ∀ (post : Blocks) (nj : Nat) (q : Option Char), post.length ≤ k →
          WellFormed post → (1 ≤ nj ∨ post = []) →
          scanFrom headingPattern (fun m => m ++ ['\n']) q
            (List.replicate nj '\n' ++ textOf post) =
            List.replicate nj '\n' ++ textOf (headingBlocks post) := by
        intro post nj q hlen hpost hnj
        rw [scanFrom_heading_feeds]
        rcases hnj with h | h
        · have : nj ≠ 0 := by omega
          rw [if_neg this, ih post hlen hpost (some '\n') (by decide)]
        · subst h
          show _ ++ scanFrom headingPattern _ _ [] = _
          rw [scanFrom_nil _ _ _ (matchAt_headingPattern_nil _)]
          rfl
      rcases heading_step l n rest prev hp hl hn hrest with ⟨hno, hadd⟩ | h
      · obtain ⟨q, _, hscan⟩ := scanFrom_line headingPattern (fun m => m ++ ['\n'])
          matchAt_headingPattern_mid l _ prev hl (by rw [← textOf_cons]; exact hno)
        rw [textOf_cons, hscan, htail rest n (some q) hklen hrest hn]
        unfold headingBlocks
        rw [List.map_cons, hadd, addFeeds_cons, textOf_cons]
        rfl
      · obtain ⟨pre, lj, nj, post, hsplit, hmatch, hadd, hpost, hlj, hnj⟩ := h
        have hlen : post.length ≤ k := by
          have := length_post_lt _ pre post (lj, nj) hsplit
          simp only [List.length_cons] at this
          omega
        obtain ⟨q, _, hlast⟩ := getLast?_line (textOf pre) lj hlj
        have hm : textOf pre ++ lj ≠ [] := by
          intro h
          exact hlj.1 (List.append_eq_nil.mp h).2
        unfold headingBlocks
        rw [List.map_cons, hadd]
        rw [hsplit, textOf_split] at hmatch ⊢
        rw [scanFrom_match _ _ prev _ _ hm hmatch, hlast, htail post nj (some q) hlen hpost hnj,
          textOf_bump]
        unfold headingBlocks
        simp

/-! ## The bullet pass on lines -/

theorem dropWhile_space_append (a b : List Char) (h : ∀ c ∈ a, isSpace c = true) :
    (a ++ b).dropWhile isSpace = b.dropWhile isSpace := by
  induction a with
  | nil => rfl
  | cons c cs ih =>
    rw [List.cons_append, List.dropWhile_cons, if_pos (h c (List.mem_cons_self _ _)),
      ih fun d hd => h d (List.mem_cons_of_mem _ hd)]

theorem dropWhile_space_text (l T : List Char) (h : hasText l = true) :
    (l ++ T).dropWhile isSpace = l.dropWhile isSpace ++ T ∧
      ∃ c x, l.dropWhile isSpace = c :: x ∧ isSpace c = false := by
  induction l with
  | nil => simp [hasText] at h
  | cons c cs ih =>
    by_cases hc : isSpace c = true
    · have h2 : hasText cs = true := by simpa [hasText, hc] using h
      obtain ⟨h3, h4⟩ := ih h2
      simp only [List.cons_append, List.dropWhile_cons, hc, if_true]
      exact ⟨h3, h4⟩
    · have hc2 : isSpace c = false := by simpa using hc
      refine ⟨?_, c, cs, ?_, hc2⟩
      · simp [List.dropWhile_cons, hc2]
      · simp [List.dropWhile_cons, hc2]

theorem matchAt_bulletPattern_mid (p : Char) (s : List Char)
    (hp : isLineTerminator p = false) : matchAt bulletPattern (some p) s = none := by
  rw [matchAt_bulletPattern]
  simp [bulletEnd, atLineStart, hp]

theorem matchAt_bulletPattern_nil (prev : Option Char) :
    matchAt bulletPattern prev [] = none := by
  rw [matchAt_bulletPattern]
  simp [bulletEnd]

theorem bulletEnd_feeds (prev : Option Char) (m : Nat) (s : List Char) :
    bulletEnd prev (List.replicate m '\n' ++ s) = bulletEnd prev s := by
  unfold bulletEnd
  rw [dropWhile_space_append]
  intro c hc
  rw [List.eq_of_mem_replicate hc]
  decide

/-- The bullet pattern where `^` holds, before the lines `bs`: either there is no match and
the pass adds nothing after the first line, or the match ends at the end of a line, after
which the pass adds a line feed, and nothing is added before. -/
theorem bullet_step (bs : Blocks) (hwf : WellFormed bs) (prev : Option Char)
    (hp : atLineStart prev = true) :
    (bulletEnd prev (textOf bs) = none ∧
      ∀ l n rest, bs = (l, n) :: rest →
        addedFeeds bulletKind false (l :: rest.map Prod.fst) =
          0 :: addedFeeds bulletKind false (rest.map Prod.fst)) ∨
    (∃ pre lj nj post, bs = pre ++ (lj, nj) :: post ∧
      bulletEnd prev (textOf bs) = some (List.replicate nj '\n' ++ textOf post) ∧
      addedFeeds bulletKind false (bs.map Prod.fst) =
        List.replicate pre.length 0 ++
          1 :: addedFeeds bulletKind false (post.map Prod.fst) ∧
      WellFormed post ∧ IsLine lj ∧ (1 ≤ nj ∨ post = [])) := by
  induction bs with
  | nil =>
    left
    exact ⟨by simp [bulletEnd, textOf], fun l n rest h => by cases h⟩
  | cons b rest ih =>
    obtain ⟨l, n⟩ := b
    obtain ⟨hl, hn, hrest⟩ := hwf
    by_cases ht : hasText l = true
    · obtain ⟨hdrop, c, x, hcx, hc⟩ := dropWhile_space_text l
        (List.replicate n '\n' ++ textOf rest) ht
      have hx : ∀ d ∈ x, isLineTerminator d = false := by
        intro d hd
        apply hl.2 d
        apply (List.dropWhile_sublist isSpace).subset
        rw [hcx]
        exact List.mem_cons_of_mem _ hd
      have hend : bulletEnd prev (textOf ((l, n) :: rest)) =
          if isMarker c then wsPlusK (x ++ (List.replicate n '\n' ++ textOf rest))
          else none := by
        unfold bulletEnd
        rw [if_pos hp, textOf_cons, hdrop, hcx]
        rfl
      by_cases hm : isMarker c = true
      · have hk : bulletKind l = tailKind x := by
          simp [bulletKind, hcx, hm]
        rw [hend, if_pos hm]
        rcases tail_step bulletKind l x n rest hk hx hl hn hrest with ⟨h1, h2⟩ | h
        · left
          refine ⟨h1, ?_⟩
          intro l2 n2 rest2 heq
          cases heq
          exact h2
        · right
          exact h
      · left
        rw [hend, if_neg hm]
        refine ⟨rfl, ?_⟩
        intro l2 n2 rest2 heq
        cases heq
        rw [addedFeeds_cons]
        simp [feedStep, bulletKind, hcx, hm]
    · have ht2 : hasText l = false := by simpa using ht
      have hws := (hasText_eq_false l).mp ht2
      have hkind : bulletKind l = .plain := by
        have : l.dropWhile isSpace = [] := by
          rw [List.dropWhile_eq_nil_iff]
          exact hws
        simp [bulletKind, this]
      have hzero : addedFeeds bulletKind false (l :: rest.map Prod.fst) =
          0 :: addedFeeds bulletKind false (rest.map Prod.fst) := by
        rw [addedFeeds_cons]
        simp [feedStep, hkind]
      have hend : bulletEnd prev (textOf ((l, n) :: rest)) = bulletEnd prev (textOf rest) := by
        rw [textOf_cons]
        unfold bulletEnd
        rw [dropWhile_space_append l _ hws, dropWhile_space_append]
        intro c hc
        rw [List.eq_of_mem_replicate hc]
        decide
      rcases ih hrest with ⟨h1, _⟩ | h
      · left
        refine ⟨by rw [hend]; exact h1, ?_⟩
        intro l2 n2 rest2 heq
        cases heq
        exact hzero
      · right
        obtain ⟨pre, lj, nj, post, hsplit, hmatch, hadd, hpost, hlj, hnj⟩ := h
        refine ⟨(l, n) :: pre, lj, nj, post, by rw [hsplit]; rfl, by rw [hend]; exact hmatch,
          ?_, hpost, hlj, hnj⟩
        rw [List.map_cons, hzero, hadd]
        rfl

/-- The bullet pass on a well-formed text, possibly after line feeds, is the bullet pass on
its lines. -/
theorem scanFrom_bullet (k : Nat) : ∀ (bs : Blocks), bs.length ≤ k → WellFormed bs →
    ∀ (m : Nat) (prev : Option Char), (atLineStart prev = true ∨ 1 ≤ m ∨ bs = []) →
    scanFrom bulletPattern (fun x => x ++ ['\n']) prev
        (List.replicate m '\n' ++ textOf bs) =
      List.replicate m '\n' ++ textOf (bulletBlocks bs) := by
  induction k with
  | zero =>
    intro bs hk _ m
    have : bs = [] := List.length_eq_zero.mp (Nat.le_zero.mp hk)
    subst this
    induction m with
    | zero =>
      intro prev _
      exact scanFrom_nil _ _ _ (matchAt_bulletPattern_nil prev)
    | succ j ihm =>
      intro prev _
      have hno : matchAt bulletPattern prev (List.replicate (j + 1) '\n' ++ textOf []) =
          none := by
        rw [matchAt_bulletPattern, bulletEnd_feeds]
        simp [bulletEnd, textOf]
      rw [List.replicate_succ, List.cons_append] at hno ⊢
      rw [scanFrom_cons _ _ prev _ _ hno, ihm (some '\n') (Or.inl (by decide))]
      rfl
  | succ k ih =>
    intro bs hk hwf
    have hbol : ∀ (m : Nat) (prev : Option Char), atLineStart prev = true →
        scanFrom bulletPattern (fun x => x ++ ['\n']) prev
            (List.replicate m '\n' ++ textOf bs) =
          List.replicate m '\n' ++ textOf (bulletBlocks bs) := by
      intro m
      induction m with
      | zero =>
        intro prev hp
        rw [List.replicate_zero, List.nil_append, List.nil_append]
        rcases bullet_step bs hwf prev hp with ⟨hno, hadd⟩ | h
        · cases bs with
          | nil => exact scanFrom_nil _ _ _ (matchAt_bulletPattern_nil prev)
          | cons b rest =>
            obtain ⟨l, n⟩ := b
            obtain ⟨hl, hn, hrest⟩ := hwf
            have hklen : rest.length ≤ k := by simpa using hk
            obtain ⟨q, hq, hscan⟩ := scanFrom_line bulletPattern (fun x => x ++ ['\n'])
              matchAt_bulletPattern_mid l _ prev hl
              (by rw [← textOf_cons, matchAt_bulletPattern]; exact hno)
            rw [textOf_cons, hscan, ih rest hklen hrest n (some q) (Or.inr hn)]
            unfold bulletBlocks
            rw [List.map_cons, hadd l n rest rfl, addFeeds_cons, textOf_cons]
            rfl
        · obtain ⟨pre, lj, nj, post, hsplit, hmatch, hadd, hpost, hlj, hnj⟩ := h
          have hlen : post.length ≤ k := by
            have := length_post_lt _ pre post (lj, nj) hsplit
            omega
          obtain ⟨q, _, hlast⟩ := getLast?_line (textOf pre) lj hlj
          have hm : textOf pre ++ lj ≠ [] := by
            intro h
            exact hlj.1 (List.append_eq_nil.mp h).2
          unfold bulletBlocks
          rw [hadd]
          rw [← matchAt_bulletPattern] at hmatch
          rw [hsplit, textOf_split] at hmatch ⊢
          rw [scanFrom_match _ _ prev _ _ hm hmatch, hlast,
            ih post hlen hpost nj (some q) (Or.inr hnj), textOf_bump]
          unfold bulletBlocks
          simp
      | succ j ihm =>
        intro prev hp
        rcases bullet_step bs hwf prev hp with ⟨hno, _⟩ | h
        · have hno2 : matchAt bulletPattern prev
              (List.replicate (j + 1) '\n' ++ textOf bs) = none := by
            rw [matchAt_bulletPattern, bulletEnd_feeds]
            exact hno
          rw [List.replicate_succ, List.cons_append] at hno2 ⊢
          rw [scanFrom_cons _ _ prev _ _ hno2, ihm (some '\n') (by decide)]
          rfl
        · obtain ⟨pre, lj, nj, post, hsplit, hmatch, hadd, hpost, hlj, hnj⟩ := h
          have hlen : post.length ≤ k := by
            have := length_post_lt _ pre post (lj, nj) hsplit
            omega
          obtain ⟨q, _, hlast⟩ :=
            getLast?_line (List.replicate (j + 1) '\n' ++ textOf pre) lj hlj
          have hm : (List.replicate (j + 1) '\n' ++ textOf pre) ++ lj ≠ [] := by
            intro h
            exact hlj.1 (List.append_eq_nil.mp h).2
          have hmatch2 : matchAt bulletPattern prev
              (((List.replicate (j + 1) '\n' ++ textOf pre) ++ lj) ++
                (List.replicate nj '\n' ++ textOf post)) =
              some (List.replicate nj '\n' ++ textOf post) := by
            rw [matchAt_bulletPattern]
            have : ((List.replicate (j + 1) '\n' ++ textOf pre) ++ lj) ++
                (List.replicate nj '\n' ++ textOf post) =
                List.replicate (j + 1) '\n' ++ textOf bs := by
              rw [hsplit, textOf_split]
              simp
            rw [this, bulletEnd_feeds]
            exact hmatch
          have htext : List.replicate (j + 1) '\n' ++ textOf bs =
              ((List.replicate (j + 1) '\n' ++ textOf pre) ++ lj) ++
                (List.replicate nj '\n' ++ textOf post) := by
            rw [hsplit, textOf_split]
            simp
          unfold bulletBlocks
          rw [hadd, htext, scanFrom_match _ _ prev _ _ hm hmatch2, hlast,
            ih post hlen hpost nj (some q) (Or.inr hnj)]
          rw [hsplit, textOf_bump]
          unfold bulletBlocks
          simp
    intro m prev hcond
    by_cases hp : atLineStart prev = true
    · exact hbol m prev hp
    · obtain ⟨p, hprev, hpl⟩ : ∃ p, prev = some p ∧ isLineTerminator p = false := by
        cases prev with
        | none => exact absurd rfl hp
        | some p => exact ⟨p, rfl, by simpa [atLineStart] using hp⟩
      subst hprev
      cases m with
      | zero =>
        rcases hcond with h | h | h
        · exact absurd h hp
        · omega
        · subst h
          exact scanFrom_nil _ _ _ (matchAt_bulletPattern_nil _)
      | succ j =>
        rw [List.replicate_succ, List.cons_append,
          scanFrom_cons _ _ (some p) _ _ (matchAt_bulletPattern_mid p _ hpl),
          hbol j (some '\n') (by decide)]
        rfl

/-! ## The collapsing pass and the fence passes on lines -/

theorem matchAt_blank_text (prev : Option Char) (c : Char) (t : List Char)
    (hc : isLineTerminator c = false) : matchAt blankLinesPattern prev (c :: t) = none := by
  rw [matchAt_blankLinesPattern]
  have : (c == '\n') = false := by
    cases h : c == '\n'
    · rfl
    · have : c = '\n' := by simpa using h
      subst this
      exact absurd hc (by decide)
  simp [blankLinesEnd, List.takeWhile_cons, this]

/-- A line is copied by the collapsing pass. -/
theorem scanFrom_blank_line (f : List Char → List Char) (x : List Char) :
    ∀ (prev : Option Char) (T : List Char), (∀ c ∈ x, isLineTerminator c = false) →
    ∃ q, scanFrom blankLinesPattern f prev (x ++ T) =
      x ++ scanFrom blankLinesPattern f q T := by
  induction x with
  | nil => intro prev T _; exact ⟨prev, rfl⟩
  | cons c cs ih =>
    intro prev T hx
    obtain ⟨q, hq⟩ := ih (some c) T fun d hd => hx d (List.mem_cons_of_mem _ hd)
    refine ⟨q, ?_⟩
    rw [List.cons_append, scanFrom_cons _ f prev c _
      (matchAt_blank_text prev c _ (hx c (List.mem_cons_self _ _))), hq]
    rfl

theorem textOf_head (bs : Blocks) (hwf : WellFormed bs) :
    textOf bs = [] ∨ ∃ c t, textOf bs = c :: t ∧ isLineTerminator c = false := by
  cases bs with
  | nil => left; rfl
  | cons b rest =>
    obtain ⟨l, n⟩ := b
    obtain ⟨hl, _, _⟩ := hwf
    cases l with
    | nil => exact absurd rfl hl.1
    | cons c cs => right; exact ⟨c, _, rfl, hl.2 c (List.mem_cons_self _ _)⟩

theorem blankLinesEnd_feeds (m : Nat) (bs : Blocks) (hwf : WellFormed bs) :
    blankLinesEnd (List.replicate m '\n' ++ textOf bs) =
      if 3 ≤ m then some (textOf bs) else none := by
  have hne : ∀ c t, textOf bs = c :: t → isLineTerminator c = false →
      (c == '\n') = false := by
    intro c t _ hc
    cases h : c == '\n'
    · rfl
    · have : c = '\n' := by simpa using h
      subst this
      exact absurd hc (by decide)
  have htake : ((List.replicate m '\n' ++ textOf bs).takeWhile fun x => x == '\n') =
      List.replicate m '\n' ∧
      ((List.replicate m '\n' ++ textOf bs).dropWhile fun x => x == '\n') = textOf bs := by
    induction m with
    | zero =>
      rcases textOf_head bs hwf with h | ⟨c, t, h, hc⟩
      · rw [h]; exact ⟨rfl, rfl⟩
      · rw [h]
        simp [List.takeWhile_cons, List.dropWhile_cons, hne c t h hc]
    | succ j ih =>
      rw [List.replicate_succ, List.cons_append]
      simp only [List.takeWhile_cons, List.dropWhile_cons, beq_self_eq_true, if_true, ih.1,
        ih.2, and_self]
  unfold blankLinesEnd
  rw [htake.1, htake.2, List.length_replicate]

theorem capFeeds_of_lt (m : Nat) (h : ¬ 3 ≤ m) : capFeeds m = m := by
  simp [capFeeds, h]

theorem collapseBlocks_cons (l : List Char) (n : Nat) (rest : Blocks) :
    collapseBlocks ((l, n) :: rest) = (l, capFeeds n) :: collapseBlocks rest := rfl

theorem scanFrom_collapse_feeds (bs : Blocks) (hwf : WellFormed bs)
    (h0 : ∀ prev, scanFrom blankLinesPattern (fun _ => ['\n', '\n']) prev (textOf bs) =
      textOf (collapseBlocks bs)) :
    ∀ (m : Nat) (prev : Option Char),
    scanFrom blankLinesPattern (fun _ => ['\n', '\n']) prev
        (List.replicate m '\n' ++ textOf bs) =
      List.replicate (capFeeds m) '\n' ++ textOf (collapseBlocks bs) := by
  intro m
  induction m with
  | zero => intro prev; exact h0 prev
  | succ j ihm =>
    intro prev
    have hend := blankLinesEnd_feeds (j + 1) bs hwf
    rw [← matchAt_blankLinesPattern prev] at hend
    by_cases h3 : 3 ≤ j + 1
    · rw [if_pos h3] at hend
      rw [scanFrom_match _ _ prev _ _ (by simp) hend, h0]
      simp [capFeeds, h3]
    · rw [if_neg h3] at hend
      rw [List.replicate_succ, List.cons_append] at hend ⊢
      rw [scanFrom_cons _ _ prev _ _ hend, ihm, capFeeds_of_lt (j + 1) h3,
        capFeeds_of_lt j (by omega), List.replicate_succ]
      rfl

/-- The collapsing pass on a well-formed text, possibly after line feeds, is the collapsing
pass on its lines. -/
theorem scanFrom_collapse (bs : Blocks) (hwf : WellFormed bs) :
    ∀ (m : Nat) (prev : Option Char),
    scanFrom blankLinesPattern (fun _ => ['\n', '\n']) prev
        (List.replicate m '\n' ++ textOf bs) =
      List.replicate (capFeeds m) '\n' ++ textOf (collapseBlocks bs) := by
  induction bs with
  | nil =>
    exact scanFrom_collapse_feeds [] trivial fun prev =>
      scanFrom_nil _ _ _ (by rw [matchAt_blankLinesPattern]; rfl)
  | cons b rest ih =>
    obtain ⟨l, n⟩ := b
    apply scanFrom_collapse_feeds _ hwf
    intro prev
    obtain ⟨hl, _, hrest⟩ := hwf
    obtain ⟨q, hq⟩ := scanFrom_blank_line (fun _ => ['\n', '\n']) l prev
      (List.replicate n '\n' ++ textOf rest) hl.2
    rw [textOf_cons, hq, ih hrest n q, collapseBlocks_cons, textOf_cons]

/-- A pass whose pattern matches nowhere in a text leaves the text as it is. -/
theorem scanFrom_id (r : Re) (f : List Char → List Char) (s : List Char) :
    (∀ prev a t, s = a ++ t → matchAt r prev t = none) →
    ∀ prev, scanFrom r f prev s = s := by
  induction s with
  | nil =>
    intro h prev
    exact scanFrom_nil _ _ _ (h prev [] [] rfl)
  | cons c cs ih =>
    intro h prev
    rw [scanFrom_cons r f prev c cs (h prev [] (c :: cs) rfl),
      ih (fun prev2 a t hs => h prev2 (c :: a) t (by rw [hs]; rfl))]

theorem hasFence_cons (c : Char) (cs : List Char) :
    hasFence (c :: cs) = (['`', '`', '`'].isPrefixOf (c :: cs) || hasFence cs) := rfl

theorem isPrefixOf_append_right (x a b : List Char) (h : x.isPrefixOf a = true) :
    x.isPrefixOf (a ++ b) = true := by
  rw [List.isPrefixOf_iff_prefix] at h ⊢
  exact h.trans (List.prefix_append a b)

/-- A part of a text without fence marker has no fence marker. -/
theorem hasFence_append (a b : List Char) (h : hasFence (a ++ b) = false) :
    hasFence a = false ∧ hasFence b = false := by
  induction a with
  | nil => exact ⟨rfl, h⟩
  | cons c cs ih =>
    rw [List.cons_append, hasFence_cons, Bool.or_eq_false_iff] at h
    obtain ⟨ih1, ih2⟩ := ih h.2
    refine ⟨?_, ih2⟩
    rw [hasFence_cons, Bool.or_eq_false_iff]
    refine ⟨?_, ih1⟩
    cases hp : ['`', '`', '`'].isPrefixOf (c :: cs)
    · rfl
    · have := isPrefixOf_append_right _ (c :: cs) b hp
      rw [List.cons_append, h.1] at this
      cases this

/-- A fence marker does not go over a line feed. -/
theorem hasFence_line_feed (a t : List Char) (ha : hasFence a = false)
    (ht : hasFence t = false) : hasFence (a ++ '\n' :: t) = false := by
  induction a with
  | nil =>
    rw [List.nil_append, hasFence_cons, ht]
    rfl
  | cons c cs ih =>
    rw [hasFence_cons, Bool.or_eq_false_iff] at ha
    rw [List.cons_append, hasFence_cons, ih ha.2, Bool.or_false]
    have h1 := ha.1
    cases cs with
    | nil =>
      simp only [List.nil_append, List.isPrefixOf, Bool.and_eq_false_imp] at h1 ⊢
      intro _ h2
      exact absurd h2 (by decide)
    | cons d ds =>
      cases ds with
      | nil =>
        simp only [List.cons_append, List.nil_append, List.isPrefixOf,
          Bool.and_eq_false_imp] at h1 ⊢
        intro _ _ h2
        exact absurd h2 (by decide)
      | cons e es => simpa [List.isPrefixOf] using h1

theorem hasFence_feeds (n : Nat) (t : List Char) (ht : hasFence t = false) :
    hasFence (List.replicate n '\n' ++ t) = false := by
  induction n with
  | zero => exact ht
  | succ j ih =>
    rw [List.replicate_succ, List.cons_append]
    exact hasFence_line_feed [] _ rfl ih

theorem not_fence_start (t : List Char) (h : hasFence t = false) :
    ['`', '`', '`'].isPrefixOf t = false := by
  cases t with
  | nil => rfl
  | cons c cs =>
    rw [hasFence_cons, Bool.or_eq_false_iff] at h
    exact h.1

/-- Three backquotes are not matched at a text that does not start with a fence marker. -/
theorem matchRe_fence_none (prev : Option Char) (s : List Char)
    (k : Option Char → List Char → Option (List Char))
    (h : ['`', '`', '`'].isPrefixOf s = false) :
    matchRe (Re.text ['`', '`', '`']) prev s k = none := by
  unfold Re.text Re.text Re.text Re.char
  rw [matchRe_seq]
  cases s with
  | nil => rfl
  | cons c cs =>
    rw [matchRe_set_cons]
    by_cases hc : (c == '`') = true
    · rw [if_pos hc, matchRe_seq]
      cases cs with
      | nil => rfl
      | cons d ds =>
        rw [matchRe_set_cons]
        by_cases hd : (d == '`') = true
        · rw [if_pos hd]
          cases ds with
          | nil => rfl
          | cons e es =>
            rw [matchRe_set_cons]
            by_cases he : (e == '`') = true
            · have hc2 : c = '`' := by simpa using hc
              have hd2 : d = '`' := by simpa using hd
              have he2 : e = '`' := by simpa using he
              subst hc2 hd2 he2
              simp [List.isPrefixOf] at h
            · rw [if_neg he]
        · rw [if_neg hd]
    · rw [if_neg hc]

/-- The pattern of an opening fence finds nothing at a text that does not start with a
fence marker. -/
theorem matchAt_fenceOpenPattern_none (prev : Option Char) (s : List Char)
    (h : ['`', '`', '`'].isPrefixOf s = false) : matchAt fenceOpenPattern prev s = none := by
  unfold matchAt fenceOpenPattern
  rw [matchRe_seq]
  exact matchRe_fence_none prev s _ h

/-- The pattern of a closing fence finds nothing at a text without fence marker. -/
theorem matchAt_fenceClosePattern_none (prev : Option Char) (s : List Char)
    (h : hasFence s = false) : matchAt fenceClosePattern prev s = none := by
  unfold matchAt fenceClosePattern
  rw [matchRe_seq]
  cases s with
  | nil => rfl
  | cons c cs =>
    unfold Re.char
    rw [matchRe_set_cons]
    by_cases hc : (c == '\n') = true
    · rw [if_pos hc, matchRe_seq]
      rw [hasFence_cons, Bool.or_eq_false_iff] at h
      exact matchRe_fence_none (some c) cs _ (not_fence_start cs h.2)
    · rw [if_neg hc]

/-- The fence passes leave a text without fence marker as it is. -/
theorem fence_passes_id (s : List Char) (h : hasFence s = false) :
    spaceFenceClose (spaceFenceOpen s) = s := by
  have hopen : spaceFenceOpen s = s := by
    unfold spaceFenceOpen
    rw [replaceAll_eq_scanFrom]
    apply scanFrom_id
    intro prev a t hs
    apply matchAt_fenceOpenPattern_none
    rw [hs] at h
    exact not_fence_start t (hasFence_append a t h).2
  rw [hopen]
  unfold spaceFenceClose
  rw [replaceAll_eq_scanFrom]
  apply scanFrom_id
  intro prev a t hs
  apply matchAt_fenceClosePattern_none
  rw [hs] at h
  exact (hasFence_append a t h).2

/-! ## The method `trim` on lines -/

theorem rdropWhile_append_all (p : Char → Bool) (a b : List Char)
    (h : ∀ c ∈ b, p c = true) : (a ++ b).rdropWhile p = a.rdropWhile p := by
  induction b using List.reverseRecOn with
  | nil => simp
  | append_singleton b x ih =>
    have hx : p x = true := h x (by simp)
    rw [← List.append_assoc, List.rdropWhile_concat_pos _ _ _ hx]
    exact ih fun c hc => h c (by simp [hc])

theorem rdropWhile_append_keep (p : Char → Bool) (a b : List Char)
    (h : b.rdropWhile p ≠ []) : (a ++ b).rdropWhile p = a ++ b.rdropWhile p := by
  induction b using List.reverseRecOn with
  | nil => simp at h
  | append_singleton b x ih =>
    by_cases hx : p x = true
    · rw [List.rdropWhile_concat_pos _ _ _ hx] at h ⊢
      rw [← List.append_assoc, List.rdropWhile_concat_pos _ _ _ hx]
      exact ih h
    · rw [List.rdropWhile_concat_neg _ _ _ hx, ← List.append_assoc,
        List.rdropWhile_concat_neg _ _ _ hx]

theorem rdropWhile_ne_nil_of_hasText (l : List Char) (h : hasText l = true) :
    l.rdropWhile isSpace ≠ [] := by
  intro hnil
  rw [List.rdropWhile_eq_nil_iff] at hnil
  have := (hasText_eq_false l).mpr hnil
  rw [h] at this
  cases this

theorem trimEndBlocks_cons (l : List Char) (n : Nat) (rest : Blocks) :
    trimEndBlocks ((l, n) :: rest) =
      match trimEndBlocks rest with
      | [] => if hasText l then [(l.rdropWhile isSpace, 0)] else []
      | b :: bs => (l, n) :: b :: bs := rfl

theorem textOf_trimEndBlocks_ne_nil (bs : Blocks) (hwf : WellFormed bs)
    (h : trimEndBlocks bs ≠ []) : textOf (trimEndBlocks bs) ≠ [] := by
  cases bs with
  | nil => exact absurd rfl h
  | cons b rest =>
    obtain ⟨l, n⟩ := b
    obtain ⟨hl, _, _⟩ := hwf
    rw [trimEndBlocks_cons] at h ⊢
    cases hr : trimEndBlocks rest with
    | nil =>
      rw [hr] at h
      simp only at h ⊢
      by_cases ht : hasText l = true
      · rw [if_pos ht]
        intro hnil
        apply rdropWhile_ne_nil_of_hasText l ht
        simpa [textOf] using hnil
      · rw [if_neg ht] at h
        exact absurd rfl h
    | cons x xs =>
      simp only
      intro hnil
      rw [textOf_cons] at hnil
      exact hl.1 (List.append_eq_nil.mp hnil).1

/-- The removal of the white space at the end of a well-formed text, on its lines. -/
theorem rdropWhile_textOf (bs : Blocks) (hwf : WellFormed bs) :
    (textOf bs).rdropWhile isSpace = textOf (trimEndBlocks bs) := by
  induction bs with
  | nil => rfl
  | cons b rest ih =>
    obtain ⟨l, n⟩ := b
    obtain ⟨hl, hn, hrest⟩ := hwf
    have ih2 := ih hrest
    have hfeeds : ∀ c ∈ List.replicate n '\n', isSpace c = true := by
      intro c hc
      rw [List.eq_of_mem_replicate hc]
      decide
    rw [trimEndBlocks_cons, textOf_cons]
    cases hr : trimEndBlocks rest with
    | nil =>
      rw [hr] at ih2
      have hall : ∀ c ∈ List.replicate n '\n' ++ textOf rest, isSpace c = true := by
        intro c hc
        rcases List.mem_append.mp hc with h | h
        · exact hfeeds c h
        · exact (List.rdropWhile_eq_nil_iff.mp ih2) c h
      rw [rdropWhile_append_all isSpace l _ hall]
      simp only
      by_cases ht : hasText l = true
      · rw [if_pos ht]
        simp [textOf]
      · rw [if_neg ht]
        have : hasText l = false := by simpa using ht
        rw [List.rdropWhile_eq_nil_iff.mpr ((hasText_eq_false l).mp this)]
        rfl
    | cons x xs =>
      have hne : (textOf rest).rdropWhile isSpace ≠ [] := by
        rw [ih2]
        exact textOf_trimEndBlocks_ne_nil rest hrest (by rw [hr]; simp)
      have h1 : (List.replicate n '\n' ++ textOf rest).rdropWhile isSpace =
          List.replicate n '\n' ++ (textOf rest).rdropWhile isSpace :=
        rdropWhile_append_keep isSpace _ _ hne
      have hne2 : (List.replicate n '\n' ++ textOf rest).rdropWhile isSpace ≠ [] := by
        rw [h1]
        intro h
        exact hne (List.append_eq_nil.mp h).2
      rw [rdropWhile_append_keep isSpace l _ hne2, h1, ih2, hr]
      rfl

/-! ## `enhanceResponseFormatting` on lines -/

theorem map_fst_addFeeds (bs : Blocks) : ∀ ds, (addFeeds bs ds).map Prod.fst =
    bs.map Prod.fst := by
  induction bs with
  | nil => intro ds; cases ds <;> rfl
  | cons b rest ih =>
    obtain ⟨l, n⟩ := b
    intro ds
    cases ds with
    | nil => rfl
    | cons d ds => rw [addFeeds_cons, List.map_cons, ih, List.map_cons]

theorem map_fst_collapseBlocks (bs : Blocks) :
    (collapseBlocks bs).map Prod.fst = bs.map Prod.fst := by
  simp [collapseBlocks, Function.comp_def]

theorem addFeeds_eq_nil (bs : Blocks) (ds : List Nat) : addFeeds bs ds = [] ↔ bs = [] := by
  cases bs with
  | nil => cases ds <;> simp [addFeeds]
  | cons b rest =>
    obtain ⟨l, n⟩ := b
    cases ds <;> simp [addFeeds]

theorem wellFormed_addFeeds (bs : Blocks) : ∀ ds, WellFormed bs →
    WellFormed (addFeeds bs ds) := by
  induction bs with
  | nil => intro ds _; cases ds <;> exact trivial
  | cons b rest ih =>
    obtain ⟨l, n⟩ := b
    intro ds hwf
    cases ds with
    | nil => exact hwf
    | cons d ds =>
      obtain ⟨hl, hn, hrest⟩ := hwf
      rw [addFeeds_cons]
      refine ⟨hl, ?_, ih ds hrest⟩
      rcases hn with h | h
      · left; omega
      · right; rw [addFeeds_eq_nil]; exact h

theorem one_le_capFeeds (n : Nat) (h : 1 ≤ n) : 1 ≤ capFeeds n := by
  unfold capFeeds
  split <;> omega

theorem wellFormed_collapseBlocks (bs : Blocks) (hwf : WellFormed bs) :
    WellFormed (collapseBlocks bs) := by
  induction bs with
  | nil => exact trivial
  | cons b rest ih =>
    obtain ⟨l, n⟩ := b
    obtain ⟨hl, hn, hrest⟩ := hwf
    rw [collapseBlocks_cons]
    refine ⟨hl, ?_, ih hrest⟩
    rcases hn with h | h
    · left; exact one_le_capFeeds n h
    · right; subst h; rfl

theorem enhanceFrom_cons (sh sb : Bool) (l : List Char) (n : Nat) (rest : Blocks) :
    enhanceFrom sh sb ((l, n) :: rest) =
      match enhanceFrom (feedStep headingKind sh l rest.isEmpty).2
          (feedStep bulletKind sb l rest.isEmpty).2 rest with
      | [] => if hasText l then [(l.rdropWhile isSpace, 0)] else []
      | x :: xs =>
        (l, capFeeds (n + (feedStep headingKind sh l rest.isEmpty).1 +
          (feedStep bulletKind sb l rest.isEmpty).1)) :: x :: xs := rfl

/-- The passes one after the other are the single pass over the lines. -/
theorem passes_eq_enhanceFrom (bs : Blocks) : ∀ (sh sb : Bool),
    trimEndBlocks (collapseBlocks (addFeeds
      (addFeeds bs (addedFeeds headingKind sh (bs.map Prod.fst)))
      (addedFeeds bulletKind sb (bs.map Prod.fst)))) = enhanceFrom sh sb bs := by
  induction bs with
  | nil => intro sh sb; rfl
  | cons b rest ih =>
    obtain ⟨l, n⟩ := b
    intro sh sb
    rw [List.map_cons, addedFeeds_cons, addedFeeds_cons, addFeeds_cons, addFeeds_cons,
      collapseBlocks_cons, trimEndBlocks_cons, isEmpty_map_fst, ih, enhanceFrom_cons]

theorem enhanceBlocks_eq (bs : Blocks) : enhanceBlocks bs = enhanceFrom false false bs := by
  unfold enhanceBlocks bulletBlocks headingBlocks
  rw [map_fst_addFeeds]
  exact passes_eq_enhanceFrom bs false false

theorem capFeeds_capFeeds (n d : Nat) (h : 1 ≤ n) :
    capFeeds (capFeeds (n + d) + d) = capFeeds (n + d) := by
  unfold capFeeds
  split <;> split <;> omega

theorem hasText_rdropWhile (l : List Char) (h : hasText l = true) :
    hasText (l.rdropWhile isSpace) = true := by
  by_contra hc
  have hf : hasText (l.rdropWhile isSpace) = false := by simpa using hc
  have hall := (hasText_eq_false _).mp hf
  have hnil : (l.rdropWhile isSpace).rdropWhile isSpace = [] :=
    List.rdropWhile_eq_nil_iff.mpr hall
  rw [List.rdropWhile_idempotent] at hnil
  exact rdropWhile_ne_nil_of_hasText l h hnil

theorem enhanceFrom_eq_nil_of_nil (sh sb : Bool) : enhanceFrom sh sb [] = [] := rfl

/-- On lines, a second application changes nothing. -/
theorem enhanceFrom_idempotent (bs : Blocks) : ∀ (sh sb : Bool), WellFormed bs →
    enhanceFrom sh sb (enhanceFrom sh sb bs) = enhanceFrom sh sb bs := by
  induction bs with
  | nil => intro sh sb _; rfl
  | cons b rest ih =>
    obtain ⟨l, n⟩ := b
    intro sh sb hwf
    obtain ⟨hl, hn, hrest⟩ := hwf
    rw [enhanceFrom_cons]
    cases hr : enhanceFrom (feedStep headingKind sh l rest.isEmpty).2
        (feedStep bulletKind sb l rest.isEmpty).2 rest with
    | nil =>
      simp only
      by_cases ht : hasText l = true
      · rw [if_pos ht, enhanceFrom_cons]
        simp only [enhanceFrom_eq_nil_of_nil, hasText_rdropWhile l ht, if_true,
          List.rdropWhile_idempotent]
      · rw [if_neg ht]
        rfl
    | cons x xs =>
      simp only
      have hne : rest ≠ [] := by
        intro h
        subst h
        simp [enhanceFrom] at hr
      have he : rest.isEmpty = false := by
        cases rest with
        | nil => exact absurd rfl hne
        | cons _ _ => rfl
      have hn1 : 1 ≤ n := by
        rcases hn with h | h
        · exact h
        · exact absurd h hne
      rw [he] at hr ⊢
      have hrec := ih (feedStep headingKind sh l false).2 (feedStep bulletKind sb l false).2
        hrest
      rw [hr] at hrec
      rw [enhanceFrom_cons]
      have he2 : (x :: xs).isEmpty = false := rfl
      rw [he2, hrec]
      simp only
      rw [Nat.add_assoc, Nat.add_assoc, capFeeds_capFeeds n _ hn1]

/-! ## `enhanceResponseFormatting` on a text without code fence -/

theorem mem_textOf (bs : Blocks) (c : Char) (h : c ∈ textOf bs) :
    c = '\n' ∨ ∃ l ∈ bs.map Prod.fst, c ∈ l := by
  induction bs with
  | nil => simp [textOf] at h
  | cons b rest ih =>
    obtain ⟨l, n⟩ := b
    rw [textOf_cons] at h
    rcases List.mem_append.mp h with h1 | h1
    · right; exact ⟨l, by simp, h1⟩
    · rcases List.mem_append.mp h1 with h2 | h2
      · left; exact List.eq_of_mem_replicate h2
      · rcases ih h2 with h3 | ⟨l2, hl2, hc⟩
        · left; exact h3
        · right; exact ⟨l2, by simp only [List.map_cons]; exact List.mem_cons_of_mem _ hl2, hc⟩

theorem mem_textOf_of_mem_line (bs : Blocks) (l : List Char) (c : Char)
    (hl : l ∈ bs.map Prod.fst) (hc : c ∈ l) : c ∈ textOf bs := by
  induction bs with
  | nil => simp at hl
  | cons b rest ih =>
    obtain ⟨l1, n⟩ := b
    rw [textOf_cons]
    simp only [List.map_cons, List.mem_cons] at hl
    rcases hl with h | h
    · subst h; exact List.mem_append_left _ hc
    · exact List.mem_append_right _ (List.mem_append_right _ (ih h))

theorem dropWhile_textOf (bs : Blocks) (h : StartsWithText bs) :
    (textOf bs).dropWhile isSpace = textOf bs := by
  cases bs with
  | nil => rfl
  | cons b rest =>
    obtain ⟨l, n⟩ := b
    obtain ⟨c, cs, hl, hc⟩ := h l rfl
    subst hl
    rw [textOf_cons, List.cons_append, List.dropWhile_cons, if_neg (by simp [hc])]

/-- A text whose lines have no fence marker has no fence marker. -/
theorem hasFence_textOf (bs : Blocks) (hwf : WellFormed bs) (h : NoFence bs) :
    hasFence (textOf bs) = false := by
  induction bs with
  | nil => rfl
  | cons b rest ih =>
    obtain ⟨l, n⟩ := b
    obtain ⟨_, hn, hrest⟩ := hwf
    have hl : hasFence l = false := h l (by simp)
    have hfr : hasFence (textOf rest) = false :=
      ih hrest fun l2 hl2 =>
        h l2 (by simp only [List.map_cons]; exact List.mem_cons_of_mem _ hl2)
    rw [textOf_cons]
    cases n with
    | zero =>
      rcases hn with hn | hn
      · omega
      · subst hn
        simpa [textOf] using hl
    | succ j =>
      rw [List.replicate_succ, List.cons_append]
      exact hasFence_line_feed l _ hl (hasFence_feeds j _ hfr)

/-- The lines of a text without fence marker have no fence marker. -/
theorem noFence_of_textOf (bs : Blocks) (h : hasFence (textOf bs) = false) : NoFence bs := by
  induction bs with
  | nil => intro l hl; simp at hl
  | cons b rest ih =>
    obtain ⟨l, n⟩ := b
    rw [textOf_cons] at h
    obtain ⟨h1, h2⟩ := hasFence_append _ _ h
    obtain ⟨_, h3⟩ := hasFence_append _ _ h2
    intro l2 hl2
    simp only [List.map_cons, List.mem_cons] at hl2
    rcases hl2 with h4 | h4
    · rw [h4]; exact h1
    · exact ih h3 l2 h4

/-- On a well-formed text without fence marker that starts with text,
`enhanceResponseFormatting` is the pass over the lines. -/
theorem enhanceText_textOf (bs : Blocks) (hwf : WellFormed bs) (htick : NoFence bs)
    (hhead : StartsWithText bs) : enhanceText (textOf bs) = textOf (enhanceBlocks bs) := by
  have h1 : spaceHeadings (textOf bs) = textOf (headingBlocks bs) := by
    unfold spaceHeadings
    rw [replaceAll_eq_scanFrom]
    exact scanFrom_heading bs.length bs (Nat.le_refl _) hwf none rfl
  have hwf1 : WellFormed (headingBlocks bs) := wellFormed_addFeeds bs _ hwf
  have h2 : spaceBullets (textOf (headingBlocks bs)) =
      textOf (bulletBlocks (headingBlocks bs)) := by
    unfold spaceBullets
    rw [replaceAll_eq_scanFrom]
    exact scanFrom_bullet _ _ (Nat.le_refl _) hwf1 0 none (Or.inl rfl)
  have hwf2 : WellFormed (bulletBlocks (headingBlocks bs)) := wellFormed_addFeeds _ _ hwf1
  have h3 : collapseBlankLines (textOf (bulletBlocks (headingBlocks bs))) =
      textOf (collapseBlocks (bulletBlocks (headingBlocks bs))) := by
    unfold collapseBlankLines
    rw [replaceAll_eq_scanFrom]
    exact scanFrom_collapse _ hwf2 0 none
  have hwf3 : WellFormed (collapseBlocks (bulletBlocks (headingBlocks bs))) :=
    wellFormed_collapseBlocks _ hwf2
  have hlines : (collapseBlocks (bulletBlocks (headingBlocks bs))).map Prod.fst =
      bs.map Prod.fst := by
    rw [map_fst_collapseBlocks]
    unfold bulletBlocks
    rw [map_fst_addFeeds]
    unfold headingBlocks
    rw [map_fst_addFeeds]
  have h4 : hasFence (textOf (collapseBlocks (bulletBlocks (headingBlocks bs)))) = false := by
    apply hasFence_textOf _ hwf3
    intro l hl
    rw [hlines] at hl
    exact htick l hl
  have h5 : StartsWithText (collapseBlocks (bulletBlocks (headingBlocks bs))) := by
    intro l hl
    rw [hlines] at hl
    exact hhead l hl
  unfold enhanceText
  rw [h1, h2, h3, fence_passes_id _ h4, trim_eq_rdropWhile, dropWhile_textOf _ h5,
    rdropWhile_textOf _ hwf3]
  rfl

theorem rdropWhile_cons_text (c : Char) (cs : List Char) (hc : isSpace c = false) :
    ∃ t, (c :: cs).rdropWhile isSpace = c :: t := by
  by_cases h : cs.rdropWhile isSpace = []
  · refine ⟨[], ?_⟩
    have hall := List.rdropWhile_eq_nil_iff.mp h
    have := rdropWhile_append_all isSpace [c] cs hall
    rw [List.singleton_append] at this
    rw [this]
    have h1 : ([c] : List Char) = [] ++ [c] := rfl
    rw [h1, List.rdropWhile_concat_neg _ _ _ (by simp [hc])]
  · refine ⟨cs.rdropWhile isSpace, ?_⟩
    have := rdropWhile_append_keep isSpace [c] cs h
    rw [List.singleton_append] at this
    rw [this]
    rfl

/-- The lines of the result are lines of the text, the last one without the white space at
its end; the result is well formed. -/
theorem enhanceFrom_lines (bs : Blocks) : ∀ (sh sb : Bool), WellFormed bs →
    WellFormed (enhanceFrom sh sb bs) ∧
    (∀ l2 ∈ (enhanceFrom sh sb bs).map Prod.fst, ∃ l ∈ bs.map Prod.fst, l2 <+: l) ∧
    (∀ l2, ((enhanceFrom sh sb bs).map Prod.fst).head? = some l2 →
      ∃ l, (bs.map Prod.fst).head? = some l ∧
        (l2 = l ∨ l2 = l.rdropWhile isSpace)) := by
  induction bs with
  | nil =>
    intro sh sb _
    exact ⟨trivial, by simp [enhanceFrom], by simp [enhanceFrom]⟩
  | cons b rest ih =>
    obtain ⟨l, n⟩ := b
    intro sh sb hwf
    obtain ⟨hl, hn, hrest⟩ := hwf
    rw [enhanceFrom_cons]
    obtain ⟨ih1, ih2, _⟩ := ih (feedStep headingKind sh l rest.isEmpty).2
      (feedStep bulletKind sb l rest.isEmpty).2 hrest
    cases hr : enhanceFrom (feedStep headingKind sh l rest.isEmpty).2
        (feedStep bulletKind sb l rest.isEmpty).2 rest with
    | nil =>
      simp only
      by_cases ht : hasText l = true
      · rw [if_pos ht]
        have hsub : ∀ c ∈ l.rdropWhile isSpace, c ∈ l :=
          fun c hc => (List.rdropWhile_prefix isSpace l).subset hc
        refine ⟨⟨⟨rdropWhile_ne_nil_of_hasText l ht, fun c hc => hl.2 c (hsub c hc)⟩,
          Or.inr rfl, trivial⟩, ?_, ?_⟩
        · intro l2 hl2
          simp only [List.map_cons, List.map_nil, List.mem_singleton] at hl2
          subst hl2
          exact ⟨l, by simp, List.rdropWhile_prefix isSpace l⟩
        · intro l2 hl2
          simp only [List.map_cons, List.head?_cons, Option.some.injEq] at hl2
          exact ⟨l, by simp, Or.inr hl2.symm⟩
      · rw [if_neg ht]
        exact ⟨trivial, by simp, by simp⟩
    | cons x xs =>
      simp only
      rw [hr] at ih1 ih2
      have hne : rest ≠ [] := by
        intro h
        subst h
        simp [enhanceFrom] at hr
      have hn1 : 1 ≤ n := by
        rcases hn with h | h
        · exact h
        · exact absurd h hne
      refine ⟨⟨hl, Or.inl (one_le_capFeeds _ (by omega)), ih1⟩, ?_, ?_⟩
      · intro l2 hl2
        simp only [List.map_cons, List.mem_cons] at hl2
        rcases hl2 with h | h
        · subst h; exact ⟨l2, by simp, List.prefix_refl _⟩
        · obtain ⟨l3, hl3, hsub⟩ := ih2 l2 (by simp only [List.map_cons, List.mem_cons]; exact h)
          exact ⟨l3, by simp only [List.map_cons]; exact List.mem_cons_of_mem _ hl3, hsub⟩
      · intro l2 hl2
        simp only [List.map_cons, List.head?_cons, Option.some.injEq] at hl2
        exact ⟨l, by simp, Or.inl hl2.symm⟩

/-- A text whose only line terminator is the line feed is line feeds followed by a
well-formed text. -/
theorem exists_blocks (s : List Char)
    (hlf : ∀ c ∈ s, isLineTerminator c = true → c = '\n') :
    ∃ m bs, WellFormed bs ∧ s = List.replicate m '\n' ++ textOf bs := by
  induction s with
  | nil => exact ⟨0, [], trivial, rfl⟩
  | cons c cs ih =>
    obtain ⟨m, bs, hwf, hs⟩ := ih fun d hd => hlf d (List.mem_cons_of_mem _ hd)
    by_cases hc : c = '\n'
    · subst hc
      exact ⟨m + 1, bs, hwf, by rw [hs, List.replicate_succ]; rfl⟩
    · have hlt : isLineTerminator c = false := by
        cases h : isLineTerminator c
        · rfl
        · exact absurd (hlf c (List.mem_cons_self _ _) h) hc
      cases m with
      | zero =>
        cases bs with
        | nil =>
          refine ⟨0, [([c], 0)], ⟨⟨by simp, by simpa using hlt⟩, Or.inr rfl, trivial⟩, ?_⟩
          rw [hs]
          rfl
        | cons b rest =>
          obtain ⟨l, n⟩ := b
          obtain ⟨hl, hn, hrest⟩ := hwf
          refine ⟨0, (c :: l, n) :: rest, ⟨⟨by simp, ?_⟩, hn, hrest⟩, ?_⟩
          · intro d hd
            rcases List.mem_cons.mp hd with h | h
            · rw [h]; exact hlt
            · exact hl.2 d h
          · rw [hs]
            rfl
      | succ j =>
        refine ⟨0, ([c], j + 1) :: bs, ⟨⟨by simp, by simpa using hlt⟩, Or.inl (by omega),
          hwf⟩, ?_⟩
        rw [hs]
        rfl

/-- A second application of the formatting to a text changes nothing when the text has no
fence marker, has no line terminator other than the line feed, and does not start with white
space. -/
theorem enhanceText_idempotent (s : List Char)
    (htick : hasFence s = false)
    (hlf : ∀ c ∈ s, isLineTerminator c = true → c = '\n')
    (hhead : ∀ c ∈ s.head?, isSpace c = false) :
    enhanceText (enhanceText s) = enhanceText s := by
  obtain ⟨m, bs, hwf, hs⟩ := exists_blocks s hlf
  have hm : m = 0 := by
    cases m with
    | zero => rfl
    | succ j =>
      have : isSpace '\n' = false := hhead '\n' (by rw [hs]; rfl)
      exact absurd this (by decide)
  subst hm
  have hs2 : s = textOf bs := by rw [hs]; rfl
  subst hs2
  have hnb : NoFence bs := noFence_of_textOf bs htick
  have hst : StartsWithText bs := by
    intro l hl
    cases bs with
    | nil => simp at hl
    | cons b rest =>
      obtain ⟨l1, n⟩ := b
      simp only [List.map_cons, List.head?_cons, Option.some.injEq] at hl
      subst hl
      obtain ⟨hl1, _, _⟩ := hwf
      cases l1 with
      | nil => exact absurd rfl hl1.1
      | cons c cs => exact ⟨c, cs, rfl, hhead c rfl⟩
  obtain ⟨hwf2, hsub, hfirst⟩ := enhanceFrom_lines bs false false hwf
  have hnb2 : NoFence (enhanceFrom false false bs) := by
    intro l2 hl2
    obtain ⟨l, hl, t, ht⟩ := hsub l2 hl2
    have := hnb l hl
    rw [← ht] at this
    exact (hasFence_append l2 t this).1
  have hst2 : StartsWithText (enhanceFrom false false bs) := by
    intro l2 hl2
    obtain ⟨l, hl, hor⟩ := hfirst l2 hl2
    obtain ⟨c, cs, hlc, hc⟩ := hst l hl
    rcases hor with h | h
    · exact ⟨c, cs, by rw [h, hlc], hc⟩
    · obtain ⟨t, ht⟩ := rdropWhile_cons_text c cs hc
      exact ⟨c, t, by rw [h, hlc, ht], hc⟩
  rw [enhanceText_textOf bs hwf hnb hst, enhanceBlocks_eq,
    enhanceText_textOf _ hwf2 hnb2 hst2, enhanceBlocks_eq,
    enhanceFrom_idempotent bs false false hwf]

/-- C29, amended: a second application of `enhanceResponseFormatting` changes nothing for
every text that has no code fence marker (three consecutive backquotes), has no line
terminator other than the line feed, and does not start with white space. -/
theorem enhanceResponseFormatting_idempotent_without_fence (s : List Char)
    (hfence : hasFence s = false)
    (hlf : ∀ c ∈ s, isLineTerminator c = true → c = '\n')
    (hhead : ∀ c ∈ s.head?, isSpace c = false) :
    enhanceText (enhanceText s) = enhanceText s ∧
    (enhanceResponseFormatting (.str (String.mk s)) >>= enhanceResponseFormatting) =
      enhanceResponseFormatting (.str (String.mk s)) := by
  have key := enhanceText_idempotent s hfence hlf hhead
  refine ⟨key, ?_⟩
  show enhanceResponseFormatting (.str (String.mk (enhanceText s))) = _
  show Except.ok (JsVal.str (String.mk (enhanceText (enhanceText s)))) = _
  rw [key]
  rfl

/-- C29, amended, at a concrete input: a heading, a paragraph with inline code and two
bullets. The first application puts a blank line after the heading and after the first
bullet, and the second application changes nothing. -/
theorem enhanceResponseFormatting_idempotent_without_fence_witness :
    hasFence sampleMarkdown = false ∧
    (∀ c ∈ sampleMarkdown, isLineTerminator c = true → c = '\n') ∧
    (∀ c ∈ sampleMarkdown.head?, isSpace c = false) ∧
    enhanceText sampleMarkdown = "# Title\n\nuse `x`\n- a\n\n- b".data ∧
    enhanceText (enhanceText sampleMarkdown) = enhanceText sampleMarkdown :=
  ⟨by decide, by decide, by decide, rfl,
    (enhanceResponseFormatting_idempotent_without_fence sampleMarkdown (by decide)
      (by decide) (by decide)).1⟩

/-- A second application can change a text that starts with white space or that has a
carriage return: a heading after leading white space gets its blank line only at the second
application, when the white space has been trimmed; and a heading followed by a carriage
return gets one more line feed at each of the first two applications. -/
theorem enhanceText_not_idempotent_elsewhere :
    (enhanceText " # a\nb".data = "# a\nb".data ∧
      enhanceText "# a\nb".data = "# a\n\nb".data) ∧
    (enhanceText "# T\r\nb".data = "# T\n\r\nb".data ∧
      enhanceText "# T\n\r\nb".data = "# T\n\n\r\nb".data) :=
  ⟨⟨rfl, rfl⟩, rfl, rfl⟩

/-! ## The request and the protocol errors of `callPerplexity` -/

theorem callPerplexity_of_key (toStr : JsVal → String) (env : ProcessEnv)
    (post : AxiosTransport) (p : PerplexityParams)
    (hkey : strTruthy (optOr p.apiKeyOverride env.PERPLEXITY_API_KEY) = true) :
    callPerplexity toStr env post p =
      ([perplexityRequest env p (template (optOr p.apiKeyOverride env.PERPLEXITY_API_KEY))],
        match post (perplexityRequest env p
            (template (optOr p.apiKeyOverride env.PERPLEXITY_API_KEY))) with
        | .error e => .error (perplexityCatch toStr e.caught)
        | .ok data =>
          match perplexityContent enhanceResponseFormatting data with
          | .ok content => .ok content
          | .error t => .error (perplexityCatch toStr t.caught)) := by
  unfold callPerplexity callPerplexityWith
  dsimp only
  rw [if_pos hkey]

/-- The user message holds the query verbatim, whatever the mode. -/
theorem formatQueryForMode_contains (query mode : String) :
    ∃ before after, formatQueryForMode query mode = before ++ query ++ after := by
  unfold formatQueryForMode
  split
  · exact ⟨_, _, rfl⟩
  · split
    · exact ⟨_, _, rfl⟩
    · split
      · exact ⟨_, _, rfl⟩
      · exact ⟨"", _, rfl⟩

/-- For a mode that is not a name inherited from `Object.prototype`, `callPerplexity`
sends a system message with the prompt of the mode, or of `search` for an unlisted mode,
followed by a user message with the query in the template of the mode. -/
theorem perplexityRequest_messages (env : ProcessEnv) (p : PerplexityParams)
    (apiKey : String) (h : p.mode.getD "search" ∉ objectPrototypeKeys) :
    sentMessages (perplexityRequest env p apiKey) =
      .arr [.obj [("role", .str "system"),
                  ("content", .str (systemPromptFor (p.mode.getD "search")))],
            .obj [("role", .str "user"),
                  ("content", .str (formatQueryForMode p.query (p.mode.getD "search")))]] := by
  have hsys : systemMessage (p.mode.getD "search") =
      .obj [("role", .str "system"),
            ("content", .str (systemPromptFor (p.mode.getD "search")))] := by
    unfold systemMessage systemPromptFor
    cases hl : systemPrompts.lookup (p.mode.getD "search") with
    | some prompt => rfl
    | none =>
      have hproto : p.mode.getD "search" ≠ "__proto__" := by
        intro hp
        apply h
        rw [hp]
        decide
      simp [hproto, h]
  simp only [sentMessages, perplexityRequest, optProp, getProp, List.lookup, hsys]
  rfl

/-- C22, at the failing input: the mode is `constructor`, which is none of `search`,
`code`, `research`, `explanation`. The user message is the query in the template of
`search`, but the system message sent has no prompt at all: `systemPrompts["constructor"]`
is the function inherited from `Object.prototype`, a truthy value that replaces the prompt
of `search` and is left out of the JSON. -/
theorem callPerplexity_constructor_mode_without_prompt :
    (callPerplexity sampleToStr processEnvNone axiosAllUp
        { samplePerplexityParams with mode := some "constructor" }).1.map sentMessages =
      [.arr [.obj [("role", .str "system")],
             .obj [("role", .str "user"),
                   ("content", .str
                     "what is a monad. Please provide a well-structured, comprehensive answer.")]]] ∧
    systemPromptFor "constructor" = systemPromptFor "search" ∧
    optProp (systemMessage "constructor") "content" = .undefined ∧
    optProp (systemMessage "search") "content" = .str (systemPromptFor "search") :=
  ⟨rfl, rfl, rfl, rfl⟩

/-- When the response of Perplexity resolves and the reading of it throws, the error goes
through the `catch` block of the call and comes out as a network error carrying the
message of what was thrown. -/
theorem callPerplexity_after_response_error (toStr : JsVal → String) (env : ProcessEnv)
    (post : AxiosTransport) (p : PerplexityParams) (data : JsVal) (t : Thrown)
    (hkey : strTruthy (optOr p.apiKeyOverride env.PERPLEXITY_API_KEY) = true)
    (hpost : post (perplexityRequest env p
      (template (optOr p.apiKeyOverride env.PERPLEXITY_API_KEY))) = .ok data)
    (hread : perplexityContent enhanceResponseFormatting data = .error t) :
    (callPerplexity toStr env post p).2 =
      .error (.error ("Network error connecting to Perplexity: " ++ t.message)) ∧
    classOfMessage ("Network error connecting to Perplexity: " ++ t.message) =
      some .network := by
  constructor
  · rw [callPerplexity_of_key toStr env post p hkey]
    dsimp only
    rw [hpost]
    dsimp only
    rw [hread]
    rfl
  · unfold classOfMessage
    rw [startsWith_append _ _ _ (by decide), startsWith_append _ _ _ (by decide),
      startsWith_self_append]
    rfl

/-- C25, at the failing input: Perplexity answers with status 200 and data without
`choices`. The `Error` with the message `Invalid response format from Perplexity API` is
thrown inside the `try` block, caught by the `catch` block of the same `try`, and what
`callPerplexity` fails with is a network error. The same happens when the first choice has
no message and when the message has no content. -/
theorem callPerplexity_invalid_response_is_network_error :
    (callPerplexity sampleToStr processEnvNone (fun _ => .ok (.obj []))
        samplePerplexityParams).2 =
      .error (.error ("Network error connecting to Perplexity: " ++
        "Invalid response format from Perplexity API")) ∧
    classOfMessage ("Network error connecting to Perplexity: " ++
        "Invalid response format from Perplexity API") = some .network ∧
    (callPerplexity sampleToStr processEnvNone (fun _ => .ok choiceWithoutMessage)
        samplePerplexityParams).2 =
      .error (.error ("Network error connecting to Perplexity: " ++
        cannotRead "undefined" "content")) ∧
    (callPerplexity sampleToStr processEnvNone (fun _ => .ok messageWithoutContent)
        samplePerplexityParams).2 =
      .error (.error ("Network error connecting to Perplexity: " ++
        cannotRead "undefined" "replace")) :=
  ⟨rfl, rfl, rfl, rfl⟩

/-! ## Cache hits of the cached routes -/

/-- A read of a key just written returns the written value while the entry is live. -/
theorem get_after_set (store : CacheStore) (key : String) (value : JsVal) (ttl t0 t : Nat)
    (h : t < t0 + ttl * 1000) :
    (NodeCache.get (NodeCache.set store key value ttl t0) key t).1 = value := by
  have hlive : (⟨key, value, t0, ttl⟩ : CacheEntry).live t = true := by
    simp only [CacheEntry.live, decide_eq_true_eq]
    exact h
  simp [NodeCache.get, NodeCache.set, List.find?, hlive]

/-- C30, at the failing input. A validation with the valid key succeeds and fills the
cache. A later request brings another key, which has the same first ten characters and so
the same cache key, which the provider rejects, and which the same route answers with
status 401 when nothing is cached: it is answered `ok` from the cache. A research request
about monads in Haskell fills the cache; a later request about monads in category theory,
whose sanitized query has the same first fifteen bytes and so the same cache key, gets the
answer about Haskell from the cache, not the answer that the same route gives for it when
nothing is cached. -/
theorem cache_hit_for_another_input :
    (validKey ≠ wrongKey ∧
      validateCacheKey (some wrongKey) = validateCacheKey (some validKey) ∧
      failed (callOpenAIChat processEnvNone postOnlyValidKey
        (validateKeysParams (some wrongKey))).2 = true ∧
      (validateKeysRoute processEnvNone postOnlyValidKey [] 3000 4000
        (some wrongKey)).1.status = 401 ∧
      (validateKeysRoute processEnvNone postOnlyValidKey storeAfterValidKey 3000 4000
        (some wrongKey)).1.status = 200 ∧
      getProp (validateKeysRoute processEnvNone postOnlyValidKey storeAfterValidKey 3000 4000
        (some wrongKey)).1.body "ok" = .ok (.bool true) ∧
      getProp (validateKeysRoute processEnvNone postOnlyValidKey storeAfterValidKey 3000 4000
        (some wrongKey)).1.body "cached" = .ok (.bool true)) ∧
    (sanitizeInput "what is a monad in haskell" ≠
        sanitizeInput "what is a monad in category theory" ∧
      researchCacheKey toBase64 (sanitizeInput "what is a monad in category theory") =
        researchCacheKey toBase64 (sanitizeInput "what is a monad in haskell") ∧
      getProp (research sampleToStr processEnvNone postByQuery storeAfterHaskell 3000 4000
        "what is a monad in category theory" (some "pplx-test")).1.body "cached" =
        .ok (.bool true) ∧
      getProp (research sampleToStr processEnvNone postByQuery storeAfterHaskell 3000 4000
        "what is a monad in category theory" (some "pplx-test")).1.body "resp" =
        .ok (.str "In Haskell a monad is a type class.") ∧
      getProp (research sampleToStr processEnvNone postByQuery [] 3000 4000
        "what is a monad in category theory" (some "pplx-test")).1.body "resp" =
        .ok (.str "A monad is a monoid in a category of endofunctors.")) :=
  ⟨⟨by decide, rfl, rfl, rfl, rfl, rfl, rfl⟩, by decide, rfl, rfl, rfl, rfl⟩

theorem validateKeysRoute_cached_iff (env : ProcessEnv) (post : AxiosTransport)
    (store : CacheStore) (started finished : Nat) (k : Option String) :
    getProp (validateKeysRoute env post store started finished k).1.body "cached" =
        .ok (.bool true) ↔
      (NodeCache.get store (validateCacheKey k) started).1.truthy = true := by
  unfold validateKeysRoute
  dsimp only
  by_cases hread : (NodeCache.get store (validateCacheKey k) started).1.truthy = true
  · rw [if_pos hread]
    exact ⟨fun _ => hread, fun _ => rfl⟩
  · rw [if_neg hread]
    constructor
    · intro h
      cases hcall : (callOpenAIChat env post (validateKeysParams k)).2 with
      | ok v => rw [hcall] at h; cases h
      | error e => rw [hcall] at h; cases h
    · intro h
      exact absurd h hread

/-- The route `/research` answers from the cache exactly when a Perplexity key is available
and the read of its cache key returns a truthy value, and then it returns that value. -/
theorem researchRoute_cached_iff (format : JsVal → Except Thrown JsVal)
    (toStr : JsVal → String) (sanitize encode : String → String) (env : ProcessEnv)
    (post : AxiosTransport) (store : CacheStore) (started finished : Nat) (query : String)
    (perplexityKey : Option String) :
    (getProp (researchRoute format toStr sanitize encode env post store started finished
        query perplexityKey).1.body "cached" = .ok (.bool true) ↔
      (strTruthy (optOr perplexityKey env.PERPLEXITY_API_KEY) = true ∧
        (NodeCache.get store (researchCacheKey encode (sanitize query)) started).1.truthy =
          true)) ∧
    (getProp (researchRoute format toStr sanitize encode env post store started finished
        query perplexityKey).1.body "cached" = .ok (.bool true) →
      getProp (researchRoute format toStr sanitize encode env post store started finished
        query perplexityKey).1.body "resp" =
        .ok (NodeCache.get store (researchCacheKey encode (sanitize query)) started).1) := by
  unfold researchRoute
  dsimp only
  by_cases hkey : strTruthy (optOr perplexityKey env.PERPLEXITY_API_KEY) = true
  · rw [if_pos hkey]
    by_cases hread :
        (NodeCache.get store (researchCacheKey encode (sanitize query)) started).1.truthy = true
    · rw [if_pos hread]
      exact ⟨⟨fun _ => ⟨hkey, hread⟩, fun _ => rfl⟩, fun _ => rfl⟩
    · rw [if_neg hread]
      have hno : getProp (match (callPerplexityForResearch format toStr env post
            (sanitize query) perplexityKey none).2 with
          | .ok resp =>
            (({ status := 200
                body := .obj [("ok", .bool true), ("resp", resp),
                  ("provider", .str "perplexity"),
                  ("note", .str "Research powered by enhanced Perplexity AI")] } :
              RouteResponse),
              NodeCache.set
                (NodeCache.get store (researchCacheKey encode (sanitize query)) started).2
                (researchCacheKey encode (sanitize query)) resp 1800 finished)
          | .error perplexityError =>
            (researchFailureResponse perplexityError,
              (NodeCache.get store (researchCacheKey encode (sanitize query))
                started).2)).1.body "cached" ≠ .ok (.bool true) := by
        cases hcall : (callPerplexityForResearch format toStr env post (sanitize query)
            perplexityKey none).2 with
        | ok v => intro h; cases h
        | error e =>
          dsimp only
          unfold researchFailureResponse
          dsimp only
          split <;> (intro h; cases h)
      exact ⟨⟨fun h => absurd h hno, fun h => absurd h.2 hread⟩, fun h => absurd h hno⟩
  · rw [if_neg hkey]
    have hno : getProp (.obj [("ok", .bool false),
        ("error", .str "Perplexity API key required for research"),
        ("help", .obj [("message", .str "Research feature requires Perplexity API key"),
          ("getKey", .str "https://www.perplexity.ai/settings/api"),
          ("setup", .str "Add PERPLEXITY_API_KEY to your .env file")])]) "cached" ≠
        .ok (.bool true) := by
      intro h
      cases h
    exact ⟨⟨fun h => absurd h hno, fun h => absurd h.1 hkey⟩, fun h => absurd h hno⟩

/-- A cache hit is served for every input that has the cache key of the input that created
the entry. `/auth/validate-keys` answers `ok` from the cache for a key exactly
when a live entry is stored under `validate_` followed by the first ten characters of the
key; a successful validation of a key stores such an entry, and for the 300 seconds that
follow every key with the same first ten characters is answered from the cache. `/research`
returns a cached response exactly when a key is available and a live truthy entry is stored
under `research_` followed by the first twenty characters of the Base64 form of the
sanitized query; a successful call stores its response there, and for the 1800 seconds that
follow every query with the same cache key gets that response. -/
theorem cache_hit_by_truncated_key :
    (∀ (env : ProcessEnv) (post : AxiosTransport) (store : CacheStore)
        (started finished : Nat) (k : Option String),
      getProp (validateKeysRoute env post store started finished k).1.body "cached" =
          .ok (.bool true) ↔
        (NodeCache.get store (validateCacheKey k) started).1.truthy = true) ∧
    (∀ (env : ProcessEnv) (post : AxiosTransport) (store : CacheStore)
        (started1 finished1 started2 finished2 : Nat) (k1 k2 : String) (v : JsVal),
      substring k1 0 10 = substring k2 0 10 →
      (NodeCache.get store (validateCacheKey (some k1)) started1).1.truthy = false →
      (callOpenAIChat env post (validateKeysParams (some k1))).2 = .ok v →
      started2 < finished1 + 300 * 1000 →
      getProp (validateKeysRoute env post
          (validateKeysRoute env post store started1 finished1 (some k1)).2
          started2 finished2 (some k2)).1.body "cached" = .ok (.bool true)) ∧
    (∀ (format : JsVal → Except Thrown JsVal) (toStr : JsVal → String)
        (sanitize encode : String → String) (env : ProcessEnv) (post : AxiosTransport)
        (store : CacheStore) (started finished : Nat) (query : String)
        (perplexityKey : Option String),
      getProp (researchRoute format toStr sanitize encode env post store started finished
          query perplexityKey).1.body "cached" = .ok (.bool true) ↔
        (strTruthy (optOr perplexityKey env.PERPLEXITY_API_KEY) = true ∧
          (NodeCache.get store (researchCacheKey encode (sanitize query)) started).1.truthy =
            true)) ∧
    (∀ (format : JsVal → Except Thrown JsVal) (toStr : JsVal → String)
        (sanitize encode : String → String) (env : ProcessEnv) (post : AxiosTransport)
        (store : CacheStore) (started1 finished1 started2 finished2 : Nat)
        (q1 q2 : String) (perplexityKey : Option String) (resp : JsVal),
      substring (encode (sanitize q1)) 0 20 = substring (encode (sanitize q2)) 0 20 →
      strTruthy (optOr perplexityKey env.PERPLEXITY_API_KEY) = true →
      (NodeCache.get store (researchCacheKey encode (sanitize q1)) started1).1.truthy =
        false →
      (callPerplexityForResearch format toStr env post (sanitize q1) perplexityKey none).2 =
        .ok resp →
      resp.truthy = true →
      started2 < finished1 + 1800 * 1000 →
      getProp (researchRoute format toStr sanitize encode env post
          (researchRoute format toStr sanitize encode env post store started1 finished1 q1
            perplexityKey).2
          started2 finished2 q2 perplexityKey).1.body "resp" = .ok resp) := by
  refine ⟨validateKeysRoute_cached_iff, ?_, ?_, ?_⟩
  · intro env post store started1 finished1 started2 finished2 k1 k2 v hsame hmiss hvalid
      hlive
    have hkey : validateCacheKey (some k2) = validateCacheKey (some k1) := by
      simp only [validateCacheKey, Option.map_some', hsame]
    have hstore : (validateKeysRoute env post store started1 finished1 (some k1)).2 =
        NodeCache.set (NodeCache.get store (validateCacheKey (some k1)) started1).2
          (validateCacheKey (some k1)) (.bool true) 300 finished1 := by
      unfold validateKeysRoute
      dsimp only
      rw [if_neg (by rw [hmiss]; exact Bool.false_ne_true), hvalid]
    rw [validateKeysRoute_cached_iff, hstore, hkey, get_after_set _ _ _ _ _ _ hlive]
    rfl
  · intro format toStr sanitize encode env post store started finished query perplexityKey
    exact (researchRoute_cached_iff format toStr sanitize encode env post store started
      finished query perplexityKey).1
  · intro format toStr sanitize encode env post store started1 finished1 started2 finished2
      q1 q2 perplexityKey resp hsame hkeyok hmiss hcall htruthy hlive
    have hkey : researchCacheKey encode (sanitize q2) =
        researchCacheKey encode (sanitize q1) := by
      simp only [researchCacheKey, hsame]
    have hstore : (researchRoute format toStr sanitize encode env post store started1
          finished1 q1 perplexityKey).2 =
        NodeCache.set (NodeCache.get store (researchCacheKey encode (sanitize q1))
            started1).2
          (researchCacheKey encode (sanitize q1)) resp 1800 finished1 := by
      unfold researchRoute
      dsimp only
      rw [if_pos hkeyok, if_neg (by rw [hmiss]; exact Bool.false_ne_true), hcall]
    have hiff := researchRoute_cached_iff format toStr sanitize encode env post
      (researchRoute format toStr sanitize encode env post store started1 finished1 q1
        perplexityKey).2 started2 finished2 q2 perplexityKey
    have hread : (NodeCache.get (researchRoute format toStr sanitize encode env post store
        started1 finished1 q1 perplexityKey).2 (researchCacheKey encode (sanitize q2))
        started2).1 = resp := by
      rw [hstore, hkey, get_after_set _ _ _ _ _ _ hlive]
    rw [hiff.2 (hiff.1.mpr ⟨hkeyok, by rw [hread]; exact htruthy⟩), hread]

/-- After the valid key was validated at time 2 s, the request made with the other key at
time 3 s is answered from the cache. -/
theorem cache_hit_by_truncated_key_witness :
    getProp (validateKeysRoute processEnvNone postOnlyValidKey
        (validateKeysRoute processEnvNone postOnlyValidKey [] 1000 2000 (some validKey)).2
        3000 4000 (some wrongKey)).1.body "cached" = .ok (.bool true) :=
  cache_hit_by_truncated_key.2.1 processEnvNone postOnlyValidKey [] 1000 2000 3000 4000
    validKey wrongKey (.str "ok") rfl rfl rfl (by decide)

end ModelSelector
